import Mathlib

/-!
# komplete-kontrol-cli: streaming completion pipeline

A shallow embedding of the streaming pipeline of the repository
(`internal/llmapi`, `internal/streaming`, `internal/llm`, `internal/tools`,
`cmd/komplete/tui.go`) and of the code around it (`internal/config`,
`internal/verification`, `internal/tui`) together with the properties its
specification states.

Conventions of the embedding:

* a Go `error` is its message (`String`); a `(value, error)` result whose error
  is non-nil is `Except.error`;
* a Go `map[K]V` is an association list read with `List.lookup`;
* wall-clock fields (`time.Now()`) are left out of the messages;
* a `float64` cost is kept symbolically (`Cost`): which expression produced it
  and from which integers;
* goroutines are interleaved by an explicit schedule, one atomic action a step;
* a call that panics returns `none`, and a call that waits for ever on a lock
  ends in `Outcome.blocked`.
-/

set_option autoImplicit false

namespace Komplete

/-! ## internal/llmapi/types.go -/

/-- Go: `type ProviderType string`. -/
abbrev ProviderType := String

def ProviderAnthropic : ProviderType := "anthropic"
def ProviderOpenAI : ProviderType := "openai"
def ProviderGemini : ProviderType := "gemini"
def ProviderVSCode : ProviderType := "vscode"
def ProviderLocal : ProviderType := "local"
def ProviderMCP : ProviderType := "mcp"

/-- A scalar of Go type `any`: a field value of a flat `map[string]any`. -/
inductive Atom where
  | bool (b : Bool)
  | num (n : Int)
  | str (s : String)
  deriving DecidableEq, Repr

/-- A value of Go type `any` as it occurs in tool arguments and JSON schemas:
`obj` is a `map[string]any` of scalars, `objs` a map of such maps. -/
inductive Value where
  | null
  | bool (b : Bool)
  | num (n : Int)
  | str (s : String)
  | strs (ss : List String)
  | other (tag : String)
  | obj (fields : List (String × Atom))
  | objs (fields : List (String × List (String × Atom)))
  deriving DecidableEq, Repr

/-- Go: `llmapi.TokenUsage`. -/
structure TokenUsage where
  InputTokens : Int := 0
  OutputTokens : Int := 0
  TotalTokens : Int := 0
  deriving DecidableEq, Repr

/-- Go: `llmapi.ToolCall`. -/
structure ToolCall where
  ID : String
  Name : String
  Arguments : List (String × Value)
  deriving DecidableEq, Repr

/-- Go: `llmapi.Message` (the tool fields are not used by the pipeline). -/
structure Message where
  Role : String
  Content : String
  deriving DecidableEq, Repr

/-- Go: `llmapi.ToolDefinition`. -/
structure ToolDefinition where
  Name : String
  Description : String
  InputSchema : List (String × Value)
  deriving DecidableEq, Repr

/-- Go: `llmapi.CompletionRequest`; `Temperature` (a float64 handed to the
backend unchanged) is left out. -/
structure CompletionRequest where
  Model : String
  Messages : List Message := []
  MaxTokens : Int := 0
  Tools : List ToolDefinition := []
  System : String := ""
  Stream : Bool := false
  deriving DecidableEq, Repr

/-- Go: `llmapi.CompletionResponse`. -/
structure CompletionResponse where
  ID : String
  Model : String
  Message : Message
  ToolCalls : List ToolCall := []
  StopReason : String := ""
  TokensUsed : TokenUsage := {}
  FinishReason : String := ""
  deriving DecidableEq, Repr

/-- One call made on an `llmapi.StreamHandler`. -/
inductive HandlerCall where
  | onToken (token : String)
  | onDone (response : CompletionResponse)
  | onError (err : String)
  deriving DecidableEq, Repr

/-! ## Go standard library: strings -/

/-- Go: `unicode.IsSpace`. -/
def isSpace (c : Char) : Bool :=
  let n := c.toNat
  (0x09 ≤ n && n ≤ 0x0D) || n == 0x20 || n == 0x85 || n == 0xA0 || n == 0x1680 ||
    (0x2000 ≤ n && n ≤ 0x200A) || n == 0x2028 || n == 0x2029 || n == 0x202F ||
    n == 0x205F || n == 0x3000

/-- Go: `strings.TrimSpace`. -/
def TrimSpace (s : String) : String :=
  ⟨((s.data.dropWhile isSpace).reverse.dropWhile isSpace).reverse⟩

/-! ## internal/tui/messages.go -/

def StreamRoleUser : String := "user"
def StreamRoleAssistant : String := "assistant"
def ToolCallStart : String := "start"
def ToolCallEnd : String := "end"
def FileWriteUpdate : String := "update"

/-- The symbolic value of the `float64` cost of a `StreamHandler`: `zero` is
`0.0`, `perToken n` is `float64(n)/4000 * 0.00000375`, `usage i o` is
`float64(i)*0.000003 + float64(o)*0.000015`. -/
inductive Cost where
  | zero
  | perToken (tokenLen : Nat)
  | usage (input output : Int)
  deriving DecidableEq, Repr

/-- Go: `tools.ToolResult`. -/
structure ToolResult where
  Success : Bool
  Data : Value
  Error : String
  deriving DecidableEq, Repr

/-- The `tea.Msg` values that travel on the event channel. -/
inductive Msg where
  | StreamStartMsg (StreamID Role Prompt Model Provider : String)
  | TokenDeltaMsg (StreamID Role Delta : String)
  | StreamEndMsg (StreamID Role : String) (TokensUsed : Int) (CostUSD : Cost)
  | StreamErrorMsg (StreamID Role Err : String)
  | StatusMsg (StreamID Model Provider : String) (TokensUsed : Int) (CostUSD : Cost)
      (Status : String)
  | ToolCallMsg (StreamID ToolCallID Name : String) (Arguments : List (String × Value))
      (Result : Option ToolResult) (Err : Option String) (Phase : String)
  | FileWriteMsg (StreamID Path Op : String) (Preview : List UInt8) (Bytes : Nat)
      (Err : Option String)
  deriving DecidableEq, Repr

/-! ## internal/streaming/handler.go -/

/-- Go: `streaming.StreamHandler`. The three callbacks are closures supplied
from outside; the embedding keeps whether each is set and the calls made on
them (`invoked`). -/
structure StreamHandler where
  tokens : List String := []
  tokenCount : Nat := 0
  onToken : Bool := false
  onComplete : Bool := false
  onError : Bool := false
  invoked : List HandlerCall := []
  cost : Cost := Cost.zero
  modelName : String := ""
  deriving DecidableEq, Repr

def NewStreamHandler (modelName : String) : StreamHandler :=
  { tokens := [], tokenCount := 0, onToken := false, onComplete := false, onError := false,
    cost := Cost.zero, modelName := modelName }

def StreamHandler.OnToken (h : StreamHandler) (token : String) : StreamHandler :=
  { h with
    tokens := h.tokens ++ [token]
    tokenCount := h.tokenCount + 1
    cost := Cost.perToken token.utf8ByteSize
    invoked := if h.onToken then h.invoked ++ [HandlerCall.onToken token] else h.invoked }

def StreamHandler.OnDone (h : StreamHandler) (response : CompletionResponse) : StreamHandler :=
  { h with
    cost := if response.TokensUsed.TotalTokens > 0 then
        Cost.usage response.TokensUsed.InputTokens response.TokensUsed.OutputTokens
      else h.cost
    invoked := if h.onComplete then h.invoked ++ [HandlerCall.onDone response] else h.invoked }

def StreamHandler.OnError (h : StreamHandler) (err : String) : StreamHandler :=
  { h with invoked := if h.onError then h.invoked ++ [HandlerCall.onError err] else h.invoked }

def StreamHandler.SetCallbacks (h : StreamHandler) (onToken onComplete onError : Bool) :
    StreamHandler :=
  { h with onToken := onToken, onComplete := onComplete, onError := onError }

def StreamHandler.GetTokens (h : StreamHandler) : List String := h.tokens

def StreamHandler.GetTokenCount (h : StreamHandler) : Nat := h.tokenCount

def StreamHandler.GetContent (h : StreamHandler) : String := String.join h.tokens

def StreamHandler.GetCost (h : StreamHandler) : Cost := h.cost

def StreamHandler.Reset (h : StreamHandler) : StreamHandler :=
  { h with tokens := [], tokenCount := 0, cost := Cost.zero }

def StreamHandler.GetModelName (h : StreamHandler) : String := h.modelName

/-- Go: `streaming.endEvent`; `resp` is nil in an error event. -/
structure endEvent where
  resp : Option CompletionResponse := none
  err : Option String := none
  deriving DecidableEq, Repr

/-- Go: `streaming.TUIStreamHandler` with the state of its goroutines.

* `ch`: `none` is a nil channel, `some l` the messages put on the channel so
  far, oldest first (the consumer drains the channel, so a send completes);
* `pending`: the `strings.Builder`;
* `endCh`: the one-slot channel; `endSenders`: the goroutines spawned by the
  `default` branches of `OnDone`/`OnError`, each holding its event;
* `asyncSends`: the goroutines spawned by `sendAsync` that have not sent yet;
* `returned`: `flushLoop` has returned. -/
structure TUIStreamHandler where
  base : StreamHandler
  streamID : String
  provider : String
  ch : Option (List Msg)
  pending : String := ""
  endCh : Option endEvent := none
  endSenders : List endEvent := []
  asyncSends : List Msg := []
  returned : Bool := false
  deriving DecidableEq, Repr

def NewTUIStreamHandler (streamID modelName provider : String) (ch : Option (List Msg)) :
    TUIStreamHandler :=
  { base := NewStreamHandler modelName, streamID := streamID, provider := provider, ch := ch }

def TUIStreamHandler.OnToken (h : TUIStreamHandler) (token : String) : TUIStreamHandler :=
  { h with base := h.base.OnToken token, pending := h.pending ++ token }

/-- The non-blocking signal of `OnDone`/`OnError`: the event takes the slot of
`endCh` when it is free, otherwise a goroutine is left holding it. -/
def TUIStreamHandler.signal (h : TUIStreamHandler) (ev : endEvent) : TUIStreamHandler :=
  match h.endCh with
  | none => { h with endCh := some ev }
  | some _ => { h with endSenders := h.endSenders ++ [ev] }

def TUIStreamHandler.OnDone (h : TUIStreamHandler) (resp : CompletionResponse) :
    TUIStreamHandler :=
  TUIStreamHandler.signal { h with base := h.base.OnDone resp } { resp := some resp }

def TUIStreamHandler.OnError (h : TUIStreamHandler) (err : String) : TUIStreamHandler :=
  TUIStreamHandler.signal { h with base := h.base.OnError err } { err := some err }

def TUIStreamHandler.send (h : TUIStreamHandler) (msg : Msg) : TUIStreamHandler :=
  match h.ch with
  | none => h
  | some l => { h with ch := some (l ++ [msg]) }

def TUIStreamHandler.sendAsync (h : TUIStreamHandler) (msg : Msg) : TUIStreamHandler :=
  match h.ch with
  | none => h
  | some _ => { h with asyncSends := h.asyncSends ++ [msg] }

def TUIStreamHandler.takePending (h : TUIStreamHandler) : String × TUIStreamHandler :=
  if h.pending.utf8ByteSize = 0 then ("", h)
  else (h.pending, { h with pending := "" })

def TUIStreamHandler.flushPending (h : TUIStreamHandler) (final : Bool) : TUIStreamHandler :=
  let (delta, h1) := h.takePending
  if TrimSpace delta = "" then h1
  else
    let h2 := h1.send (Msg.TokenDeltaMsg h1.streamID StreamRoleAssistant delta)
    if !final then
      h2.send (Msg.StatusMsg h2.streamID h2.base.GetModelName h2.provider
        (h2.base.GetTokenCount : Nat) h2.base.GetCost "running")
    else h2

/-- The `case ev := <-h.endCh` branch of `flushLoop`. -/
def TUIStreamHandler.finish (h : TUIStreamHandler) (ev : endEvent) : TUIStreamHandler :=
  let h1 := h.flushPending true
  match ev.err with
  | some e =>
    let h2 := h1.sendAsync (Msg.StreamErrorMsg h1.streamID StreamRoleAssistant e)
    let h3 := h2.sendAsync (Msg.StatusMsg h2.streamID h2.base.GetModelName h2.provider
      (h2.base.GetTokenCount : Nat) h2.base.GetCost "error")
    { h3 with returned := true }
  | none =>
    let used : Int := match ev.resp with
      | some r => if r.TokensUsed.TotalTokens > 0 then r.TokensUsed.TotalTokens else 0
      | none => 0
    let cost := h1.base.GetCost
    let h2 := h1.sendAsync (Msg.StreamEndMsg h1.streamID StreamRoleAssistant used cost)
    let h3 := h2.sendAsync (Msg.StatusMsg h2.streamID h2.base.GetModelName h2.provider
      used cost "complete")
    { h3 with returned := true }

/-- One atomic action of the goroutines around a `TUIStreamHandler`. -/
inductive Step where
  /-- the provider calls `OnToken` -/
  | onToken (token : String)
  /-- the provider calls `OnDone` -/
  | onDone (resp : CompletionResponse)
  /-- the provider calls `OnError` -/
  | onError (err : String)
  /-- the loop `flushLoop` takes `case <-t.C` -/
  | tick
  /-- the loop `flushLoop` takes `case ev := <-h.endCh` -/
  | recvEnd
  /-- a goroutine spawned by `OnDone`/`OnError` completes its send on `endCh` -/
  | deliverEnd
  /-- the goroutine at this position among the pending `sendAsync` ones sends -/
  | deliverAsync (i : Nat)
  deriving DecidableEq, Repr

/-- The effect of one step; a step that is not enabled leaves the state as it is.
An iteration of `flushLoop` is one step: between its buffer swap and its sends
the only shared data it reads are the counters shown in a `StatusMsg`. No lock
is held across a send. -/
def TUIStreamHandler.step (h : TUIStreamHandler) : Step → TUIStreamHandler
  | Step.onToken t => h.OnToken t
  | Step.onDone r => h.OnDone r
  | Step.onError e => h.OnError e
  | Step.tick => if h.returned then h else h.flushPending false
  | Step.recvEnd =>
    if h.returned then h
    else match h.endCh with
      | none => h
      | some ev => TUIStreamHandler.finish { h with endCh := none } ev
  | Step.deliverEnd =>
    match h.endCh, h.endSenders with
    | none, ev :: rest => { h with endCh := some ev, endSenders := rest }
    | _, _ => h
  | Step.deliverAsync i =>
    match h.asyncSends[i]? with
    | none => h
    | some m => { (h.send m) with asyncSends := h.asyncSends.eraseIdx i }

/-- The loop `flushLoop` running against the provider's calls under a schedule. -/
def TUIStreamHandler.run (h : TUIStreamHandler) (steps : List Step) : TUIStreamHandler :=
  steps.foldl TUIStreamHandler.step h

/-- The texts of the `TokenDeltaMsg` events of a message sequence, in order. -/
def deltas : List Msg → List String
  | [] => []
  | Msg.TokenDeltaMsg _ _ d :: ms => d :: deltas ms
  | _ :: ms => deltas ms

/-- The tokens passed to `OnToken` in a schedule, in call order. -/
def tokensOf : List Step → List String
  | [] => []
  | Step.onToken t :: ss => t :: tokensOf ss
  | _ :: ss => tokensOf ss

/-- The messages put on the channel (the empty sequence for a nil channel). -/
def TUIStreamHandler.sent (h : TUIStreamHandler) : List Msg := h.ch.getD []

/-! ## Observations on message sequences and schedules -/

/-- The message is a `StreamEndMsg`. -/
def isStreamEnd : Msg → Bool
  | Msg.StreamEndMsg .. => true
  | _ => false

/-- The message is a `StreamErrorMsg`. -/
def isStreamError : Msg → Bool
  | Msg.StreamErrorMsg .. => true
  | _ => false

/-- A terminal event of a stream: `StreamEndMsg` or `StreamErrorMsg`. -/
def isTerminal (m : Msg) : Bool := isStreamEnd m || isStreamError m

/-- A `TokenDeltaMsg`, or a `StatusMsg` whose status is "running". -/
def isLive : Msg → Bool
  | Msg.TokenDeltaMsg .. => true
  | Msg.StatusMsg _ _ _ _ _ status => status == "running"
  | _ => false

/-- Some terminal event of the sequence is followed, at any distance, by a
`TokenDeltaMsg` or a running `StatusMsg`. -/
def liveAfterTerminal : List Msg → Bool
  | [] => false
  | m :: ms => (isTerminal m && ms.any isLive) || liveAfterTerminal ms

/-- The end event of the first `OnDone`/`OnError` call of a schedule. -/
def firstSignal : List Step → Option endEvent
  | [] => none
  | Step.onDone r :: _ => some { resp := some r }
  | Step.onError e :: _ => some { err := some e }
  | _ :: ss => firstSignal ss

/-- What `flushLoop` maintains: `fs` is the first end signal made so far. -/
def LoopInv (ch0 : List Msg) (fs : Option endEvent) (h : TUIStreamHandler) : Prop :=
  ∃ new, h.ch = some (ch0 ++ new) ∧ liveAfterTerminal new = false ∧
    h.asyncSends.all (fun m => !isLive m) = true ∧
    (h.returned = false →
      h.asyncSends = [] ∧ new.all (fun m => !isTerminal m) = true ∧ h.endCh = fs ∧
        (h.endCh = none → h.endSenders = [])) ∧
    (h.returned = true → ∃ ev, fs = some ev ∧
      (new ++ h.asyncSends).countP isStreamEnd = (if ev.err.isSome then 0 else 1) ∧
      (new ++ h.asyncSends).countP isStreamError = (if ev.err.isSome then 1 else 0))

/-- The end event a single step signals, if it is an `OnDone`/`OnError` call. -/
def signalOf : Step → Option endEvent
  | Step.onDone r => some { resp := some r }
  | Step.onError e => some { err := some e }
  | _ => none

/-- The two messages `flushLoop` hands to `sendAsync` on an end event, read off
the state after the final flush. -/
def finishMsgs (h1 : TUIStreamHandler) (ev : endEvent) : Msg × Msg :=
  match ev.err with
  | some e =>
    (Msg.StreamErrorMsg h1.streamID StreamRoleAssistant e,
     Msg.StatusMsg h1.streamID h1.base.GetModelName h1.provider (h1.base.GetTokenCount : Nat)
       h1.base.GetCost "error")
  | none =>
    (Msg.StreamEndMsg h1.streamID StreamRoleAssistant
      (match ev.resp with
        | some r => if r.TokensUsed.TotalTokens > 0 then r.TokensUsed.TotalTokens else 0
        | none => 0) h1.base.GetCost,
     Msg.StatusMsg h1.streamID h1.base.GetModelName h1.provider
      (match ev.resp with
        | some r => if r.TokensUsed.TotalTokens > 0 then r.TokensUsed.TotalTokens else 0
        | none => 0) h1.base.GetCost "complete")

/-! ## Go standard library: case folding and substring search -/

/-- Go: `unicode.ToLower` on the code points whose image is an ASCII letter:
`A`–`Z`, U+0130 (to `i`) and U+212A (to `k`). Go maps every other code point to
a non-ASCII one; it is left as it is here, which changes no search for an
ASCII keyword. -/
def toLowerRune (c : Char) : Char :=
  if c.toNat = 0x130 then 'i'
  else if c.toNat = 0x212A then 'k'
  else c.toLower

/-- Go: `strings.ToLower` (see `toLowerRune`). -/
def ToLower (s : String) : String := ⟨s.data.map toLowerRune⟩

/-- The list `sub` occurs as a contiguous block of the list. -/
def containsList (sub : List Char) : List Char → Bool
  | [] => sub.isEmpty
  | c :: cs => sub.isPrefixOf (c :: cs) || containsList sub cs

/-- Go: `strings.Contains`. -/
def Contains (s substr : String) : Bool := containsList substr.data s.data

/-! ## internal/llmapi: providers -/

/-- Go: `llmapi.ModelCapabilities`. -/
structure ModelCapabilities where
  Streaming : Bool := false
  Tools : Bool := false
  Vision : Bool := false
  Multimodal : Bool := false
  deriving DecidableEq, Repr

/-- Go: `llmapi.ModelInfo`; `CostPer1k` (a float64 used for display only) is
left out. -/
structure ModelInfo where
  ID : String
  Name : String
  Provider : ProviderType
  Capabilities : ModelCapabilities := {}
  MaxTokens : Int := 0
  deriving DecidableEq, Repr

/-- Go: the `llmapi.Provider` interface, as the behaviour of one backend in a
fixed environment: `StreamComplete` yields the calls it makes on the handler,
in order, and its result. -/
structure Provider where
  Name : String
  Type_ : ProviderType
  Complete : CompletionRequest → Except String CompletionResponse
  StreamComplete : CompletionRequest → List HandlerCall × Except String CompletionResponse
  ListModels : Except String (List ModelInfo)
  IsAvailable : Bool

/-! ## internal/llm/model_manager.go -/

/-- Go: `llm.ModelManager` (the configuration it was built from is not part of
the routing state). -/
structure ModelManager where
  providers : List (ProviderType × Provider) := []
  modelIndex : List (String × ProviderType) := []
  currentModel : String := ""
  fallbackChain : List String := []

def ModelManager.GetProvider (mm : ModelManager) (providerType : ProviderType) :
    Except String Provider :=
  match mm.providers.lookup providerType with
  | none => Except.error ("provider " ++ providerType ++ " not configured")
  | some provider => Except.ok provider

def parseProviderFromModelID (modelID : String) : ProviderType :=
  let lower := ToLower modelID
  if Contains lower "claude" then ProviderAnthropic
  else if Contains lower "gpt" then ProviderOpenAI
  else if Contains lower "gemini" then ProviderGemini
  else if Contains lower "vscode" then ProviderVSCode
  else if Contains lower "local" then ProviderLocal
  else ProviderAnthropic

def ModelManager.GetProviderForModel (mm : ModelManager) (modelID : String) :
    Except String Provider :=
  match mm.modelIndex.lookup modelID with
  | some pType => mm.GetProvider pType
  | none => mm.GetProvider (parseProviderFromModelID modelID)

def ModelManager.Complete (mm : ModelManager) (req : CompletionRequest) :
    Except String CompletionResponse :=
  match mm.GetProviderForModel req.Model with
  | Except.error err => Except.error err
  | Except.ok provider => provider.Complete req

def ModelManager.StreamComplete (mm : ModelManager) (req : CompletionRequest) :
    List HandlerCall × Except String CompletionResponse :=
  match mm.GetProviderForModel req.Model with
  | Except.error err => ([], Except.error err)
  | Except.ok provider => provider.StreamComplete req

/-- One call `CompleteWithFallback` makes while it walks its candidates. -/
inductive FallbackCall where
  /-- the call `mm.GetProviderForModel(modelID)` -/
  | resolve (modelID : String)
  /-- the call `provider.IsAvailable(ctx)` on the provider resolved for `modelID` -/
  | probe (modelID : String)
  /-- the call `provider.Complete(ctx, &reqCopy)` with `reqCopy.Model = modelID` -/
  | complete (modelID : String)
  deriving DecidableEq, Repr

/-- The `for _, modelID := range modelsToTry` loop of `CompleteWithFallback`,
with the calls made so far. -/
def ModelManager.fallbackLoop (mm : ModelManager) (req : CompletionRequest) :
    List String → List FallbackCall → Except String CompletionResponse × List FallbackCall
  | [], log => (Except.error "all models in fallback chain unavailable", log)
  | modelID :: rest, log =>
    match mm.GetProviderForModel modelID with
    | Except.error _ => mm.fallbackLoop req rest (log ++ [FallbackCall.resolve modelID])
    | Except.ok provider =>
      if !provider.IsAvailable then
        mm.fallbackLoop req rest
          (log ++ [FallbackCall.resolve modelID, FallbackCall.probe modelID])
      else
        match provider.Complete { req with Model := modelID } with
        | Except.ok resp =>
          (Except.ok resp, log ++ [FallbackCall.resolve modelID, FallbackCall.probe modelID,
            FallbackCall.complete modelID])
        | Except.error _ =>
          mm.fallbackLoop req rest (log ++ [FallbackCall.resolve modelID,
            FallbackCall.probe modelID, FallbackCall.complete modelID])

/-- Go: `ModelManager.CompleteWithFallback`, returning the result and the calls
it made, in order. -/
def ModelManager.CompleteWithFallback (mm : ModelManager) (req : CompletionRequest) :
    Except String CompletionResponse × List FallbackCall :=
  mm.fallbackLoop req (req.Model :: mm.fallbackChain) []

/-! ## internal/config/config.go -/

/-- Go: `DefaultConfig().Models.Default`. -/
def DefaultConfig_Default : String := "claude-sonnet-4.5"

/-- Go: `DefaultConfig().Models.FallbackChain`. -/
def DefaultConfig_FallbackChain : List String :=
  ["claude-sonnet-4.5", "claude-3.5-haiku", "gpt-4o-mini"]

/-! ## internal/tools/tool_manager.go -/

/-- Go: the `tools.ToolHandler` interface: `Execute` returns a
`(*ToolResult, error)` pair, either of which may be nil. -/
abbrev ToolHandler := List (String × Value) → Option ToolResult × Option String

/-- Go: `tools.Tool`. -/
structure Tool where
  ID : String
  Name : String
  Description : String := ""
  InputSchema : List (String × Value) := []
  Handler : ToolHandler
  Provider : String := ""
  Enabled : Bool

/-- Go: `tools.MCPServer` (the transport is not part of the dispatch state). -/
structure MCPServer where
  ID : String
  Name : String
  URL : String := ""
  Tools : List Tool := []
  Connected : Bool

/-- Go: `tools.ToolManager`. -/
structure ToolManager where
  tools : List (String × Tool) := []
  mcpServers : List (String × MCPServer) := []

/-- What `ToolManager.Execute` returns, with the inputs on which it invoked a
tool handler (none or one). -/
structure ExecOutcome where
  result : Option ToolResult
  err : Option String
  handlerCalls : List (String × List (String × Value))
  deriving DecidableEq, Repr

def ToolManager.GetTool (tm : ToolManager) (id : String) : Except String Tool :=
  match tm.tools.lookup id with
  | none => Except.error ("tool " ++ id ++ " not found")
  | some tool => Except.ok tool

def ToolManager.Execute (tm : ToolManager) (toolID : String) (input : List (String × Value)) :
    ExecOutcome :=
  match tm.GetTool toolID with
  | Except.error err => { result := none, err := some err, handlerCalls := [] }
  | Except.ok tool =>
    if !tool.Enabled then
      { result := none, err := some ("tool " ++ toolID ++ " is not enabled"), handlerCalls := [] }
    else
      { result := (tool.Handler input).1, err := (tool.Handler input).2,
        handlerCalls := [(toolID, input)] }

/-- The definition `ToLLMToolDefinitions` emits for an enabled tool. -/
def Tool.toDefinition (tool : Tool) : ToolDefinition :=
  { Name := tool.ID, Description := tool.Description, InputSchema := tool.InputSchema }

def ToolManager.ToLLMToolDefinitions (tm : ToolManager) : List ToolDefinition :=
  ((tm.tools.map Prod.snd).filter (fun tool => tool.Enabled)).map Tool.toDefinition ++
    ((tm.mcpServers.map Prod.snd).filter (fun server => server.Connected)).flatMap
      (fun server => (server.Tools.filter (fun tool => tool.Enabled)).map Tool.toDefinition)

/-! ## Vocabulary for the fallback chain -/

/-- The response candidate `modelID` yields when it is tried: its provider
resolves, reports `IsAvailable = true`, and its `Complete` call on the request
(with `Model` set to the candidate) succeeds; `none` otherwise. -/
def ModelManager.usable (mm : ModelManager) (req : CompletionRequest) (modelID : String) :
    Option CompletionResponse :=
  match mm.GetProviderForModel modelID with
  | Except.error _ => none
  | Except.ok provider =>
    if provider.IsAvailable then
      match provider.Complete { req with Model := modelID } with
      | Except.ok resp => some resp
      | Except.error _ => none
    else none

/-- The calls one loop iteration makes on candidate `modelID`. -/
def ModelManager.callsFor (mm : ModelManager) (modelID : String) : List FallbackCall :=
  match mm.GetProviderForModel modelID with
  | Except.error _ => [FallbackCall.resolve modelID]
  | Except.ok provider =>
    if provider.IsAvailable then
      [FallbackCall.resolve modelID, FallbackCall.probe modelID, FallbackCall.complete modelID]
    else [FallbackCall.resolve modelID, FallbackCall.probe modelID]

/-- Candidate `modelID` is skipped or fails: it does not resolve to a provider,
or its provider reports unavailable, or its `Complete` call returns an error. -/
def ModelManager.candidateFails (mm : ModelManager) (req : CompletionRequest)
    (modelID : String) : Prop :=
  (∃ err, mm.GetProviderForModel modelID = Except.error err) ∨
  (∃ p, mm.GetProviderForModel modelID = Except.ok p ∧ p.IsAvailable = false) ∨
  (∃ p err, mm.GetProviderForModel modelID = Except.ok p ∧ p.IsAvailable = true ∧
    p.Complete { req with Model := modelID } = Except.error err)

/-! ## internal/llm/providers/mock.go -/

/-- What a provider sees of its `context.Context`: `doneAt = some k` when the
context is found done from the `k`-th poll on (polls are counted from 0),
`none` when it is never found done; `err` is the message of `ctx.Err()`. -/
structure Ctx where
  doneAt : Option Nat := none
  err : String := "context canceled"
  deriving DecidableEq, Repr

/-- The `case <-ctx.Done()` branch is taken at poll `i`. -/
def Ctx.doneBy (ctx : Ctx) (i : Nat) : Bool :=
  match ctx.doneAt with
  | some k => decide (k ≤ i)
  | none => false

/-- Go: the `parts` of `MockProvider.StreamComplete`. -/
def mockParts : List String :=
  ["Hello", ", ", "world", "!\n", "This ", "is ", "a ", "mock ", "stream.\n"]

/-- Go: the tool call of the mock response. -/
def mockToolCall : ToolCall :=
  { ID := "tool-1"
    Name := "write_file"
    Arguments := [("path", Value.str "testdata/tui-mock.txt"),
      ("content", Value.str "hello from mock\n"), ("mkdir", Value.bool true)] }

/-- Go: the response `MockProvider.StreamComplete` builds after its loop. -/
def mockStreamResponse (req : CompletionRequest) : CompletionResponse :=
  { ID := "mock-stream"
    Model := req.Model
    Message := { Role := "assistant", Content := String.join mockParts : Message }
    ToolCalls := [mockToolCall]
    TokensUsed :=
      { OutputTokens := ((String.join mockParts).utf8ByteSize / 4 : Nat)
        TotalTokens := ((String.join mockParts).utf8ByteSize / 4 : Nat) }
    StopReason := "stop" }

/-- The `for _, s := range parts` loop of `MockProvider.StreamComplete`: `i` is
the number of polls of the context made so far, `calls` the handler calls. -/
def mockStreamLoop (ctx : Ctx) (req : CompletionRequest) :
    List String → Nat → List HandlerCall → List HandlerCall × Except String CompletionResponse
  | [], _, calls =>
    (calls ++ [HandlerCall.onDone (mockStreamResponse req)], Except.ok (mockStreamResponse req))
  | s :: rest, i, calls =>
    if ctx.doneBy i then (calls ++ [HandlerCall.onError ctx.err], Except.error ctx.err)
    else mockStreamLoop ctx req rest (i + 1) (calls ++ [HandlerCall.onToken s])

/-- Go: `MockProvider.StreamComplete`. -/
def MockProvider.StreamComplete (ctx : Ctx) (req : CompletionRequest) :
    List HandlerCall × Except String CompletionResponse :=
  mockStreamLoop ctx req mockParts 0 []

/-! ## internal/llm/providers/gemini.go -/

/-- A part of a candidate's content: a `genai.Text` or something else. -/
inductive GeminiPart where
  | text (s : String)
  | other
  deriving DecidableEq, Repr

/-- What one `stream.Next()` returns before the end of the stream: a response
with the parts of each of its candidates, or an error other than `io.EOF`. -/
inductive GeminiItem where
  | resp (candidates : List (List GeminiPart))
  | err (message : String)
  deriving DecidableEq, Repr

/-- The `genai.Client`: the stream it yields for a request (the model handle,
its generation settings and the prompt are all computed from the request);
`io.EOF` follows the last item. -/
structure GeminiClient where
  GenerateContentStream : CompletionRequest → List GeminiItem

/-- Go: `providers.GeminiProvider`; `client` is nil when `genai.NewClient`
failed in `NewGeminiProvider`. -/
structure GeminiProvider where
  client : Option GeminiClient
  apiKey : String
  models : List ModelInfo := []

/-- Go: `generateID`, at `time.Now().UnixNano() = now`. -/
def generateID (now : Nat) : String := "gemini-" ++ toString now

/-- The texts of a response's candidates, in the order the loops visit them. -/
def geminiTexts (candidates : List (List GeminiPart)) : List String :=
  (candidates.flatMap id).filterMap fun part =>
    match part with
    | GeminiPart.text s => some s
    | GeminiPart.other => none

/-- The `for { resp, err := stream.Next() ... }` loop of
`GeminiProvider.StreamComplete`. -/
def geminiStreamLoop (now : Nat) (req : CompletionRequest) :
    List GeminiItem → String → List HandlerCall →
      List HandlerCall × Except String CompletionResponse
  | [], fullContent, calls =>
    let response : CompletionResponse :=
      { ID := generateID now
        Model := req.Model
        Message := { Role := "assistant", Content := fullContent : Message }
        TokensUsed := { InputTokens := 0, OutputTokens := 0, TotalTokens := 0 }
        StopReason := "stop" }
    (calls ++ [HandlerCall.onDone response], Except.ok response)
  | GeminiItem.err e :: _, _, calls =>
    (calls ++ [HandlerCall.onError ("gemini stream error: " ++ e)],
      Except.error ("gemini stream error: " ++ e))
  | GeminiItem.resp candidates :: rest, fullContent, calls =>
    geminiStreamLoop now req rest (fullContent ++ String.join (geminiTexts candidates))
      (calls ++ (geminiTexts candidates).map HandlerCall.onToken)

/-- Go: `GeminiProvider.StreamComplete`. -/
def GeminiProvider.StreamComplete (p : GeminiProvider) (now : Nat) (req : CompletionRequest) :
    List HandlerCall × Except String CompletionResponse :=
  match p.client with
  | none => ([], Except.error "gemini client not initialized")
  | some client => geminiStreamLoop now req (client.GenerateContentStream req) "" []

/-! ## The callback protocol of `StreamComplete` -/

/-- The call is `OnDone` or `OnError`. -/
def HandlerCall.isTerminal : HandlerCall → Bool
  | HandlerCall.onToken _ => false
  | _ => true

/-- The calls a `StreamComplete` made before returning `res` follow the
protocol: exactly one terminal callback, made last (so no `OnToken` follows
it), which is `OnDone` when a response is returned and `OnError` when an error
is. -/
def followsProtocol (calls : List HandlerCall) (res : Except String CompletionResponse) : Bool :=
  match calls.reverse, res with
  | HandlerCall.onDone _ :: earlier, Except.ok _ => earlier.all fun c => !c.isTerminal
  | HandlerCall.onError _ :: earlier, Except.error _ => earlier.all fun c => !c.isTerminal
  | _, _ => false

/-! ## cmd/komplete/tui.go: one prompt cycle -/

/-- Go: the bytes of a string. -/
def goBytes (s : String) : List UInt8 := s.data.flatMap String.utf8EncodeChar

/-- Go: `v, _ := args[key].(string)`. -/
def argString (args : List (String × Value)) (key : String) : String :=
  match args.lookup key with
  | some (Value.str s) => s
  | _ => ""

/-- An action of the execution goroutine: a call the provider makes on the
handler during `StreamComplete`, or a send on `msgCh`. -/
inductive MainAction where
  | call (c : HandlerCall)
  | emit (m : Msg)
  deriving DecidableEq, Repr

/-- The body of `for _, tc := range resp.ToolCalls`. -/
def toolCallActions (tm : ToolManager) (streamID : String) (tc : ToolCall) : List MainAction :=
  let out := tm.Execute tc.Name tc.Arguments
  [MainAction.emit (Msg.ToolCallMsg streamID tc.ID tc.Name tc.Arguments none none ToolCallStart)] ++
  (if tc.Name = "write_file" then
    let path := argString tc.Arguments "path"
    let content := argString tc.Arguments "content"
    let preview :=
      if content.utf8ByteSize > 180 then (goBytes content).take 180 ++ goBytes "..."
      else goBytes content
    [MainAction.emit
      (Msg.FileWriteMsg streamID path FileWriteUpdate preview content.utf8ByteSize out.err)]
   else []) ++
  [MainAction.emit
    (Msg.ToolCallMsg streamID tc.ID tc.Name tc.Arguments out.result out.err ToolCallEnd)]

/-- A step of the goroutines that run beside the execution goroutine. -/
inductive BgStep where
  | tick
  | recvEnd
  | deliverEnd
  | deliverAsync (i : Nat)
  deriving DecidableEq, Repr

def BgStep.toStep : BgStep → Step
  | BgStep.tick => Step.tick
  | BgStep.recvEnd => Step.recvEnd
  | BgStep.deliverEnd => Step.deliverEnd
  | BgStep.deliverAsync i => Step.deliverAsync i

def HandlerCall.toStep : HandlerCall → Step
  | HandlerCall.onToken t => Step.onToken t
  | HandlerCall.onDone r => Step.onDone r
  | HandlerCall.onError e => Step.onError e

/-- Who moves next: the execution goroutine (its next action) or one of the
goroutines of the handler. -/
inductive Sched where
  | main
  | background (b : BgStep)
  deriving DecidableEq, Repr

/-- A prompt cycle in progress: the handler with the event channel, and what
the execution goroutine has still to do. -/
structure CycleState where
  h : TUIStreamHandler
  todo : List MainAction
  deriving DecidableEq, Repr

def CycleState.step (s : CycleState) : Sched → CycleState
  | Sched.main =>
    match s.todo with
    | [] => s
    | MainAction.call c :: rest => { h := s.h.step c.toStep, todo := rest }
    | MainAction.emit m :: rest => { h := { s.h with ch := some (s.h.sent ++ [m]) }, todo := rest }
  | Sched.background b => { s with h := s.h.step b.toStep }

/-- Go: the body of `for prompt := range promptCh` in `NewTUICommand`, run
under a schedule on a channel that holds `ch0`; `mock` is
`cmd.Flags().Changed("mock")`. -/
def promptCycle (mm : ModelManager) (tm : ToolManager) (modelID streamID prompt : String)
    (mock : Bool) (maxTokens : Int) (ch0 : List Msg) (sched : List Sched) : CycleState :=
  let provider :=
    match mm.GetProviderForModel modelID with
    | Except.ok p => p.Name
    | Except.error _ => ""
  let ch1 := ch0 ++ [Msg.StreamStartMsg streamID StreamRoleUser prompt modelID provider]
  let h := NewTUIStreamHandler streamID modelID provider (some ch1)
  let modelID1 := if mock then "mock-stream" else modelID
  let req : CompletionRequest :=
    { Model := modelID1
      System := "You are a helpful software engineering assistant."
      Messages := [{ Role := "user", Content := prompt }]
      MaxTokens := maxTokens
      Stream := true
      Tools := tm.ToLLMToolDefinitions }
  let run := mm.StreamComplete req
  let toolActions :=
    match run.2 with
    | Except.ok resp => resp.ToolCalls.flatMap (toolCallActions tm streamID)
    | Except.error _ => []
  sched.foldl CycleState.step { h := h, todo := run.1.map MainAction.call ++ toolActions }

/-- A `StatusMsg` whose status is "complete" or "error". -/
def isTerminalStatus : Msg → Bool
  | Msg.StatusMsg _ _ _ _ _ status => status == "complete" || status == "error"
  | _ => false

/-! ## Sample backends and managers -/

/-- The response a sample backend returns for a model id. -/
def sampleResponse (modelID : String) : CompletionResponse :=
  { ID := "resp-" ++ modelID, Model := modelID,
    Message := { Role := "assistant", Content := "ok" : Message } }

/-- A backend with a fixed availability whose calls all succeed or all fail. -/
def sampleProvider (name : String) (type : ProviderType) (available succeeds : Bool) :
    Provider :=
  { Name := name
    Type_ := type
    Complete := fun req =>
      if succeeds then Except.ok (sampleResponse req.Model)
      else Except.error (name ++ ": request failed")
    StreamComplete := fun req =>
      if succeeds then
        ([HandlerCall.onToken "ok", HandlerCall.onDone (sampleResponse req.Model)],
          Except.ok (sampleResponse req.Model))
      else
        ([HandlerCall.onError (name ++ ": request failed")],
          Except.error (name ++ ": request failed"))
    ListModels := Except.ok []
    IsAvailable := available }

/-- P1 unavailable, P2 available but failing, P3 succeeding; the request names
`m1` and the chain is `m2`, `m3`. -/
def threeBackends : ModelManager :=
  { providers := [(ProviderAnthropic, sampleProvider "P1" ProviderAnthropic false true),
      (ProviderOpenAI, sampleProvider "P2" ProviderOpenAI true false),
      (ProviderGemini, sampleProvider "P3" ProviderGemini true true)]
    modelIndex := [("m1", ProviderAnthropic), ("m2", ProviderOpenAI), ("m3", ProviderGemini)]
    currentModel := "m1"
    fallbackChain := ["m2", "m3"] }

/-- The manager of the default configuration with one reachable backend whose
requests fail (an Anthropic key is set, discovery found no model). -/
def defaultChainManager : ModelManager :=
  { providers := [(ProviderAnthropic, sampleProvider "Anthropic" ProviderAnthropic true false)]
    modelIndex := []
    currentModel := DefaultConfig_Default
    fallbackChain := DefaultConfig_FallbackChain }

/-- A manager whose index sends an id full of other backends' keywords to the
local backend. -/
def indexedManager : ModelManager :=
  { providers := [(ProviderAnthropic, sampleProvider "Anthropic" ProviderAnthropic true true),
      (ProviderLocal, sampleProvider "Local" ProviderLocal true true)]
    modelIndex := [("claude-gpt-gemini", ProviderLocal)] }

/-- A handler that records nothing and reports success. -/
def okHandler : ToolHandler := fun _ =>
  (some { Success := true, Data := Value.null, Error := "" }, none)

/-- An enabled built-in tool. -/
def writeFileTool : Tool :=
  { ID := "write_file"
    Name := "write_file"
    Handler := okHandler
    Enabled := true }

/-- A registered tool that is switched off. -/
def disabledSearchTool : Tool :=
  { ID := "tavily_search"
    Name := "Tavily Search"
    Handler := okHandler
    Enabled := false }

/-- A registry with an enabled and a disabled tool. -/
def sampleTools : ToolManager :=
  { tools := [("write_file", writeFileTool), ("tavily_search", disabledSearchTool)] }

/-- The manager `NewModelManager` builds when no backend is configured (no API
key, VS Code and local backends off, mock backend off), as under
`DefaultConfig()`. -/
def emptyManager : ModelManager :=
  { providers := []
    modelIndex := []
    currentModel := DefaultConfig_Default
    fallbackChain := DefaultConfig_FallbackChain }

/-- Tokens whose middle one is flushed alone: "Hello", a tick, " ", a tick,
"world", then `OnDone`, the end branch of the loop and both deliveries. -/
def loneSpaceSchedule : List Step :=
  [Step.onToken "Hello", Step.tick, Step.onToken " ", Step.tick, Step.onToken "world",
    Step.onDone (sampleResponse "m"), Step.recvEnd, Step.deliverAsync 0, Step.deliverAsync 0]

/-! ## Text a flush discards -/

/-- The text a step of the loop removes from the buffer without sending it:
the whole buffer, when the step flushes a buffer that is all white space. -/
def TUIStreamHandler.discards (h : TUIStreamHandler) : Step → String
  | Step.tick =>
    if h.returned then "" else if TrimSpace h.pending = "" then h.pending else ""
  | Step.recvEnd =>
    if h.returned then ""
    else match h.endCh with
      | none => ""
      | some _ => if TrimSpace h.pending = "" then h.pending else ""
  | _ => ""

/-- No step of the schedule discards text. -/
def TUIStreamHandler.lossless (h : TUIStreamHandler) : List Step → Bool
  | [] => true
  | s :: ss => (h.discards s == "") && (h.step s).lossless ss

/-- The token a step passes to `OnToken`, the empty string for any other step. -/
def Step.tokenText : Step → String
  | Step.onToken t => t
  | _ => ""

/-! ## Go standard library: paths on Unix -/

/-- Go: `strings.HasPrefix`. -/
def HasPrefix (s p : String) : Bool := p.data.isPrefixOf s.data

/-- Go: `filepath.IsAbs` on Unix. -/
def IsAbs (path : String) : Bool := HasPrefix path "/"

/-- The elements of a path between its separators, empty ones included. -/
def splitSlash : List Char → List (List Char)
  | [] => [[]]
  | c :: cs =>
    match splitSlash cs with
    | [] => [[]]
    | first :: rest => if c = '/' then [] :: first :: rest else (c :: first) :: rest

/-- One element met while cleaning a path: `out` holds the elements kept so
far, last one first. -/
def cleanStep (rooted : Bool) (out : List (List Char)) (elem : List Char) : List (List Char) :=
  if elem = [] ∨ elem = ['.'] then out
  else if elem = ['.', '.'] then
    match out with
    | [] => if rooted then [] else [elem]
    | last :: before => if last = ['.', '.'] then elem :: last :: before else before
  else elem :: out

/-- Go: `filepath.Clean` on Unix. -/
def Clean (path : String) : String :=
  let rooted := IsAbs path
  let kept := ((splitSlash path.data).foldl (cleanStep rooted) []).reverse
  let body := String.intercalate "/" (kept.map String.mk)
  if rooted then "/" ++ body else if body = "" then "." else body

/-- The part of a path up to and including its last separator. -/
def dirPart (cs : List Char) : List Char :=
  (cs.reverse.dropWhile fun c => c != '/').reverse

/-- Go: `filepath.Dir` on Unix. -/
def Dir (path : String) : String := Clean ⟨dirPart path.data⟩

/-- Go: `filepath.Join(cwd, path)`, the location a relative path designates. -/
def resolveIn (cwd path : String) : String := Clean (cwd ++ "/" ++ path)

/-- The cleaned location `target` lies in the cleaned directory `cwd`. -/
def insideDir (cwd target : String) : Bool :=
  target == cwd || HasPrefix target (if cwd = "/" then "/" else cwd ++ "/")

/-- Go: `strings.EqualFold` where one side is a word of ASCII letters none of
which has a non-ASCII case variant (such as "append"). -/
def EqualFold (s t : String) : Bool := s.data.map Char.toLower == t.data.map Char.toLower

/-! ## internal/tools/write_file.go -/

/-- Go: `v, _ := args[key].(bool)`. -/
def argBool (args : List (String × Value)) (key : String) : Bool :=
  match args.lookup key with
  | some (Value.bool b) => b
  | _ => false

/-- A call `WriteFileHandler.Execute` makes on the file system. -/
inductive FsOp where
  | MkdirAll (dir : String)
  | OpenFile (path : String)
  | WriteString (path content : String)
  | Close (path : String)
  | WriteFile (path content : String)
  deriving DecidableEq, Repr

/-- The file system's answers: the error each call returns, `none` for
success. -/
structure FsEnv where
  MkdirAll : String → Option String
  OpenFile : String → Option String
  WriteString : String → String → Option String
  WriteFile : String → String → Option String

/-- The failed result the handler returns with an error. -/
def failedResult (err : String) : Option ToolResult × Option String :=
  (some { Success := false, Data := Value.null, Error := err }, some err)

/-- The result of a successful write. -/
def writtenResult (path content mode : String) : Option ToolResult × Option String :=
  (some { Success := true
          Data := Value.obj [("path", Atom.str path), ("bytes", Atom.num content.utf8ByteSize),
            ("mode", Atom.str mode)]
          Error := "" }, none)

/-- Go: `WriteFileHandler.Execute`, with the file-system calls it makes. -/
def WriteFileHandler.Execute (fs : FsEnv) (input : List (String × Value)) :
    (Option ToolResult × Option String) × List FsOp :=
  let content := argString input "content"
  let mode := argString input "mode"
  let mkdir := argBool input "mkdir"
  let path := TrimSpace (argString input "path")
  if path = "" then (failedResult "missing path", [])
  else if IsAbs path then (failedResult "absolute paths are not allowed", [])
  else
    let made := if mkdir then [FsOp.MkdirAll (Dir path)] else []
    match (if mkdir then fs.MkdirAll (Dir path) else none) with
    | some err => (failedResult err, made)
    | none =>
      if EqualFold mode "append" then
        match fs.OpenFile path with
        | some err => (failedResult err, made ++ [FsOp.OpenFile path])
        | none =>
          match fs.WriteString path content with
          | some err =>
            (failedResult err,
              made ++ [FsOp.OpenFile path, FsOp.WriteString path content, FsOp.Close path])
          | none =>
            (writtenResult path content "append",
              made ++ [FsOp.OpenFile path, FsOp.WriteString path content, FsOp.Close path])
      else
        match fs.WriteFile path content with
        | some err => (failedResult err, made ++ [FsOp.WriteFile path content])
        | none => (writtenResult path content "overwrite", made ++ [FsOp.WriteFile path content])

/-- The call creates a directory. -/
def FsOp.isMkdir : FsOp → Bool
  | FsOp.MkdirAll _ => true
  | _ => false

/-- The path a call creates, opens or writes. -/
def FsOp.target : FsOp → String
  | FsOp.MkdirAll dir => dir
  | FsOp.OpenFile path => path
  | FsOp.WriteString path _ => path
  | FsOp.Close path => path
  | FsOp.WriteFile path _ => path

/-- A file system on which every call succeeds. -/
def okFs : FsEnv :=
  { MkdirAll := fun _ => none
    OpenFile := fun _ => none
    WriteString := fun _ _ => none
    WriteFile := fun _ _ => none }

/-! ## internal/config/config.go: tool settings -/

/-- Go: `config.TavilyConfig`. -/
structure TavilyConfig where
  Enabled : Bool := false
  APIKey : String := ""
  MaxResults : Int := 0
  SearchDepth : String := ""
  deriving DecidableEq, Repr

/-- Go: `config.Base44Config`. -/
structure Base44Config where
  Enabled : Bool := false
  APIKey : String := ""
  WorkspaceID : String := ""
  deriving DecidableEq, Repr

/-- Go: `config.ToolsConfig`, the part `NewToolManager` reads. -/
structure ToolsConfig where
  Tavily : TavilyConfig := {}
  Base44 : Base44Config := {}
  deriving DecidableEq, Repr

/-! ## internal/tools/tavily.go, base44.go -/

/-- Go: `v, ok := args[key].(string)`. -/
def argStringOk (args : List (String × Value)) (key : String) : Option String :=
  match args.lookup key with
  | some (Value.str s) => some s
  | _ => none

/-- The search request `TavilyHandler.Execute` sends. -/
structure TavilyRequest where
  api_key : String
  query : String
  max_results : Int
  search_depth : String
  deriving DecidableEq, Repr

/-- Go: `TavilyHandler.Execute`; `net` is the outcome of the HTTP exchange
(sending the request, reading and parsing the response) for a request. -/
def TavilyHandler.Execute (cfg : TavilyConfig)
    (net : TavilyRequest → Option ToolResult × Option String) : ToolHandler := fun input =>
  if cfg.APIKey = "" then (none, some "Tavily API key not configured")
  else
    match argStringOk input "query" with
    | none => (none, some "query is required")
    | some query =>
      let maxResults :=
        match input.lookup "max_results" with
        | some (Value.num mr) => mr
        | _ => cfg.MaxResults
      let searchDepth :=
        match argStringOk input "search_depth" with
        | some sd => sd
        | none => cfg.SearchDepth
      net
        { api_key := cfg.APIKey
          query := query
          max_results := maxResults
          search_depth := searchDepth }

/-- Go: `TavilyHandler.IsEnabled`. -/
def TavilyHandler.IsEnabled (cfg : TavilyConfig) : Bool := cfg.Enabled && cfg.APIKey != ""

/-- The generation request `Base44Handler.Execute` sends; `workspace_id` is
left out of the body when empty. -/
structure Base44Request where
  api_key : String
  prompt : String
  workspace_id : String
  deriving DecidableEq, Repr

/-- Go: `Base44Handler.Execute`; `net` is the outcome of the HTTP exchange. -/
def Base44Handler.Execute (cfg : Base44Config)
    (net : Base44Request → Option ToolResult × Option String) : ToolHandler := fun input =>
  if cfg.APIKey = "" then (none, some "Base44 API key not configured")
  else
    match argStringOk input "prompt" with
    | none => (none, some "prompt is required")
    | some prompt =>
      let workspaceID :=
        match argStringOk input "workspace_id" with
        | some wid => wid
        | none => cfg.WorkspaceID
      net { api_key := cfg.APIKey, prompt := prompt, workspace_id := workspaceID }

/-- Go: `Base44Handler.IsEnabled`. -/
def Base44Handler.IsEnabled (cfg : Base44Config) : Bool := cfg.Enabled && cfg.APIKey != ""

/-! ## internal/tools/tool_manager.go: built-in tools and validation -/

/-- What the tool handlers reach outside the process. -/
structure ToolEnv where
  fs : FsEnv
  tavily : TavilyRequest → Option ToolResult × Option String
  base44 : Base44Request → Option ToolResult × Option String

/-- Go: the `tavily_search` entry of `initializeBuiltinTools`. -/
def tavilyTool (cfg : TavilyConfig) (env : ToolEnv) : Tool :=
  { ID := "tavily_search"
    Name := "Tavily Search"
    Description := "Search the web using Tavily API"
    InputSchema := [("type", Value.str "object"),
      ("properties", Value.objs [
        ("query", [("type", Atom.str "string"), ("description", Atom.str "Search query")]),
        ("max_results", [("type", Atom.str "integer"),
          ("description", Atom.str "Maximum number of results"), ("default", Atom.num 10)])]),
      ("required", Value.strs ["query"])]
    Handler := TavilyHandler.Execute cfg env.tavily
    Provider := "tavily"
    Enabled := true }

/-- Go: the `base44_app` entry of `initializeBuiltinTools`. -/
def base44Tool (cfg : Base44Config) (env : ToolEnv) : Tool :=
  { ID := "base44_app"
    Name := "Base44 App Builder"
    Description := "Build no-code applications using Base44"
    InputSchema := [("type", Value.str "object"),
      ("properties", Value.objs [
        ("prompt", [("type", Atom.str "string"), ("description", Atom.str "App description/prompt")]),
        ("workspace_id", [("type", Atom.str "string"), ("description", Atom.str "Workspace ID")])]),
      ("required", Value.strs ["prompt"])]
    Handler := Base44Handler.Execute cfg env.base44
    Provider := "base44"
    Enabled := true }

/-- Go: the `write_file` entry of `initializeBuiltinTools`. -/
def builtinWriteFileTool (env : ToolEnv) : Tool :=
  { ID := "write_file"
    Name := "write_file"
    Description := "Write a file to disk (path + content). Use mkdir=true to create directories."
    InputSchema := [("type", Value.str "object"),
      ("properties", Value.objs [
        ("path", [("type", Atom.str "string"), ("description", Atom.str "Relative file path")]),
        ("content", [("type", Atom.str "string"), ("description", Atom.str "File contents")]),
        ("mode", [("type", Atom.str "string"), ("description", Atom.str "overwrite|append"),
          ("default", Atom.str "overwrite")]),
        ("mkdir", [("type", Atom.str "boolean"),
          ("description", Atom.str "Create parent directories"), ("default", Atom.bool true)])]),
      ("required", Value.strs ["path", "content"])]
    Handler := fun input => (WriteFileHandler.Execute env.fs input).1
    Provider := "local"
    Enabled := true }

/-- Go: `ToolManager.initializeBuiltinTools`, as the registry it fills. -/
def initializeBuiltinTools (cfg : ToolsConfig) (env : ToolEnv) : List (String × Tool) :=
  (if cfg.Tavily.Enabled then [("tavily_search", tavilyTool cfg.Tavily env)] else []) ++
  (if cfg.Base44.Enabled then [("base44_app", base44Tool cfg.Base44 env)] else []) ++
  [("write_file", builtinWriteFileTool env)]

/-- Go: `NewToolManager`. -/
def NewToolManager (cfg : ToolsConfig) (env : ToolEnv) : ToolManager :=
  { tools := initializeBuiltinTools cfg env, mcpServers := [] }

/-- Go: `ToolManager.ValidateInput`; `none` is a nil error. -/
def ToolManager.ValidateInput (tm : ToolManager) (toolID : String)
    (input : List (String × Value)) : Option String :=
  match tm.GetTool toolID with
  | Except.error err => some err
  | Except.ok tool =>
    match tool.InputSchema.lookup "required" with
    | some (Value.strs required) =>
      match required.find? fun field => (input.lookup field).isNone with
      | some field => some ("missing required field: " ++ field)
      | none => none
    | _ => none

/-- An environment in which every file-system call succeeds and every HTTP
exchange returns a successful result. -/
def okEnv : ToolEnv :=
  { fs := okFs
    tavily := fun _ => (some { Success := true, Data := Value.other "TavilyResponse", Error := "" },
      none)
    base44 := fun _ => (some { Success := true, Data := Value.other "Base44Response", Error := "" },
      none) }

/-- The handler accepts the path of the input: trimmed, it is neither empty
nor absolute. -/
def pathAccepted (input : List (String × Value)) : Bool :=
  TrimSpace (argString input "path") != "" && !IsAbs (TrimSpace (argString input "path"))

/-! ## internal/streaming/handler.go: call sequences and cost arithmetic -/

/-- One call on a `StreamHandler`. -/
def StreamHandler.apply (h : StreamHandler) : HandlerCall → StreamHandler
  | HandlerCall.onToken token => h.OnToken token
  | HandlerCall.onDone response => h.OnDone response
  | HandlerCall.onError err => h.OnError err

/-- The tokens of the `OnToken` calls of a call sequence, in call order. -/
def tokensOfCalls : List HandlerCall → List String
  | [] => []
  | HandlerCall.onToken token :: cs => token :: tokensOfCalls cs
  | _ :: cs => tokensOfCalls cs

/-- The value of a cost expression over the rationals, that is before the
rounding of `float64` arithmetic. -/
def Cost.exact : Cost → ℚ
  | Cost.zero => 0
  | Cost.perToken tokenLen => (tokenLen : ℚ) / 4000 * (375 / 100000000)
  | Cost.usage input output => (input : ℚ) * (3 / 1000000) + (output : ℚ) * (15 / 1000000)

/-- The `inputCostPer1k` and `outputCostPer1k` that `EstimateCost` selects for
a model name. -/
def estimateRates (modelName : String) : ℚ × ℚ :=
  if Contains modelName "haiku" then (25 / 100000, 125 / 1000000)
  else if Contains modelName "gpt" then (5 / 1000, 15 / 1000)
  else (3 / 1000, 15 / 1000)

/-- Go: `EstimateCost`, over the rationals. -/
def EstimateCost (inputTokens outputTokens : Int) (modelName : String) : ℚ :=
  let inputCost := (inputTokens : ℚ) / 1000 * (estimateRates modelName).1
  let outputCost := (outputTokens : ℚ) / 1000 * (estimateRates modelName).2
  inputCost + outputCost

/-- A response that reports 1000 input tokens and no output token. -/
def thousandInputResponse : CompletionResponse :=
  { ID := "r"
    Model := "claude-3.5-haiku"
    Message := { Role := "assistant", Content := "" : Message }
    TokensUsed := { InputTokens := 1000, OutputTokens := 0, TotalTokens := 1000 } }

/-! ## cmd/komplete/tui.go: the tool-call events of a cycle -/

/-- The message is a `ToolCallMsg`. -/
def isToolCallMsg : Msg → Bool
  | Msg.ToolCallMsg .. => true
  | _ => false

/-- A `ToolCallMsg` of the start phase. -/
def isToolStart : Msg → Bool
  | Msg.ToolCallMsg _ _ _ _ _ _ phase => phase == ToolCallStart
  | _ => false

/-- A `ToolCallMsg` of the end phase. -/
def isToolEnd : Msg → Bool
  | Msg.ToolCallMsg _ _ _ _ _ _ phase => phase == ToolCallEnd
  | _ => false

/-- A message the stream handler sends: a delta, a status or a terminal event. -/
def isHandlerMsg : Msg → Bool
  | Msg.TokenDeltaMsg .. => true
  | Msg.StatusMsg .. => true
  | Msg.StreamEndMsg .. => true
  | Msg.StreamErrorMsg .. => true
  | _ => false

/-- The messages the execution goroutine has still to send, in order. -/
def emitsOf : List MainAction → List Msg
  | [] => []
  | MainAction.emit m :: rest => m :: emitsOf rest
  | MainAction.call _ :: rest => emitsOf rest

/-- The two `ToolCallMsg` events of a tool call: the start event, and the end
event carrying what the dispatcher returned for the call's name and
arguments. -/
def toolEventsOf (tm : ToolManager) (streamID : String) (tc : ToolCall) : List Msg :=
  [Msg.ToolCallMsg streamID tc.ID tc.Name tc.Arguments none none ToolCallStart,
   Msg.ToolCallMsg streamID tc.ID tc.Name tc.Arguments (tm.Execute tc.Name tc.Arguments).result
     (tm.Execute tc.Name tc.Arguments).err ToolCallEnd]

/-- The request a prompt cycle sends. -/
def cycleRequest (tm : ToolManager) (modelID prompt : String) (mock : Bool) (maxTokens : Int) :
    CompletionRequest :=
  { Model := if mock then "mock-stream" else modelID
    System := "You are a helpful software engineering assistant."
    Messages := [{ Role := "user", Content := prompt }]
    MaxTokens := maxTokens
    Stream := true
    Tools := tm.ToLLMToolDefinitions }

/-- The tool calls of the response a cycle's completion returned, none when it
failed. -/
def cycleToolCalls (mm : ModelManager) (tm : ToolManager) (modelID prompt : String)
    (mock : Bool) (maxTokens : Int) : List ToolCall :=
  match (mm.StreamComplete (cycleRequest tm modelID prompt mock maxTokens)).2 with
  | Except.ok resp => resp.ToolCalls
  | Except.error _ => []

/-- What the cycle keeps true of its tool-call events: the `ToolCallMsg` events
put on the channel since `base`, followed by those still to be sent, are the
events `expected`. -/
def CycleInv (base expected : List Msg) (s : CycleState) : Prop :=
  ∃ new, s.h.ch = some (base ++ new) ∧
    s.h.asyncSends.all isHandlerMsg = true ∧
    new.filter isToolCallMsg ++ (emitsOf s.todo).filter isToolCallMsg = expected

/-- A manager whose only backend is the mock provider, indexed under
"mock-stream". -/
def mockManager : ModelManager :=
  { providers := [(ProviderLocal,
      { Name := "Mock"
        Type_ := ProviderLocal
        Complete := fun req => Except.ok (sampleResponse req.Model)
        StreamComplete := MockProvider.StreamComplete {}
        ListModels := Except.ok []
        IsAvailable := true })]
    modelIndex := [("mock-stream", ProviderLocal)]
    currentModel := "mock-stream" }

/-- The provider name a cycle shows: that of the provider the model id
resolves to, empty when it resolves to none. -/
def cycleProvider (mm : ModelManager) (modelID : String) : String :=
  match mm.GetProviderForModel modelID with
  | Except.ok p => p.Name
  | Except.error _ => ""

/-- The state in which a cycle starts: the `StreamStartMsg` is on the channel,
the handler is fresh, and the execution goroutine has the provider's handler
calls and then the tool-call actions to perform. -/
def cycleStart (mm : ModelManager) (tm : ToolManager) (modelID streamID prompt : String)
    (mock : Bool) (maxTokens : Int) (ch0 : List Msg) : CycleState :=
  { h := NewTUIStreamHandler streamID modelID (cycleProvider mm modelID)
      (some (ch0 ++ [Msg.StreamStartMsg streamID StreamRoleUser prompt modelID
        (cycleProvider mm modelID)]))
    todo := (mm.StreamComplete (cycleRequest tm modelID prompt mock maxTokens)).1.map
        MainAction.call ++
      (cycleToolCalls mm tm modelID prompt mock maxTokens).flatMap (toolCallActions tm streamID) }

/-! ## internal/tui/components/statusbar.go -/

/-- Go: `text[:n]` on the bytes of a string; `none` is the run-time panic
"slice bounds out of range". -/
def sliceTo (text : List UInt8) (n : Int) : Option (List UInt8) :=
  if 0 ≤ n ∧ n ≤ (text.length : Int) then some (text.take n.toNat) else none

/-- Go: `truncateText`, on the bytes of the text; `none` is a panic. -/
def truncateText (text : List UInt8) (width : Int) : Option (List UInt8) :=
  if (text.length : Int) ≤ width then some text
  else
    match sliceTo text (width - 3) with
    | none => none
    | some head => some (head ++ goBytes "...")

/-- The loop of `formatNumber`: `i` runs from `len(s)` down in steps of three,
each round putting `s[max(0, i-3):i]` in front of the result. -/
def formatNumberLoop (s : List Char) : Nat → Nat → List String → List String
  | 0, _, result => result
  | fuel + 1, i, result =>
    if i > 0 then formatNumberLoop s fuel (i - 3) (String.mk ((s.take i).drop (i - 3)) :: result)
    else result

/-- Go: `formatNumber`; the digits of `fmt.Sprintf("%d", n)` are ASCII. -/
def formatNumber (n : Int) : String :=
  let s := toString n
  if s.length ≤ 3 then s
  else ",".intercalate (formatNumberLoop s.data s.length s.length [])

/-- Go: `components.StatusBarModel`; the lipgloss style is part of the
rendering environment. -/
structure StatusBarModel where
  Width : Int := 0
  modelName : String
  provider : String
  tokensUsed : Int := 0
  cost : Cost := Cost.zero
  status : String := "idle"
  streaming : Bool := false
  deriving DecidableEq, Repr

def StatusIdle : String := "idle"
def StatusRunning : String := "running"
def StatusComplete : String := "complete"
def StatusError : String := "error"

/-- Go: `NewStatusBarModel`. -/
def NewStatusBarModel : StatusBarModel :=
  { modelName := "Claude Sonnet 4.5", provider := "Anthropic", status := StatusIdle }

/-- What rendering relies on: the lipgloss calls of `View`, rendering a text in
a foreground colour and rendering the finished line in the bar style at a
width, and the text `fmt.Sprintf("%.4f", cost)` prints for a cost. -/
structure Lipgloss where
  foreground : String → String → List UInt8
  bar : Int → List UInt8 → List UInt8
  cost4 : Cost → String

/-- Go: `strings.Join` on byte strings. -/
def joinBytes (sep : List UInt8) : List (List UInt8) → List UInt8
  | [] => []
  | [x] => x
  | x :: y :: xs => x ++ sep ++ joinBytes sep (y :: xs)

/-- Go: `StatusBarModel.View`; `none` is a panic. The three calls of
`truncateText` run in the order of the source. -/
def StatusBarModel.View (m : StatusBarModel) (lg : Lipgloss) : Option (List UInt8) :=
  if m.Width = 0 then some []
  else
    let statusIcon :=
      if m.status = StatusRunning then "●"
      else if m.status = StatusComplete then "✓"
      else if m.status = StatusError then "✗"
      else "○"
    let statusColor :=
      if m.status = StatusRunning then "#f9e2af"
      else if m.status = StatusComplete then "#a6e3a1"
      else if m.status = StatusError then "#f38ba8"
      else "#6c7086"
    let streamingIcon := if m.streaming then "⚡" else ""
    let statusPart := lg.foreground statusColor statusIcon
    let modelPart := goBytes (m.modelName ++ " (" ++ m.provider ++ ")")
    let tokensPart := goBytes ("Tokens: " ++ formatNumber m.tokensUsed)
    let costPart := goBytes ("Cost: $" ++ lg.cost4 m.cost)
    let streamingPart := lg.foreground "#f9e2af" streamingIcon
    let availableWidth := m.Width - 4
    let partWidth := Int.tdiv availableWidth 4
    match truncateText modelPart partWidth with
    | none => none
    | some modelPart1 =>
      match truncateText tokensPart partWidth with
      | none => none
      | some tokensPart1 =>
        match truncateText costPart partWidth with
        | none => none
        | some costPart1 =>
          some (lg.bar m.Width (joinBytes (goBytes " │ ")
            [statusPart, modelPart1, tokensPart1, costPart1, streamingPart]))

/-- A rendering environment that adds no styling. -/
def plainLipgloss : Lipgloss :=
  { foreground := fun _ text => goBytes text, bar := fun _ line => line,
    cost4 := fun _ => "0.0000" }

/-! ## internal/llm/providers/openai.go -/

/-- Go: `openai.ToolCall` as the provider reads it. -/
structure OpenAIToolCall where
  ID : String
  Name : String
  Arguments : String
  deriving DecidableEq, Repr

/-- Go: `openai.ChatCompletionChoice`: the message content, its tool calls and
the finish reason. -/
structure OpenAIChoice where
  Content : String := ""
  ToolCalls : List OpenAIToolCall := []
  FinishReason : String := ""
  deriving DecidableEq, Repr

/-- Go: `openai.ChatCompletionResponse`. -/
structure OpenAIResponse where
  ID : String := ""
  Model : String := ""
  Choices : List OpenAIChoice := []
  PromptTokens : Int := 0
  CompletionTokens : Int := 0
  deriving DecidableEq, Repr

/-- Go: `OpenAIProvider.convertResponse`; `parse` is `parseJSONArgs`, `none` is
the panic "index out of range" of `resp.Choices[0]`. -/
def OpenAIProvider.convertResponse (parse : String → List (String × Value))
    (resp : OpenAIResponse) : Option CompletionResponse :=
  let content :=
    match resp.Choices with
    | c :: _ => c.Content
    | [] => ""
  let toolCalls : List ToolCall :=
    match resp.Choices with
    | c :: _ => c.ToolCalls.map fun tc =>
        { ID := tc.ID, Name := tc.Name, Arguments := parse tc.Arguments }
    | [] => []
  match resp.Choices[0]? with
  | none => none
  | some c0 =>
    some
      { ID := resp.ID
        Model := resp.Model
        Message := { Role := "assistant", Content := content }
        ToolCalls := toolCalls
        TokensUsed :=
          { InputTokens := resp.PromptTokens
            OutputTokens := resp.CompletionTokens
            TotalTokens := resp.PromptTokens + resp.CompletionTokens }
        StopReason := c0.FinishReason }

/-- Go: `openai.ChatCompletionStreamResponse`; a choice carries the delta's
content and tool calls and the finish reason. -/
structure OpenAIChunk where
  ID : String := ""
  Model : String := ""
  Choices : List OpenAIChoice := []
  deriving DecidableEq, Repr

/-- What a run of `StreamComplete` leaves: the calls made on the handler, and
the value returned, `none` when the run panicked. -/
structure StreamRun where
  calls : List HandlerCall
  result : Option (Except String CompletionResponse)
  deriving Repr

/-- The receive loop of `OpenAIProvider.StreamComplete`: `stream` is what the
successive `stream.Recv()` calls return, an exhausted stream returning the
error "EOF". -/
def openaiStreamLoop (parse : String → List (String × Value)) :
    List (Except String OpenAIChunk) → String → List ToolCall → List HandlerCall → StreamRun
  | [], _, _, calls =>
    { calls := calls ++ [HandlerCall.onError ("openai stream recv error: " ++ "EOF")]
      result := some (Except.error "EOF") }
  | Except.error err :: _, _, _, calls =>
    { calls := calls ++ [HandlerCall.onError ("openai stream recv error: " ++ err)]
      result := some (Except.error err) }
  | Except.ok resp :: rest, fullContent, toolCalls, calls =>
    match resp.Choices[0]? with
    | none => { calls := calls, result := none }
    | some c =>
      let calls1 := if c.Content ≠ "" then calls ++ [HandlerCall.onToken c.Content] else calls
      let fullContent1 := if c.Content ≠ "" then fullContent ++ c.Content else fullContent
      let toolCalls1 := toolCalls ++ c.ToolCalls.map fun tc =>
        { ID := tc.ID, Name := tc.Name, Arguments := parse tc.Arguments : ToolCall }
      if c.FinishReason ≠ "" then
        let response : CompletionResponse :=
          { ID := resp.ID
            Model := resp.Model
            Message := { Role := "assistant", Content := fullContent1 }
            ToolCalls := toolCalls1
            TokensUsed := {}
            StopReason := c.FinishReason }
        { calls := calls1 ++ [HandlerCall.onDone response], result := some (Except.ok response) }
      else openaiStreamLoop parse rest fullContent1 toolCalls1 calls1

/-- Go: `OpenAIProvider.StreamComplete` from the call of
`CreateChatCompletionStream` on: `opened` is that call's result, the stream or
an error. -/
def OpenAIProvider.StreamComplete (parse : String → List (String × Value))
    (opened : Except String (List (Except String OpenAIChunk))) : StreamRun :=
  match opened with
  | Except.error err =>
    { calls := [HandlerCall.onError ("openai stream failed: " ++ err)]
      result := some (Except.error err) }
  | Except.ok stream => openaiStreamLoop parse stream "" [] []

/-- A JSON reader that keeps the raw text, as `parseJSONArgs` does for text
that is no JSON object. -/
def rawArgs (s : String) : List (String × Value) :=
  if TrimSpace s = "" then [] else [("_raw", Value.str s)]

/-! ## internal/verification/manager.go -/

/-- Go: `verification.CheckResult` (the duration is left out). -/
structure CheckResult where
  Passed : Bool := false
  Message : String := ""
  deriving DecidableEq, Repr

/-- Go: `verification.VerificationStep`. `Check n` is what the check returns
when it is called in attempt `n`, a result (or nil) and an error (or nil);
`Repair` is `none` for a nil repair function, and `Repair n` the error (or
nil) of the repair called in attempt `n`. -/
structure VerificationStep where
  ID : String
  Name : String := ""
  Description : String := ""
  Check : Nat → Option CheckResult × Option String
  Repair : Option (Nat → Option String) := none
  Critical : Bool := false

/-- Go: `verification.VerificationResult`. -/
structure VerificationResult where
  StepID : String := ""
  Passed : Bool := false
  Attempts : Int := 0
  LastCheck : Option CheckResult := none
  Repaired : Bool := false
  ErrorMessage : String := ""
  deriving DecidableEq, Repr

/-- Go: `verification.StepResult`; the default value is `StepResult{}`. -/
structure StepResult where
  StepID : String := ""
  Passed : Bool := false
  Attempts : Int := 0
  LastCheck : Option CheckResult := none
  Repaired : Bool := false
  ErrorMessage : String := ""
  deriving DecidableEq, Repr

/-- Go: the `StepResult{...}` literal that copies a `VerificationResult`. -/
def VerificationResult.toStepResult (r : VerificationResult) : StepResult :=
  { StepID := r.StepID, Passed := r.Passed, Attempts := r.Attempts, LastCheck := r.LastCheck,
    Repaired := r.Repaired, ErrorMessage := r.ErrorMessage }

/-- The `for attempt := 1; attempt <= vm.maxRetries; attempt++` loop of
`runStep` with the `return StepResult{}` that follows it. The first argument
counts the rounds left, `maxRetries - attempt + 1`; when none is left the loop
condition fails. -/
def runStepLoop (maxRetries : Int) (step : VerificationStep) :
    Nat → Nat → VerificationResult → StepResult
  | 0, _, _ => {}
  | left + 1, attempt, result0 =>
    let result := { result0 with Attempts := (attempt : Int) }
    match step.Check attempt with
    | (_, some err) =>
      let result1 :=
        { result with LastCheck := some { Passed := false, Message := "Check failed: " ++ err } }
      match step.Repair with
      | some repair =>
        match repair attempt with
        | some repairErr =>
          runStepLoop maxRetries step left (attempt + 1)
            { result1 with ErrorMessage := "Repair failed: " ++ repairErr }
        | none =>
          runStepLoop maxRetries step left (attempt + 1) { result1 with Repaired := true }
      | none =>
        if (attempt : Int) = maxRetries then
          VerificationResult.toStepResult { result1 with
            ErrorMessage := "Max retries (" ++ toString maxRetries ++ ") exceeded" }
        else runStepLoop maxRetries step left (attempt + 1) result1
    | (checkRes0, none) =>
      let checkRes : CheckResult :=
        match checkRes0 with
        | some r => r
        | none => { Passed := true, Message := "Check passed" }
      let result1 := { result with LastCheck := some checkRes, Passed := checkRes.Passed }
      if !checkRes.Passed then
        match step.Repair with
        | some repair =>
          match repair attempt with
          | some repairErr =>
            runStepLoop maxRetries step left (attempt + 1)
              { result1 with ErrorMessage := "Repair failed: " ++ repairErr }
          | none =>
            runStepLoop maxRetries step left (attempt + 1) { result1 with Repaired := true }
        | none =>
          runStepLoop maxRetries step left (attempt + 1)
            { result1 with ErrorMessage := checkRes.Message }
      else VerificationResult.toStepResult result1

/-- Go: `VerificationManager.runStep`. -/
def runStep (maxRetries : Int) (step : VerificationStep) : StepResult :=
  runStepLoop maxRetries step maxRetries.toNat 1 { StepID := step.ID }

/-- A step whose check fails with an error every time and whose repair reports
success every time. -/
def brokenCheckStep : VerificationStep :=
  { ID := "lint"
    Check := fun _ => (none, some "exit status 1")
    Repair := some fun _ => none }

/-- A step without a repair whose check runs and reports a failed result. -/
def failingCheckStep : VerificationStep :=
  { ID := "tests"
    Check := fun _ => (some { Passed := false, Message := "2 tests failed" }, none) }

/-- A step whose check passes. -/
def passingStep : VerificationStep :=
  { ID := "build"
    Check := fun _ => (some { Passed := true, Message := "ok" }, none) }

/-! ## internal/config/config.go: the configuration and its manager -/

/-- Go: `config.AnthropicProviderConfig`. -/
structure AnthropicProviderConfig where
  APIKey : String := ""
  BaseURL : String := ""
  deriving DecidableEq, Repr

/-- Go: `config.OpenAIProviderConfig`. -/
structure OpenAIProviderConfig where
  APIKey : String := ""
  BaseURL : String := ""
  deriving DecidableEq, Repr

/-- Go: `config.GeminiProviderConfig`. -/
structure GeminiProviderConfig where
  APIKey : String := ""
  BaseURL : String := ""
  deriving DecidableEq, Repr

/-- Go: `config.VSCodeProviderConfig`. -/
structure VSCodeProviderConfig where
  Enabled : Bool := false
  deriving DecidableEq, Repr

/-- Go: `config.LocalProviderConfig`. -/
structure LocalProviderConfig where
  Enabled : Bool := false
  BaseURL : String := ""
  deriving DecidableEq, Repr

/-- Go: `config.ProvidersConfig`. -/
structure ProvidersConfig where
  Anthropic : AnthropicProviderConfig := {}
  OpenAI : OpenAIProviderConfig := {}
  Gemini : GeminiProviderConfig := {}
  VSCode : VSCodeProviderConfig := {}
  Local : LocalProviderConfig := {}
  deriving DecidableEq, Repr

/-- Go: `config.ModelsConfig`. -/
structure ModelsConfig where
  Default : String := ""
  Providers : ProvidersConfig := {}
  FallbackChain : List String := []
  deriving DecidableEq, Repr

/-- Go: `config.UIConfig`. -/
structure UIConfig where
  Theme : String := ""
  Streaming : Bool := false
  ShowCost : Bool := false
  ShowTokens : Bool := false
  deriving DecidableEq, Repr

/-- Go: `config.VerificationConfig`. -/
structure VerificationConfig where
  AutoVerify : Bool := false
  AutoRepair : Bool := false
  MaxRetries : Int := 0
  deriving DecidableEq, Repr

/-- Go: `config.AlignmentConfig`. -/
structure AlignmentConfig where
  Enabled : Bool := false
  Port : Int := 0
  Host : String := ""
  deriving DecidableEq, Repr

/-- Go: `config.Config` (the list of MCP servers of the tools section is left
out, as in `ToolsConfig`). -/
structure Config where
  Version : String := ""
  Models : ModelsConfig := {}
  Tools : ToolsConfig := {}
  UI : UIConfig := {}
  Verification : VerificationConfig := {}
  Alignment : AlignmentConfig := {}
  deriving DecidableEq, Repr

/-- Go: `config.DefaultConfig`. -/
def DefaultConfig : Config :=
  { Version := "2.0"
    Models :=
      { Default := DefaultConfig_Default
        FallbackChain := DefaultConfig_FallbackChain
        Providers := {} }
    Tools :=
      { Tavily := { Enabled := false, MaxResults := 10, SearchDepth := "basic" }
        Base44 := { Enabled := false } }
    UI := { Theme := "dark", Streaming := true, ShowCost := true, ShowTokens := true }
    Verification := { AutoVerify := true, AutoRepair := true, MaxRetries := 3 }
    Alignment := { Enabled := false, Port := 0 } }

/-- Go: `config.Manager`. `locked` tells whether `mu` is held for writing. -/
structure Manager where
  config : Config
  configPath : String
  locked : Bool := false
  deriving DecidableEq, Repr

/-- Go: `NewManager`, the configuration path being given. -/
def NewManager (configPath : String) : Manager :=
  { config := DefaultConfig, configPath := configPath }

/-- What the file system and the YAML library do for the manager:
`missing` is `os.IsNotExist` of the error of `os.Stat`. -/
structure ConfigFs where
  missing : Bool
  readFile : Except String String
  unmarshal : String → Except String Config
  mkdirAll : String → Option String
  marshal : Config → Except String String
  writeFile : String → String → Option String

/-- How a call on the manager ends for the goroutine that makes it: it returns
a value, or it waits in `m.mu.Lock()` for a lock that is held. -/
inductive Outcome (α : Type) where
  | returned (m : Manager) (value : α)
  | blocked (m : Manager)
  deriving DecidableEq, Repr

/-- The call returned. -/
def Outcome.isReturned {α : Type} : Outcome α → Bool
  | Outcome.returned _ _ => true
  | Outcome.blocked _ => false

/-- Go: `Manager.Save`. -/
def Manager.Save (m : Manager) (fs : ConfigFs) : Outcome (Option String) :=
  if m.locked then Outcome.blocked m
  else
    let m1 := { m with locked := true }
    let err : Option String :=
      match fs.mkdirAll (Dir m1.configPath) with
      | some e => some ("failed to create config directory: " ++ e)
      | none =>
        match fs.marshal m1.config with
        | Except.error e => some ("failed to marshal config: " ++ e)
        | Except.ok data =>
          match fs.writeFile m1.configPath data with
          | some e => some ("failed to write config: " ++ e)
          | none => none
    Outcome.returned { m1 with locked := false } err

/-- Go: `Manager.Load`. -/
def Manager.Load (m : Manager) (fs : ConfigFs) : Outcome (Option String) :=
  if m.locked then Outcome.blocked m
  else
    let m1 := { m with locked := true }
    if fs.missing then
      let m2 := { m1 with config := DefaultConfig }
      let m3 := { m2 with locked := false }
      m3.Save fs
    else
      match fs.readFile with
      | Except.error e =>
        Outcome.returned { m1 with locked := false } (some ("failed to read config: " ++ e))
      | Except.ok data =>
        match fs.unmarshal data with
        | Except.error e =>
          Outcome.returned { m1 with locked := false } (some ("failed to parse config: " ++ e))
        | Except.ok config =>
          Outcome.returned { m1 with config := config, locked := false } none

/-- Go: `Manager.Set`: the deferred `Unlock` runs when `Save` has returned. -/
def Manager.Set (m : Manager) (config : Config) (fs : ConfigFs) : Outcome (Option String) :=
  if m.locked then Outcome.blocked m
  else
    let m1 := { m with locked := true }
    let m2 := { m1 with config := config }
    match m2.Save fs with
    | Outcome.blocked m3 => Outcome.blocked m3
    | Outcome.returned m3 err => Outcome.returned { m3 with locked := false } err

/-- Go: `Manager.Update`: the deferred `Unlock` runs when `Save` has
returned. -/
def Manager.Update (m : Manager) (updater : Config → Config) (fs : ConfigFs) :
    Outcome (Option String) :=
  if m.locked then Outcome.blocked m
  else
    let m1 := { m with locked := true }
    let m2 := { m1 with config := updater m1.config }
    match m2.Save fs with
    | Outcome.blocked m3 => Outcome.blocked m3
    | Outcome.returned m3 err => Outcome.returned { m3 with locked := false } err

/-- Go: `Manager.SetModel`. -/
def Manager.SetModel (m : Manager) (modelID : String) (fs : ConfigFs) : Outcome (Option String) :=
  m.Update (fun cfg => { cfg with Models := { cfg.Models with Default := modelID } }) fs

/-- Go: `Manager.SetTheme`. -/
def Manager.SetTheme (m : Manager) (theme : String) (fs : ConfigFs) : Outcome (Option String) :=
  m.Update (fun cfg => { cfg with UI := { cfg.UI with Theme := theme } }) fs

/-- Go: `Manager.SetStreaming`. -/
def Manager.SetStreaming (m : Manager) (enabled : Bool) (fs : ConfigFs) :
    Outcome (Option String) :=
  m.Update (fun cfg => { cfg with UI := { cfg.UI with Streaming := enabled } }) fs

/-- Go: `Manager.SetAPIKey`. The value returned is that of `Update`: the
assignment `updateErr = m.Update(...)` takes place after the updater has run,
so what the updater stored in `updateErr` is overwritten. -/
def Manager.SetAPIKey (m : Manager) (provider apiKey : String) (fs : ConfigFs) :
    Outcome (Option String) :=
  m.Update (fun cfg =>
    if provider = "anthropic" then
      { cfg with Models := { cfg.Models with Providers := { cfg.Models.Providers with
          Anthropic := { cfg.Models.Providers.Anthropic with APIKey := apiKey } } } }
    else if provider = "openai" then
      { cfg with Models := { cfg.Models with Providers := { cfg.Models.Providers with
          OpenAI := { cfg.Models.Providers.OpenAI with APIKey := apiKey } } } }
    else if provider = "gemini" then
      { cfg with Models := { cfg.Models with Providers := { cfg.Models.Providers with
          Gemini := { cfg.Models.Providers.Gemini with APIKey := apiKey } } } }
    else cfg) fs

/-- Go: `Manager.SetToolEnabled`; the value returned is that of `Update`, as
in `SetAPIKey`. -/
def Manager.SetToolEnabled (m : Manager) (tool : String) (enabled : Bool) (fs : ConfigFs) :
    Outcome (Option String) :=
  m.Update (fun cfg =>
    if tool = "tavily" then
      { cfg with Tools := { cfg.Tools with Tavily := { cfg.Tools.Tavily with Enabled := enabled } } }
    else if tool = "base44" then
      { cfg with Tools := { cfg.Tools with Base44 := { cfg.Tools.Base44 with Enabled := enabled } } }
    else cfg) fs

/-- Go: `Manager.SetToolAPIKey`; the value returned is that of `Update`, as in
`SetAPIKey`. -/
def Manager.SetToolAPIKey (m : Manager) (tool apiKey : String) (fs : ConfigFs) :
    Outcome (Option String) :=
  m.Update (fun cfg =>
    if tool = "tavily" then
      { cfg with Tools := { cfg.Tools with Tavily := { cfg.Tools.Tavily with APIKey := apiKey } } }
    else if tool = "base44" then
      { cfg with Tools := { cfg.Tools with Base44 := { cfg.Tools.Base44 with APIKey := apiKey } } }
    else cfg) fs

/-- Go: `Manager.EnableAlignment`. -/
def Manager.EnableAlignment (m : Manager) (port : Int) (fs : ConfigFs) :
    Outcome (Option String) :=
  m.Update (fun cfg => { cfg with Alignment := { cfg.Alignment with Enabled := true, Port := port } })
    fs

/-- Go: `Manager.DisableAlignment`. -/
def Manager.DisableAlignment (m : Manager) (fs : ConfigFs) : Outcome (Option String) :=
  m.Update (fun cfg => { cfg with Alignment := { cfg.Alignment with Enabled := false } }) fs

/-- Go: `Manager.SetVersion`. -/
def Manager.SetVersion (m : Manager) (version : String) (fs : ConfigFs) :
    Outcome (Option String) :=
  m.Update (fun cfg => { cfg with Version := version }) fs

/-- A file system on which every operation succeeds and no configuration file
exists yet. -/
def freshConfigFs : ConfigFs :=
  { missing := true
    readFile := Except.error "no such file"
    unmarshal := fun _ => Except.ok DefaultConfig
    mkdirAll := fun _ => none
    marshal := fun cfg => Except.ok cfg.Version
    writeFile := fun _ _ => none }

/-! ## internal/llm/providers: the model lists -/

/-- Go: `getAnthropicModels`. -/
def getAnthropicModels : List ModelInfo :=
  [{ ID := "claude-sonnet-4-5-20250514", Name := "Claude Sonnet 4.5", Provider := ProviderAnthropic,
     Capabilities := { Streaming := true, Tools := true, Vision := true, Multimodal := true },
     MaxTokens := 200000 },
   { ID := "claude-3-5-sonnet-20241022", Name := "Claude 3.5 Sonnet", Provider := ProviderAnthropic,
     Capabilities := { Streaming := true, Tools := true, Vision := true, Multimodal := true },
     MaxTokens := 200000 },
   { ID := "claude-3-5-haiku-20241022", Name := "Claude 3.5 Haiku", Provider := ProviderAnthropic,
     Capabilities := { Streaming := true, Tools := true, Vision := true, Multimodal := true },
     MaxTokens := 200000 },
   { ID := "claude-3-haiku-20240307", Name := "Claude 3 Haiku", Provider := ProviderAnthropic,
     Capabilities := { Streaming := true, Tools := true, Vision := true, Multimodal := true },
     MaxTokens := 200000 }]

/-- Go: `getOpenAIModels`. -/
def getOpenAIModels : List ModelInfo :=
  [{ ID := "gpt-4o", Name := "GPT-4o", Provider := ProviderOpenAI,
     Capabilities := { Streaming := true, Tools := true, Vision := true, Multimodal := true },
     MaxTokens := 128000 },
   { ID := "gpt-4o-mini", Name := "GPT-4o Mini", Provider := ProviderOpenAI,
     Capabilities := { Streaming := true, Tools := true, Vision := true, Multimodal := true },
     MaxTokens := 128000 },
   { ID := "gpt-4-turbo", Name := "GPT-4 Turbo", Provider := ProviderOpenAI,
     Capabilities := { Streaming := true, Tools := true },
     MaxTokens := 128000 }]

/-- Go: `getGeminiModels`. -/
def getGeminiModels : List ModelInfo :=
  [{ ID := "gemini-2.5-pro", Name := "Gemini 2.5 Pro", Provider := ProviderGemini,
     Capabilities := { Streaming := true, Tools := true, Vision := true, Multimodal := true },
     MaxTokens := 1000000 },
   { ID := "gemini-2.0-flash", Name := "Gemini 2.0 Flash", Provider := ProviderGemini,
     Capabilities := { Streaming := true, Tools := true, Vision := true, Multimodal := true },
     MaxTokens := 1000000 },
   { ID := "gemini-1.5-pro", Name := "Gemini 1.5 Pro", Provider := ProviderGemini,
     Capabilities := { Streaming := true, Tools := true, Vision := true, Multimodal := true },
     MaxTokens := 2000000 },
   { ID := "gemini-1.5-flash", Name := "Gemini 1.5 Flash", Provider := ProviderGemini,
     Capabilities := { Streaming := true, Tools := true, Vision := true, Multimodal := true },
     MaxTokens := 1000000 }]

/-- Go: `getVSCodeModels`. -/
def getVSCodeModels : List ModelInfo :=
  [{ ID := "vscode-default", Name := "VS Code Default", Provider := ProviderVSCode,
     Capabilities := { Streaming := true, Tools := true }, MaxTokens := 8192 }]

/-- Go: `getLocalModels`. -/
def getLocalModels : List ModelInfo :=
  [{ ID := "llama3.2", Name := "Llama 3.2", Provider := ProviderLocal,
     Capabilities := { Streaming := true, Tools := true }, MaxTokens := 8192 },
   { ID := "llama3.1", Name := "Llama 3.1", Provider := ProviderLocal,
     Capabilities := { Streaming := true, Tools := true }, MaxTokens := 8192 },
   { ID := "mistral-nemo", Name := "Mistral Nemo", Provider := ProviderLocal,
     Capabilities := { Streaming := true, Tools := true }, MaxTokens := 8192 },
   { ID := "codellama", Name := "CodeLlama", Provider := ProviderLocal,
     Capabilities := { Streaming := true, Tools := true }, MaxTokens := 8192 }]

/-- What lies outside the process when the providers are built and asked for
their models: `useMock` tells whether `KOMPLETE_USE_MOCK_PROVIDER` reads "1";
`wire t` is how the backend of type `t` answers completions and availability
checks; `served url` is the list of model ids the endpoint at `url` returns,
`none` when the request fails or its body cannot be read. -/
structure ProviderEnv where
  useMock : Bool
  wire : ProviderType → Provider
  served : String → Option (List String)

/-- Go: `NewMockProvider` with the methods of `MockProvider`. -/
def NewMockProvider : Provider :=
  { Name := "Mock"
    Type_ := ProviderLocal
    Complete := fun req =>
      let content := "mock: " ++
        (match req.Messages.getLast? with
         | some msg => msg.Content
         | none => "")
      Except.ok
        { ID := "mock"
          Model := req.Model
          Message := { Role := "assistant", Content := content }
          TokensUsed := { TotalTokens := (content.utf8ByteSize / 4 : Nat) } }
    StreamComplete := MockProvider.StreamComplete {}
    ListModels := Except.ok
      [{ ID := "mock-stream", Name := "Mock Stream", Provider := ProviderLocal,
         Capabilities := { Streaming := true, Tools := false }, MaxTokens := 4096 }]
    IsAvailable := true }

/-- Go: `NewAnthropicProvider` with `Name`, `Type` and `ListModels`. -/
def NewAnthropicProvider (env : ProviderEnv) : Provider :=
  { env.wire ProviderAnthropic with
    Name := "Anthropic", Type_ := ProviderAnthropic, ListModels := Except.ok getAnthropicModels }

/-- Go: `NewOpenAIProvider` with `Name`, `Type` and `ListModels`. -/
def NewOpenAIProvider (env : ProviderEnv) : Provider :=
  { env.wire ProviderOpenAI with
    Name := "OpenAI", Type_ := ProviderOpenAI, ListModels := Except.ok getOpenAIModels }

/-- Go: `NewGeminiProvider` with `Name`, `Type` and `ListModels`. -/
def NewGeminiProvider (env : ProviderEnv) : Provider :=
  { env.wire ProviderGemini with
    Name := "Gemini", Type_ := ProviderGemini, ListModels := Except.ok getGeminiModels }

/-- Go: the body shared by `VSCodeProvider.ListModels` and
`LocalProvider.ListModels`: the models the endpoint `baseURL + "/v1/models"`
serves, each under its id, and the provider's default list when the request
fails or serves none. No error is returned. -/
def listServedModels (env : ProviderEnv) (baseURL : String) (pType : ProviderType)
    (defaults : List ModelInfo) : Except String (List ModelInfo) :=
  match env.served (baseURL ++ "/v1/models") with
  | none => Except.ok defaults
  | some ids =>
    let models : List ModelInfo := ids.map fun id =>
      { ID := id, Name := id, Provider := pType,
        Capabilities := { Streaming := true, Tools := true }, MaxTokens := 8192 }
    if models.length > 0 then Except.ok models else Except.ok defaults

/-- Go: `NewVSCodeProvider` with `Name`, `Type` and `ListModels`; the base URL
is fixed. -/
def NewVSCodeProvider (env : ProviderEnv) : Provider :=
  { env.wire ProviderVSCode with
    Name := "VSCode"
    Type_ := ProviderVSCode
    ListModels := listServedModels env "http://localhost:11434" ProviderVSCode getVSCodeModels }

/-- Go: `NewLocalProvider` with `Name`, `Type` and `ListModels`. -/
def NewLocalProvider (cfg : LocalProviderConfig) (env : ProviderEnv) : Provider :=
  let baseURL := if cfg.BaseURL = "" then "http://localhost:11434" else cfg.BaseURL
  { env.wire ProviderLocal with
    Name := "Local"
    Type_ := ProviderLocal
    ListModels := listServedModels env baseURL ProviderLocal getLocalModels }

/-! ## internal/llm/model_manager.go: construction -/

/-- Go: `m[k] = v` on a map held as an association list. -/
def mapSet {α : Type} (m : List (String × α)) (k : String) (v : α) : List (String × α) :=
  (k, v) :: m.filter fun e => e.1 != k

/-- Go: `ModelManager.initializeProviders`, as the map it fills. -/
def initializeProviders (cfg : Config) (env : ProviderEnv) : List (ProviderType × Provider) :=
  let p0 : List (ProviderType × Provider) := []
  let p1 := if env.useMock then mapSet p0 ProviderLocal NewMockProvider else p0
  let p2 :=
    if cfg.Models.Providers.Anthropic.APIKey ≠ "" then
      mapSet p1 ProviderAnthropic (NewAnthropicProvider env)
    else p1
  let p3 :=
    if cfg.Models.Providers.OpenAI.APIKey ≠ "" then mapSet p2 ProviderOpenAI (NewOpenAIProvider env)
    else p2
  let p4 :=
    if cfg.Models.Providers.Gemini.APIKey ≠ "" then mapSet p3 ProviderGemini (NewGeminiProvider env)
    else p3
  let p5 :=
    if cfg.Models.Providers.VSCode.Enabled then mapSet p4 ProviderVSCode (NewVSCodeProvider env)
    else p4
  if cfg.Models.Providers.Local.Enabled then
    mapSet p5 ProviderLocal (NewLocalProvider cfg.Models.Providers.Local env)
  else p5

/-- The inner loop of `rebuildModelIndex`: the models of one provider are
entered under its type, ids that are blank being skipped. -/
def indexModels (pType : ProviderType) (models : List ModelInfo)
    (index : List (String × ProviderType)) : List (String × ProviderType) :=
  models.foldl (fun idx m => if TrimSpace m.ID = "" then idx else mapSet idx m.ID pType) index

/-- Go: `ModelManager.rebuildModelIndex`. `visit` is the order in which
`range mm.providers` yields the keys of the map, which the language leaves
open. -/
def ModelManager.rebuildModelIndex (mm : ModelManager) (visit : List ProviderType) :
    ModelManager :=
  { mm with
    modelIndex := visit.foldl (fun idx pType =>
      match mm.providers.lookup pType with
      | none => idx
      | some p =>
        match p.ListModels with
        | Except.error _ => idx
        | Except.ok models => indexModels pType models idx) [] }

/-- Go: `NewModelManager`; `visit` is the order in which the index build
visits the providers. -/
def NewModelManager (cfg : Config) (env : ProviderEnv) (visit : List ProviderType) :
    ModelManager :=
  ModelManager.rebuildModelIndex
    { providers := initializeProviders cfg env
      modelIndex := []
      currentModel := cfg.Models.Default
      fallbackChain := cfg.Models.FallbackChain } visit

/-- The default configuration with the VS Code and the local backend switched
on. -/
def editorAndLocalConfig : Config :=
  { DefaultConfig with
    Models := { DefaultConfig.Models with
      Providers := { VSCode := { Enabled := true }, Local := { Enabled := true } } } }

/-- The default configuration with an Anthropic and an OpenAI key. -/
def keyedDefaultConfig : Config :=
  { DefaultConfig with
    Models := { DefaultConfig.Models with
      Providers := { Anthropic := { APIKey := "sk-ant-1" }, OpenAI := { APIKey := "sk-oai-1" } } } }

/-- An environment without the mock backend in which a server on the default
local port serves the model "llama3.2". -/
def localServerEnv : ProviderEnv :=
  { useMock := false
    wire := fun t => sampleProvider t t true true
    served := fun url => if url = "http://localhost:11434/v1/models" then some ["llama3.2"] else none }

/-- The name of the provider a manager routes a model id to, or the error. -/
def ModelManager.routeName (mm : ModelManager) (modelID : String) : Except String String :=
  match mm.GetProviderForModel modelID with
  | Except.ok p => Except.ok p.Name
  | Except.error e => Except.error e

/-! ## internal/tui/model.go -/

/-- Go: `strings.Split(s, sep)` for a separator of one ASCII character, on the
characters of `s`; the result has at least one part. -/
def splitOn (sep : Char) : List Char → List (List Char)
  | [] => [[]]
  | c :: cs =>
    if c = sep then [] :: splitOn sep cs
    else
      match splitOn sep cs with
      | [] => [[c]]
      | part :: parts => (c :: part) :: parts

/-- Go: `strings.Split(s, sep)` for a separator of one ASCII character. -/
def Split (s : String) (sep : Char) : List String := (splitOn sep s.data).map String.mk

/-- Go: `tui.Tab`. -/
abbrev Tab := String

def TabOutput : Tab := "output"
def TabTools : Tab := "tools"
def TabFiles : Tab := "files"
def TabLogs : Tab := "logs"
def TabSettings : Tab := "settings"

/-- Go: `tui.toolEntry`. -/
structure toolEntry where
  Line : String
  deriving DecidableEq, Repr

/-- Go: `tui.fileEntry`. -/
structure fileEntry where
  Line : String
  Path : String
  deriving DecidableEq, Repr

/-- A `tea.Msg` as `MainModel.Update` and the status bar tell them apart by
type: the key, submit, resize and error messages, the subscription message,
the stream events of `messages.go` (`event` for the seven of `Msg`, and
`LogMsg`), the messages of the status bar, and `other` for a value of any
other type, named by its type. A channel is known by a number, `none` being
the nil channel. -/
inductive TeaMsg where
  | KeyMsg (key : String)
  | SubmitMsg (Value : String)
  | WindowSizeMsg (Width Height : Int)
  | ErrorMsg (err : String)
  | streamSubMsg (Ch : Option Nat)
  | event (m : Msg)
  | LogMsg (StreamID Level Message : String)
  | SetModelMsg (Name Provider : String)
  | UpdateTokensMsg (Count : Int)
  | UpdateCostMsg (Cost : Cost)
  | SetStatusMsg (Status : String) (Streaming : Bool)
  | other (typeName : String)
  deriving DecidableEq, Repr

/-- Go: `StatusBarModel.Update`; the command it returns is nil. -/
def StatusBarModel.Update (m : StatusBarModel) : TeaMsg → StatusBarModel
  | TeaMsg.WindowSizeMsg w _ => { m with Width := w }
  | TeaMsg.SetModelMsg name provider => { m with modelName := name, provider := provider }
  | TeaMsg.UpdateTokensMsg count => { m with tokensUsed := count }
  | TeaMsg.UpdateCostMsg cost => { m with cost := cost }
  | TeaMsg.SetStatusMsg status streaming => { m with status := status, streaming := streaming }
  | _ => m

/-- A `tea.Cmd` `MainModel.Update` can return: `tea.Quit`, `waitStreamMsg(ch)`,
`openPathCmd(path)`, or a command returned by the text input or by the widget
of the current tab, known by a name. Those widgets belong to other packages
and have no access to the stream channel or to `waitStreamMsg`. -/
inductive Cmd where
  | Quit
  | waitStreamMsg (ch : Option Nat)
  | openPathCmd (path : String)
  | widget (name : String)
  deriving DecidableEq, Repr

/-- The widgets `Update` consults: the commands the text input and the widget
of the given tab return for a message, and the selected item of the files
list. -/
structure Widgets where
  cmds : Tab → TeaMsg → List String
  selectedFile : Option fileEntry

/-- Go: `tui.MainModel`. The viewports, the lists and the text input hold
rendering state only; `promptCh` holds the prompts handed to the execution
goroutine (`none` for a nil channel). -/
structure MainModel where
  ready : Bool := false
  quitting : Bool := false
  err : Option String := none
  currentTab : Tab := TabOutput
  tabs : List Tab := [TabOutput, TabTools, TabFiles, TabLogs, TabSettings]
  statusBar : Option StatusBarModel := some NewStatusBarModel
  streamCh : Option Nat := none
  promptCh : Option (List String) := none
  outputLines : List String := []
  outputPartial : String := ""
  toolEvents : List toolEntry := []
  fileEvents : List fileEntry := []
  logEvents : List String := []
  selectedPath : String := ""
  deriving DecidableEq, Repr

/-- Go: `NewMainModel`. -/
def NewMainModel (streamCh : Option Nat) (promptCh : Option (List String)) : MainModel :=
  { streamCh := streamCh, promptCh := promptCh }

/-- Go: `MainModel.nextTab`. -/
def MainModel.nextTab (m : MainModel) : MainModel :=
  match m.tabs.indexOf? m.currentTab with
  | some i => { m with currentTab := m.tabs.getD ((i + 1) % m.tabs.length) m.currentTab }
  | none => m

/-- Go: `MainModel.prevTab`. -/
def MainModel.prevTab (m : MainModel) : MainModel :=
  match m.tabs.indexOf? m.currentTab with
  | some i =>
    { m with currentTab := m.tabs.getD ((i + m.tabs.length - 1) % m.tabs.length) m.currentTab }
  | none => m

/-- Go: `if len(lines) > n \x7b lines = lines[len(lines)-n:] \x7d`. -/
def capTail (n : Nat) (lines : List String) : List String :=
  if lines.length > n then lines.drop (lines.length - n) else lines

/-- Go: `MainModel.appendAssistantDelta`, on the line store. The flush that
follows redraws the viewport and sets `outputFlushAt`; it leaves
`outputLines` and `outputPartial` as they are. -/
def MainModel.appendAssistantDelta (m : MainModel) (delta : String) : MainModel :=
  let parts := Split delta '\n'
  if parts.length = 1 then { m with outputPartial := m.outputPartial ++ parts.headD "" }
  else
    { m with
      outputLines := capTail 2000
        ((m.outputLines ++ [m.outputPartial ++ parts.headD ""]) ++ (parts.drop 1).dropLast)
      outputPartial := parts.getLastD "" }

/-- The calls `m.statusBar.Update(...)` inside the cases of `Update`, skipped
when the status bar is nil. -/
def MainModel.tellStatusBar (m : MainModel) (msgs : List TeaMsg) : MainModel :=
  match m.statusBar with
  | none => m
  | some sb => { m with statusBar := some (msgs.foldl StatusBarModel.Update sb) }

/-- The part of `Update` after its type switch: the status bar, the text input
and the widget of the current tab receive the message, and their commands are
appended (the status bar's is nil). -/
def MainModel.updateComponents (m : MainModel) (w : Widgets) (msg : TeaMsg) (cmds : List Cmd) :
    MainModel × List Cmd :=
  (m.tellStatusBar [msg], cmds ++ (w.cmds m.currentTab msg).map Cmd.widget)

/-- The case of `Update` for a stream event of `Msg`: the new state, before
`waitStreamMsg(m.streamCh)` is appended. -/
def MainModel.onEvent (m : MainModel) (lg : Lipgloss) : Msg → MainModel
  | Msg.TokenDeltaMsg _ _ delta => m.appendAssistantDelta delta
  | Msg.StreamStartMsg streamID _ prompt model provider =>
    MainModel.tellStatusBar
      { m with
        outputLines := ["> " ++ prompt]
        outputPartial := ""
        toolEvents := []
        fileEvents := []
        logEvents := m.logEvents ++
          ["stream start: " ++ streamID ++ " (" ++ provider ++ "/" ++ model ++ ")"] }
      [TeaMsg.SetStatusMsg StatusRunning true, TeaMsg.SetModelMsg model provider]
  | Msg.StreamEndMsg _ _ tokensUsed cost =>
    MainModel.tellStatusBar
      { m with
        logEvents := m.logEvents ++
          ["stream end: tokens=" ++ toString tokensUsed ++ " cost=$" ++ lg.cost4 cost] }
      [TeaMsg.SetStatusMsg StatusComplete false, TeaMsg.UpdateTokensMsg tokensUsed,
        TeaMsg.UpdateCostMsg cost]
  | Msg.StreamErrorMsg _ _ err =>
    MainModel.tellStatusBar
      { m with err := some err, logEvents := m.logEvents ++ ["stream error: " ++ err] }
      [TeaMsg.SetStatusMsg StatusError false]
  | Msg.ToolCallMsg _ _ name _ _ err phase =>
    let line :=
      if phase = ToolCallStart then "▶ " ++ name
      else
        match err with
        | some e => "✗ " ++ name ++ " (" ++ e ++ ")"
        | none => "✓ " ++ name
    { m with
      toolEvents := m.toolEvents ++ [{ Line := line }]
      logEvents := m.logEvents ++ ["tool " ++ phase ++ ": " ++ name] }
  | Msg.FileWriteMsg _ path op _ _ err =>
    let line0 := op ++ " " ++ path
    let line :=
      match err with
      | some e => "✗ " ++ line0 ++ " (" ++ e ++ ")"
      | none => line0
    { m with
      fileEvents := m.fileEvents ++ [{ Line := line, Path := path }]
      logEvents := m.logEvents ++ [line] }
  | Msg.StatusMsg _ model provider tokensUsed cost status =>
    MainModel.tellStatusBar m
      ((if model ≠ "" ∨ provider ≠ "" then [TeaMsg.SetModelMsg model provider] else []) ++
       (if tokensUsed > 0 then [TeaMsg.UpdateTokensMsg tokensUsed] else []) ++
       (if cost.exact > 0 then [TeaMsg.UpdateCostMsg cost] else []) ++
       [if status = "running" then TeaMsg.SetStatusMsg StatusRunning true
        else if status = "complete" then TeaMsg.SetStatusMsg StatusComplete false
        else if status = "error" then TeaMsg.SetStatusMsg StatusError false
        else TeaMsg.SetStatusMsg StatusIdle false])

/-- Go: `MainModel.Update`: the new model and the commands handed to
`tea.Batch`, nil commands left out. The type switch has no default case. -/
def MainModel.Update (m : MainModel) (w : Widgets) (lg : Lipgloss) (msg : TeaMsg) :
    MainModel × List Cmd :=
  match msg with
  | TeaMsg.KeyMsg key =>
    if key = "ctrl+c" ∨ key = "q" then ({ m with quitting := true }, [Cmd.Quit])
    else if key = "tab" then m.nextTab.updateComponents w msg []
    else if key = "shift+tab" then m.prevTab.updateComponents w msg []
    else if key = "enter" then
      if m.currentTab = TabFiles then
        match w.selectedFile with
        | some it =>
          MainModel.updateComponents
            { m with
              selectedPath := it.Path
              logEvents := m.logEvents ++ ["open file: " ++ it.Path] }
            w msg [Cmd.openPathCmd it.Path]
        | none => m.updateComponents w msg []
      else m.updateComponents w msg []
    else m.updateComponents w msg []
  | TeaMsg.SubmitMsg value =>
    let v := TrimSpace value
    if v ≠ "" then
      MainModel.updateComponents
        { m with
          logEvents := m.logEvents ++ ["prompt: " ++ v]
          promptCh := m.promptCh.map fun sent => sent ++ [v] }
        w msg []
    else m.updateComponents w msg []
  | TeaMsg.WindowSizeMsg width _ =>
    MainModel.updateComponents
      { m with
        statusBar := m.statusBar.map fun sb => { sb with Width := width }
        ready := true }
      w msg []
  | TeaMsg.ErrorMsg err => ({ m with err := some err }, [])
  | TeaMsg.streamSubMsg ch =>
    MainModel.updateComponents { m with streamCh := ch } w msg
      (if ch ≠ none then [Cmd.waitStreamMsg ch] else [])
  | TeaMsg.event e => (m.onEvent lg e).updateComponents w msg [Cmd.waitStreamMsg m.streamCh]
  | TeaMsg.LogMsg _ level message =>
    MainModel.updateComponents { m with logEvents := m.logEvents ++ [level ++ ": " ++ message] }
      w msg [Cmd.waitStreamMsg m.streamCh]
  | _ => m.updateComponents w msg []

/-- Widgets that return no command and have no file selected. -/
def quietWidgets : Widgets :=
  { cmds := fun _ _ => [], selectedFile := none }

/-! ## cmd/komplete/tui.go: the order of tool events and the end of a stream -/

/-- Go: the `StreamID` field of a stream event. -/
def Msg.streamID : Msg → String
  | Msg.StreamStartMsg streamID _ _ _ _ => streamID
  | Msg.TokenDeltaMsg streamID _ _ => streamID
  | Msg.StreamEndMsg streamID _ _ _ => streamID
  | Msg.StreamErrorMsg streamID _ _ => streamID
  | Msg.StatusMsg streamID _ _ _ _ _ => streamID
  | Msg.ToolCallMsg streamID _ _ _ _ _ _ => streamID
  | Msg.FileWriteMsg streamID _ _ _ _ _ => streamID

/-- A schedule of the mock cycle in which the execution goroutine goes on to
the tool call as soon as `OnDone` has returned: the loop ticks after every
third `OnToken` call, the provider calls `OnDone`, the execution goroutine
sends the three events of the tool call, and only then does `flushLoop` take
the end event and do the two goroutines of `sendAsync` send. -/
def mainFirstSchedule : List Sched :=
  [Sched.main, Sched.main, Sched.main, Sched.background BgStep.tick,
   Sched.main, Sched.main, Sched.main, Sched.background BgStep.tick,
   Sched.main, Sched.main, Sched.main, Sched.background BgStep.tick,
   Sched.main, Sched.main, Sched.main, Sched.main,
   Sched.background BgStep.recvEnd, Sched.background (BgStep.deliverAsync 0),
   Sched.background (BgStep.deliverAsync 0)]

/-- A schedule of the mock cycle with the same ticks in which `flushLoop` and
the goroutines of `sendAsync` run as soon as `OnDone` has been called, before
the execution goroutine goes on to the tool call. -/
def loopFirstSchedule : List Sched :=
  [Sched.main, Sched.main, Sched.main, Sched.background BgStep.tick,
   Sched.main, Sched.main, Sched.main, Sched.background BgStep.tick,
   Sched.main, Sched.main, Sched.main, Sched.background BgStep.tick,
   Sched.main,
   Sched.background BgStep.recvEnd, Sched.background (BgStep.deliverAsync 0),
   Sched.background (BgStep.deliverAsync 0),
   Sched.main, Sched.main, Sched.main]

/-- The tool-call events and the end events of a message sequence, in order:
for each whether it is the `StreamEndMsg`, and its stream id. -/
def toolAndEndOrder (l : List Msg) : List (Bool × String) :=
  (l.filter fun m => isToolCallMsg m || isStreamEnd m).map fun m => (isStreamEnd m, m.streamID)

/-! ## The mock backend behind a stream handler -/

/-- The calls a schedule makes on the handler on behalf of the provider, in
order. -/
def callsOf : List Step → List HandlerCall
  | [] => []
  | Step.onToken t :: ss => HandlerCall.onToken t :: callsOf ss
  | Step.onDone r :: ss => HandlerCall.onDone r :: callsOf ss
  | Step.onError e :: ss => HandlerCall.onError e :: callsOf ss
  | _ :: ss => callsOf ss

/-- The text has a character that is not white space. -/
def hasText (s : String) : Bool := s.data.any fun c => !isSpace c

/-- The `TokensUsed` of a `StreamEndMsg`. -/
def endTokens : Msg → Option Int
  | Msg.StreamEndMsg _ _ used _ => some used
  | _ => none

/-- A schedule of the mock stream without a tick: the provider's calls, then
the end branch of the loop and the two deliveries. -/
def mockScheduleNoTick (req : CompletionRequest) : List Step :=
  (MockProvider.StreamComplete {} req).1.map HandlerCall.toStep ++
    [Step.recvEnd, Step.deliverAsync 0, Step.deliverAsync 0]

/-- A schedule of the mock stream in which the loop ticks after every third
token. -/
def mockScheduleTicks (req : CompletionRequest) : List Step :=
  [Step.onToken "Hello", Step.onToken ", ", Step.onToken "world", Step.tick,
   Step.onToken "!\n", Step.onToken "This ", Step.onToken "is ", Step.tick,
   Step.onToken "a ", Step.onToken "mock ", Step.onToken "stream.\n", Step.tick,
   Step.onDone (mockStreamResponse req), Step.recvEnd, Step.deliverAsync 0, Step.deliverAsync 0]

/-- A `StreamEndMsg` reports a token count that is not negative. -/
def endTokensOk : Msg → Bool
  | Msg.StreamEndMsg _ _ used _ => decide (0 ≤ used)
  | _ => true

/-- The handler of a new stream on an empty channel after a schedule. -/
def handlerAfter (streamID modelName provider : String) (steps : List Step) : TUIStreamHandler :=
  (NewTUIStreamHandler streamID modelName provider (some [])).run steps

/-! ## internal/tools/mcp_transport.go -/

/-- A value as `json.Unmarshal` stores it in a variable of type `any`: nil, a
`bool`, a `float64` (kept as its text), a `string`, a `[]any` or a
`map[string]any`. -/
inductive Decoded where
  | null
  | bool (b : Bool)
  | number (text : String)
  | string (s : String)
  | array (items : List Decoded)
  | object (fields : List (String × Decoded))

/-- Go: the type assertion `v.(string)` on a decoded value. -/
def Decoded.asString : Decoded → Option String
  | Decoded.string s => some s
  | _ => none

/-- Go: the type assertion `v.(map[string]any)` on a decoded value. -/
def Decoded.asMap : Decoded → Option (List (String × Decoded))
  | Decoded.object fields => some fields
  | _ => none

/-- Go: the type assertion `v.([]map[string]any)` on a decoded value. The
decoder stores a JSON array as a `[]any`, whatever its elements are, so the
dynamic type of a decoded value is never `[]map[string]any` and the assertion
reports `ok = false`. -/
def Decoded.asMapSlice : Decoded → Option (List (List (String × Decoded)))
  | Decoded.null => none
  | Decoded.bool _ => none
  | Decoded.number _ => none
  | Decoded.string _ => none
  | Decoded.array _ => none
  | Decoded.object _ => none

/-- A decoded value as a `Value`; a number, an array and an object are kept by
their dynamic type only. -/
def Decoded.toValue : Decoded → Value
  | Decoded.null => Value.null
  | Decoded.bool b => Value.bool b
  | Decoded.number _ => Value.other "float64"
  | Decoded.string s => Value.str s
  | Decoded.array _ => Value.other "[]any"
  | Decoded.object _ => Value.other "map[string]any"

/-- Go: `tools.MCPResponse` as `sendRequest` decodes it (the `Error` field is
not read by the transport). -/
structure MCPResponse where
  ID : String := ""
  Result : Decoded := Decoded.null

/-- Go: `config.MCPServerConfig`. -/
structure MCPServerConfig where
  ID : String
  Name : String := ""
  URL : String := ""
  deriving DecidableEq, Repr

/-- What the network does for a transport, by server URL: the error of
`Connect` (or nil), what `sendRequest` returns for the `tools/list` request
and for a `tools/call` request, and the error of `Disconnect` (or nil). -/
structure MCPNet where
  connect : String → Option String
  toolsList : String → Except String MCPResponse
  toolsCall : String → String → List (String × Value) → Except String MCPResponse
  disconnect : String → Option String

/-- Go: `MCPClientTransport.CallTool` on a connected transport, `reply` being
what `sendRequest` returns. -/
def MCPClientTransport.CallTool (reply : Except String MCPResponse) :
    Option ToolResult × Option String :=
  match reply with
  | Except.error err => (none, some err)
  | Except.ok resp =>
    let unknown : Option ToolResult × Option String :=
      (some { Success := false, Data := Value.null, Error := "unknown error" },
        some "unknown error")
    match resp.Result.asMap with
    | none => unknown
    | some result =>
      match (result.lookup "content").bind Decoded.asString with
      | some content => (some { Success := true, Data := Value.str content, Error := "" }, none)
      | none =>
        match ((result.lookup "error").bind Decoded.asMap).bind fun errorMsg =>
            (errorMsg.lookup "message").bind Decoded.asString with
        | some message =>
          (some { Success := false, Data := Value.null, Error := message }, some message)
        | none => unknown

/-- Go: `MCPClientTransport.ListTools` on a connected transport at `url`:
`reply` is what `sendRequest` returns for the `tools/list` request. A tool is
built for each element of the result when the result is a
`[]map[string]any`. -/
def MCPClientTransport.ListTools (net : MCPNet) (url : String) : Except String (List Tool) :=
  match net.toolsList url with
  | Except.error err => Except.error err
  | Except.ok resp =>
    match resp.Result.asMapSlice with
    | some result =>
      Except.ok (result.map fun toolData =>
        let name := ((toolData.lookup "name").bind Decoded.asString).getD ""
        let description := ((toolData.lookup "description").bind Decoded.asString).getD ""
        let inputSchema := ((toolData.lookup "inputSchema").bind Decoded.asMap).getD []
        { ID := name
          Name := name
          Description := description
          InputSchema := inputSchema.map fun e => (e.1, e.2.toValue)
          Handler := fun input => MCPClientTransport.CallTool (net.toolsCall url name input)
          Provider := "mcp"
          Enabled := true })
    | none => Except.ok []

/-! ## internal/tools/tool_manager.go: the operations that change the registry -/

/-- Go: `delete(m, k)` on a map held as an association list. -/
def mapDelete {α : Type} (m : List (String × α)) (k : String) : List (String × α) :=
  m.filter fun e => e.1 != k

/-- Go: `ToolManager.RegisterTool`; the second component is the error. -/
def ToolManager.RegisterTool (tm : ToolManager) (tool : Tool) : ToolManager × Option String :=
  match tm.tools.lookup tool.ID with
  | some _ => (tm, some ("tool " ++ tool.ID ++ " already registered"))
  | none => ({ tm with tools := mapSet tm.tools tool.ID tool }, none)

/-- Go: `ToolManager.UnregisterTool`. -/
def ToolManager.UnregisterTool (tm : ToolManager) (id : String) : ToolManager × Option String :=
  match tm.tools.lookup id with
  | none => (tm, some ("tool " ++ id ++ " not found"))
  | some _ => ({ tm with tools := mapDelete tm.tools id }, none)

/-- Go: `tool.Enabled = enabled` through the pointer held under the key `id`. -/
def setEnabled (tools : List (String × Tool)) (id : String) (enabled : Bool) :
    List (String × Tool) :=
  tools.map fun e => if e.1 = id then (e.1, { e.2 with Enabled := enabled }) else e

/-- Go: `ToolManager.EnableTool`. -/
def ToolManager.EnableTool (tm : ToolManager) (id : String) : ToolManager × Option String :=
  match tm.tools.lookup id with
  | none => (tm, some ("tool " ++ id ++ " not found"))
  | some _ => ({ tm with tools := setEnabled tm.tools id true }, none)

/-- Go: `ToolManager.DisableTool`. -/
def ToolManager.DisableTool (tm : ToolManager) (id : String) : ToolManager × Option String :=
  match tm.tools.lookup id with
  | none => (tm, some ("tool " ++ id ++ " not found"))
  | some _ => ({ tm with tools := setEnabled tm.tools id false }, none)

/-- Go: `ToolManager.ConnectMCPServer`; `servers` is
`tm.config.Tools.MCPServers`. -/
def ToolManager.ConnectMCPServer (tm : ToolManager) (servers : List MCPServerConfig)
    (net : MCPNet) (id : String) : ToolManager × Option String :=
  match servers.find? fun sc => sc.ID = id with
  | none => (tm, some ("MCP server " ++ id ++ " not configured"))
  | some serverConfig =>
    match net.connect serverConfig.URL with
    | some err => (tm, some ("failed to connect to MCP server " ++ id ++ ": " ++ err))
    | none =>
      match MCPClientTransport.ListTools net serverConfig.URL with
      | Except.error err =>
        (tm, some ("failed to list tools from MCP server " ++ id ++ ": " ++ err))
      | Except.ok tools =>
        ({ tm with
           mcpServers := mapSet tm.mcpServers id
             { ID := id, Name := serverConfig.Name, URL := serverConfig.URL, Tools := tools,
               Connected := true } },
          none)

/-- Go: `ToolManager.DisconnectMCPServer`. -/
def ToolManager.DisconnectMCPServer (tm : ToolManager) (net : MCPNet) (id : String) :
    ToolManager × Option String :=
  match tm.mcpServers.lookup id with
  | none => (tm, some ("MCP server " ++ id ++ " not connected"))
  | some server =>
    match net.disconnect server.URL with
    | some err => (tm, some err)
    | none => ({ tm with mcpServers := mapDelete tm.mcpServers id }, none)

/-- A call of one of the methods that write the registry of a `ToolManager`,
with the behaviour of the network during the call. -/
inductive ToolOp where
  | RegisterTool (tool : Tool)
  | UnregisterTool (id : String)
  | EnableTool (id : String)
  | DisableTool (id : String)
  | ConnectMCPServer (net : MCPNet) (id : String)
  | DisconnectMCPServer (net : MCPNet) (id : String)

/-- The manager after a call, whether the call returned an error or not. -/
def ToolManager.afterOp (servers : List MCPServerConfig) (tm : ToolManager) : ToolOp → ToolManager
  | ToolOp.RegisterTool tool => (tm.RegisterTool tool).1
  | ToolOp.UnregisterTool id => (tm.UnregisterTool id).1
  | ToolOp.EnableTool id => (tm.EnableTool id).1
  | ToolOp.DisableTool id => (tm.DisableTool id).1
  | ToolOp.ConnectMCPServer net id => (tm.ConnectMCPServer servers net id).1
  | ToolOp.DisconnectMCPServer net id => (tm.DisconnectMCPServer net id).1

/-- The manager after a sequence of calls. -/
def ToolManager.afterOps (servers : List MCPServerConfig) (tm : ToolManager)
    (ops : List ToolOp) : ToolManager :=
  ops.foldl (ToolManager.afterOp servers) tm

/-- What the registry keeps: a tool is stored under its id, no key occurs
twice, and no server holds a tool. -/
def RegistryInv (tm : ToolManager) : Prop :=
  (∀ e ∈ tm.tools, e.2.ID = e.1) ∧ (tm.tools.map Prod.fst).Nodup ∧
    ∀ e ∈ tm.mcpServers, e.2.Tools = []

/-- A server that answers `tools/list` with one tool, "remote_search". -/
def remoteSearchNet : MCPNet :=
  { connect := fun _ => none
    toolsList := fun _ => Except.ok
      { ID := "1"
        Result := Decoded.array [Decoded.object
          [("name", Decoded.string "remote_search"),
           ("description", Decoded.string "Search remotely")]] }
    toolsCall := fun _ _ _ => Except.ok
      { ID := "2", Result := Decoded.object [("content", Decoded.string "done")] }
    disconnect := fun _ => none }

/-- A custom tool registered disabled and then enabled. -/
def customTool : Tool :=
  { ID := "format_code"
    Name := "Format code"
    Handler := okHandler
    Enabled := false }

/-- A session on a manager with Tavily enabled: a server is connected, a
custom tool is registered and enabled, the search tool is disabled. -/
def sampleOps : List ToolOp :=
  [ToolOp.ConnectMCPServer remoteSearchNet "srv", ToolOp.RegisterTool customTool,
   ToolOp.EnableTool "format_code", ToolOp.DisableTool "tavily_search"]

/-- The configured MCP servers of the sample session. -/
def sampleServers : List MCPServerConfig :=
  [{ ID := "srv", Name := "server", URL := "ws://localhost:1" }]

/-! # Properties

## The flush loop keeps its invariant -/

theorem flushPending_frame (h : TUIStreamHandler) (final : Bool) :
    (h.flushPending final).returned = h.returned ∧
    (h.flushPending final).asyncSends = h.asyncSends ∧
    (h.flushPending final).endCh = h.endCh ∧
    (h.flushPending final).endSenders = h.endSenders ∧
    (h.flushPending final).streamID = h.streamID ∧
    (h.flushPending final).base = h.base := by
  unfold TUIStreamHandler.flushPending TUIStreamHandler.takePending TUIStreamHandler.send
  cases hc : h.ch <;> cases final <;> simp <;> split_ifs <;> simp [hc]

theorem flushPending_ch (h : TUIStreamHandler) (final : Bool) (l : List Msg)
    (hch : h.ch = some l) :
    ∃ add, (h.flushPending final).ch = some (l ++ add) ∧ add.all (fun m => !isTerminal m) = true := by
  unfold TUIStreamHandler.flushPending TUIStreamHandler.takePending TUIStreamHandler.send
  cases final <;> simp <;> split_ifs <;> simp [hch, isTerminal, isStreamEnd, isStreamError]

theorem liveAfterTerminal_of_no_terminal (l : List Msg)
    (hl : l.all (fun m => !isTerminal m) = true) : liveAfterTerminal l = false := by
  induction l with
  | nil => rfl
  | cons m ms ih =>
    simp only [List.all_cons, Bool.and_eq_true, Bool.not_eq_true'] at hl
    simp [liveAfterTerminal, hl.1, ih hl.2]

theorem liveAfterTerminal_snoc (l : List Msg) (m : Msg) (hm : isLive m = false) :
    liveAfterTerminal (l ++ [m]) = liveAfterTerminal l := by
  induction l with
  | nil => simp [liveAfterTerminal]
  | cons x xs ih => simp [liveAfterTerminal, ih, List.any_append, hm]

theorem countP_eraseIdx (p : Msg → Bool) (l : List Msg) (i : Nat) (m : Msg)
    (hm : l[i]? = some m) :
    (l.eraseIdx i).countP p + (if p m then 1 else 0) = l.countP p := by
  induction l generalizing i with
  | nil => simp at hm
  | cons x xs ih =>
    cases i with
    | zero =>
      simp at hm
      subst hm
      simp [List.countP_cons]
    | succ j =>
      simp at hm
      have := ih j (by simpa using hm)
      simp [List.countP_cons, List.eraseIdx]
      omega

theorem Option_orElse_none (fs : Option endEvent) : (fs.orElse fun _ => none) = fs := by
  cases fs <;> rfl

theorem LoopInv_signal (ch0 : List Msg) (fs : Option endEvent) (h : TUIStreamHandler)
    (ev : endEvent) (hinv : LoopInv ch0 fs h) :
    LoopInv ch0 (fs.orElse fun _ => some ev) (h.signal ev) := by
  obtain ⟨new, hch, hlive, hasync, hrun, hret⟩ := hinv
  unfold TUIStreamHandler.signal
  cases hr : h.returned
  · obtain ⟨ha, hnt, hfs, hes⟩ := hrun hr
    cases he : h.endCh
    · refine ⟨new, by simpa using hch, hlive, by simpa using hasync, ?_, by simp [hr]⟩
      intro _
      rw [he] at hfs
      simp [ha, hnt, ← hfs, Option.orElse]
    · refine ⟨new, by simpa using hch, hlive, by simpa using hasync, ?_, by simp [hr]⟩
      intro _
      rw [he] at hfs
      simp [ha, hnt, ← hfs, Option.orElse, he]
  · obtain ⟨ev0, hfs, hc1, hc2⟩ := hret hr
    cases he : h.endCh <;>
      exact ⟨new, by simpa using hch, hlive, by simpa using hasync, by simp [hr],
        fun _ => ⟨ev0, by simp [hfs, Option.orElse], by simpa using hc1, by simpa using hc2⟩⟩

theorem LoopInv_base (ch0 : List Msg) (fs : Option endEvent) (h : TUIStreamHandler)
    (b : StreamHandler) (hinv : LoopInv ch0 fs h) : LoopInv ch0 fs { h with base := b } := by
  obtain ⟨new, hch, hlive, hasync, hrun, hret⟩ := hinv
  exact ⟨new, hch, hlive, hasync, hrun, hret⟩

theorem sendAsync_spec (g : TUIStreamHandler) (m : Msg) (l : List Msg) (hch : g.ch = some l) :
    (g.sendAsync m).ch = some l ∧ (g.sendAsync m).asyncSends = g.asyncSends ++ [m] ∧
    (g.sendAsync m).streamID = g.streamID ∧ (g.sendAsync m).base = g.base ∧
    (g.sendAsync m).provider = g.provider := by
  simp [TUIStreamHandler.sendAsync, hch]

theorem finishMsgs_kind (h1 : TUIStreamHandler) (ev : endEvent) :
    isStreamEnd (finishMsgs h1 ev).1 = !ev.err.isSome ∧
    isStreamError (finishMsgs h1 ev).1 = ev.err.isSome ∧
    isStreamEnd (finishMsgs h1 ev).2 = false ∧ isStreamError (finishMsgs h1 ev).2 = false ∧
    isLive (finishMsgs h1 ev).1 = false ∧ isLive (finishMsgs h1 ev).2 = false := by
  unfold finishMsgs
  cases ev.err <;> simp [isStreamEnd, isStreamError, isLive]

theorem finish_spec (g : TUIStreamHandler) (ev : endEvent) (l : List Msg) (hch : g.ch = some l) :
    (g.finish ev).ch = (g.flushPending true).ch ∧
    (g.finish ev).asyncSends = g.asyncSends ++
      [(finishMsgs (g.flushPending true) ev).1, (finishMsgs (g.flushPending true) ev).2] ∧
    (g.finish ev).returned = true := by
  obtain ⟨add, hadd, -⟩ := flushPending_ch g true _ hch
  obtain ⟨-, f2, -, -, -, -⟩ := flushPending_frame g true
  unfold TUIStreamHandler.finish finishMsgs
  cases he : ev.err <;> simp [TUIStreamHandler.sendAsync, hadd, f2]

theorem recvEnd_spec (h : TUIStreamHandler) (ev : endEvent) (l : List Msg)
    (hr : h.returned = false) (he : h.endCh = some ev) (hch : h.ch = some l)
    (ha : h.asyncSends = []) :
    ∃ add t s, (h.step Step.recvEnd).ch = some (l ++ add) ∧
      add.all (fun m => !isTerminal m) = true ∧
      (h.step Step.recvEnd).asyncSends = [t, s] ∧
      (h.step Step.recvEnd).returned = true ∧
      isStreamEnd t = !ev.err.isSome ∧ isStreamError t = ev.err.isSome ∧
      isStreamEnd s = false ∧ isStreamError s = false ∧ isLive t = false ∧ isLive s = false := by
  have hstep : h.step Step.recvEnd = TUIStreamHandler.finish { h with endCh := none } ev := by
    simp [TUIStreamHandler.step, hr, he]
  obtain ⟨g0, g3, g4⟩ := finish_spec { h with endCh := none } ev l hch
  obtain ⟨add, g1, g2⟩ := flushPending_ch { h with endCh := none } true l hch
  refine ⟨add, (finishMsgs (TUIStreamHandler.flushPending { h with endCh := none } true) ev).1,
    (finishMsgs (TUIStreamHandler.flushPending { h with endCh := none } true) ev).2, ?_, g2, ?_, ?_,
    finishMsgs_kind _ ev⟩
  · rw [hstep, g0, g1]
  · rw [hstep, g3]
    show h.asyncSends ++ _ = _
    rw [ha, List.nil_append]
  · rw [hstep, g4]

theorem LoopInv_step (ch0 : List Msg) (fs : Option endEvent) (h : TUIStreamHandler) (s : Step)
    (hinv : LoopInv ch0 fs h) : LoopInv ch0 (fs.orElse fun _ => signalOf s) (h.step s) := by
  cases s with
  | onToken t =>
    obtain ⟨new, hch, hlive, hasync, hrun, hret⟩ := hinv
    refine ⟨new, ?_, hlive, ?_, ?_, ?_⟩ <;>
      simp_all [TUIStreamHandler.step, TUIStreamHandler.OnToken, signalOf]
  | onDone r =>
    exact LoopInv_signal ch0 fs _ _ (LoopInv_base ch0 fs h _ hinv)
  | onError e =>
    exact LoopInv_signal ch0 fs _ _ (LoopInv_base ch0 fs h _ hinv)
  | tick =>
    simp only [signalOf, Option_orElse_none, TUIStreamHandler.step]
    split_ifs with hr
    · exact hinv
    · obtain ⟨new, hch, hlive, hasync, hrun, hret⟩ := hinv
      have hr : h.returned = false := by simpa using hr
      obtain ⟨ha, hnt, hfs, hes⟩ := hrun hr
      obtain ⟨add, hadd, haddnt⟩ := flushPending_ch h false _ hch
      obtain ⟨f1, f2, f3, f4, -, -⟩ := flushPending_frame h false
      have hnt2 : (new ++ add).all (fun m => !isTerminal m) = true := by
        rw [List.all_append, hnt, haddnt]; rfl
      refine ⟨new ++ add, by rw [hadd, List.append_assoc],
        liveAfterTerminal_of_no_terminal _ hnt2, by rw [f2]; exact hasync, ?_, ?_⟩
      · intro _
        exact ⟨by rw [f2]; exact ha, hnt2, by rw [f3]; exact hfs, by rw [f3, f4]; exact hes⟩
      · intro h1
        rw [f1, hr] at h1
        exact absurd h1 (by decide)
  | recvEnd =>
    simp only [signalOf, Option_orElse_none]
    obtain ⟨new, hch, hlive, hasync, hrun, hret⟩ := hinv
    cases hr : h.returned with
    | true => exact ⟨new, by simpa [TUIStreamHandler.step, hr] using hch, hlive,
        by simpa [TUIStreamHandler.step, hr] using hasync, by simp [TUIStreamHandler.step, hr],
        by simpa [TUIStreamHandler.step, hr] using hret hr⟩
    | false =>
      obtain ⟨ha, hnt, hfs, hes⟩ := hrun hr
      cases he : h.endCh with
      | none =>
        have hstep : h.step Step.recvEnd = h := by simp [TUIStreamHandler.step, hr, he]
        rw [hstep]
        exact ⟨new, hch, hlive, hasync, hrun, hret⟩
      | some ev =>
        obtain ⟨add, t, s, g1, g2, g3, g4, g5, g6, g7, g8, g9, g10⟩ :=
          recvEnd_spec h ev _ hr he hch ha
        have hnt2 : (new ++ add).all (fun m => !isTerminal m) = true := by
          rw [List.all_append, hnt, g2]; rfl
        have hc1 : (new ++ add).countP isStreamEnd = 0 := by
          rw [List.countP_eq_zero]
          intro m hm
          have := List.all_eq_true.mp hnt2 m hm
          simp [isTerminal] at this
          simp [this.1]
        have hc2 : (new ++ add).countP isStreamError = 0 := by
          rw [List.countP_eq_zero]
          intro m hm
          have := List.all_eq_true.mp hnt2 m hm
          simp [isTerminal] at this
          simp [this.2]
        refine ⟨new ++ add, by rw [g1, List.append_assoc],
          liveAfterTerminal_of_no_terminal _ hnt2, by simp [g3, g9, g10], ?_, ?_⟩
        · intro h1
          rw [g4] at h1
          exact absurd h1 (by decide)
        · intro _
          refine ⟨ev, by rw [← hfs, he], ?_, ?_⟩
          · rw [g3, List.countP_append, hc1]
            cases hee : ev.err <;> simp [List.countP_cons, g5, g7, hee]
          · rw [g3, List.countP_append, hc2]
            cases hee : ev.err <;> simp [List.countP_cons, g6, g8, hee]
  | deliverEnd =>
    simp only [signalOf, Option_orElse_none]
    obtain ⟨new, hch, hlive, hasync, hrun, hret⟩ := hinv
    cases hr : h.returned with
    | false =>
      obtain ⟨ha, hnt, hfs, hes⟩ := hrun hr
      have hstep : h.step Step.deliverEnd = h := by
        cases he : h.endCh with
        | none => simp [TUIStreamHandler.step, he, hes he]
        | some ev => simp [TUIStreamHandler.step, he]
      rw [hstep]
      exact ⟨new, hch, hlive, hasync, hrun, hret⟩
    | true =>
      have hfr : (h.step Step.deliverEnd).ch = h.ch ∧
          (h.step Step.deliverEnd).asyncSends = h.asyncSends ∧
          (h.step Step.deliverEnd).returned = h.returned := by
        simp only [TUIStreamHandler.step]
        split <;> simp
      obtain ⟨e1, e2, e3⟩ := hfr
      refine ⟨new, by rw [e1, hch], hlive, by rw [e2]; exact hasync, ?_, ?_⟩
      · intro h1
        rw [e3, hr] at h1
        exact absurd h1 (by decide)
      · intro _
        rw [e2]
        exact hret hr
  | deliverAsync i =>
    simp only [signalOf, Option_orElse_none]
    obtain ⟨new, hch, hlive, hasync, hrun, hret⟩ := hinv
    cases hm : h.asyncSends[i]? with
    | none =>
      have hstep : h.step (Step.deliverAsync i) = h := by simp [TUIStreamHandler.step, hm]
      rw [hstep]
      exact ⟨new, hch, hlive, hasync, hrun, hret⟩
    | some m =>
      have hstep : h.step (Step.deliverAsync i) =
          { h with ch := some (ch0 ++ new ++ [m]), asyncSends := h.asyncSends.eraseIdx i } := by
        simp [TUIStreamHandler.step, hm, TUIStreamHandler.send, hch]
      have hmem : m ∈ h.asyncSends := List.getElem?_mem hm
      have hmlive : isLive m = false := by
        have := List.all_eq_true.mp hasync m hmem
        simpa using this
      have hr : h.returned = true := by
        cases hr : h.returned with
        | true => rfl
        | false =>
          rw [(hrun hr).1] at hmem
          simp at hmem
      obtain ⟨ev, hfs, hc1, hc2⟩ := hret hr
      rw [hstep]
      refine ⟨new ++ [m], by simp, ?_, ?_, ?_, ?_⟩
      · rw [liveAfterTerminal_snoc _ _ hmlive, hlive]
      · apply List.all_eq_true.mpr
        intro x hx
        exact List.all_eq_true.mp hasync x ((List.eraseIdx_sublist _ _).subset hx)
      · intro h1
        simp only [] at h1
        rw [hr] at h1
        exact absurd h1 (by decide)
      · intro _
        refine ⟨ev, hfs, ?_, ?_⟩
        · have := countP_eraseIdx isStreamEnd _ i m hm
          simp only [List.countP_append, List.countP_cons, List.countP_nil] at hc1 ⊢
          omega
        · have := countP_eraseIdx isStreamError _ i m hm
          simp only [List.countP_append, List.countP_cons, List.countP_nil] at hc2 ⊢
          omega

theorem firstSignal_cons (s : Step) (ss : List Step) :
    firstSignal (s :: ss) = (signalOf s).orElse fun _ => firstSignal ss := by
  cases s <;> rfl

theorem LoopInv_run (ch0 : List Msg) (steps : List Step) (fs : Option endEvent)
    (h : TUIStreamHandler) (hinv : LoopInv ch0 fs h) :
    LoopInv ch0 (fs.orElse fun _ => firstSignal steps) (h.run steps) := by
  induction steps generalizing fs h with
  | nil =>
    have : (fs.orElse fun _ => firstSignal []) = fs := by cases fs <;> rfl
    rw [this]
    exact hinv
  | cons s ss ih =>
    have hq : (fs.orElse fun _ => firstSignal (s :: ss)) =
        ((fs.orElse fun _ => signalOf s).orElse fun _ => firstSignal ss) := by
      rw [firstSignal_cons]
      cases fs <;> cases signalOf s <;> rfl
    rw [hq]
    exact ih _ _ (LoopInv_step ch0 fs h s hinv)

theorem LoopInv_new (streamID modelName provider : String) (ch0 : List Msg) :
    LoopInv ch0 none (NewTUIStreamHandler streamID modelName provider (some ch0)) :=
  ⟨[], by simp [NewTUIStreamHandler], rfl, rfl, fun _ => ⟨rfl, rfl, rfl, fun _ => rfl⟩,
    fun h => absurd h (by simp [NewTUIStreamHandler])⟩

/-! ## The terminal event of a stream -/

/-- C2. For every schedule of `OnToken`/`OnDone`/`OnError` calls, ticks and
goroutine deliveries run against a handler created on a channel holding `ch0`:
the messages `new` the handler has put on the channel never show a
`TokenDeltaMsg` or a running `StatusMsg` after a terminal event; while
`flushLoop` has not returned, no terminal event has been sent or is waiting to
be sent; once it has returned, the messages sent or waiting to be sent hold
exactly one terminal event, a `StreamEndMsg` when the first end signal carried
no error and a `StreamErrorMsg` when it carried one; and as soon as an end
signal has been made, the end branch of the loop makes it return. -/
theorem flushLoop_one_terminal (streamID modelName provider : String) (ch0 : List Msg)
    (steps : List Step) :
    ∃ new,
      ((NewTUIStreamHandler streamID modelName provider (some ch0)).run steps).ch =
        some (ch0 ++ new) ∧
      liveAfterTerminal new = false ∧
      (((NewTUIStreamHandler streamID modelName provider (some ch0)).run steps).returned = false →
        (new ++ ((NewTUIStreamHandler streamID modelName provider (some ch0)).run
          steps).asyncSends).countP isTerminal = 0) ∧
      (((NewTUIStreamHandler streamID modelName provider (some ch0)).run steps).returned = true →
        ∃ ev, firstSignal steps = some ev ∧
          (new ++ ((NewTUIStreamHandler streamID modelName provider (some ch0)).run
            steps).asyncSends).countP isStreamEnd = (if ev.err.isSome then 0 else 1) ∧
          (new ++ ((NewTUIStreamHandler streamID modelName provider (some ch0)).run
            steps).asyncSends).countP isStreamError = (if ev.err.isSome then 1 else 0)) ∧
      (firstSignal steps ≠ none →
        (((NewTUIStreamHandler streamID modelName provider (some ch0)).run steps).step
          Step.recvEnd).returned = true) := by
  have hinv := LoopInv_run ch0 steps none _ (LoopInv_new streamID modelName provider ch0)
  have hfs : (none.orElse fun _ => firstSignal steps) = firstSignal steps := rfl
  rw [hfs] at hinv
  generalize (NewTUIStreamHandler streamID modelName provider (some ch0)).run steps = h at hinv
  obtain ⟨new, hch, hlive, hasync, hrun, hret⟩ := hinv
  refine ⟨new, hch, hlive, ?_, hret, ?_⟩
  · intro hr
    obtain ⟨ha, hnt, -, -⟩ := hrun hr
    rw [ha, List.append_nil, List.countP_eq_zero]
    intro m hm
    simpa using List.all_eq_true.mp hnt m hm
  · intro hne
    cases hr : h.returned with
    | true => simp [TUIStreamHandler.step, hr]
    | false =>
      obtain ⟨ha, -, hfs2, -⟩ := hrun hr
      cases he : h.endCh with
      | none => rw [he] at hfs2; exact absurd hfs2.symm hne
      | some ev =>
        obtain ⟨_, _, _, -, -, -, g4, -⟩ := recvEnd_spec h ev _ hr he hch ha
        exact g4

/-! ## `OnToken` and the event channel -/

/-- C4. `TUIStreamHandler.OnToken` performs no channel operation: for every
handler state and token it leaves the messages on the event channel, the
pending asynchronous sends, the end channel and the loop state as they were,
appends the token to the pending buffer and to the embedded handler's
accumulator, and what it does to the rest of the state is the same whatever the
channel holds. -/
theorem OnToken_never_sends (h : TUIStreamHandler) (token : String) :
    (h.OnToken token).ch = h.ch ∧
    (h.OnToken token).asyncSends = h.asyncSends ∧
    (h.OnToken token).endCh = h.endCh ∧
    (h.OnToken token).endSenders = h.endSenders ∧
    (h.OnToken token).returned = h.returned ∧
    (h.OnToken token).pending = h.pending ++ token ∧
    (h.OnToken token).base.tokens = h.base.tokens ++ [token] ∧
    (h.OnToken token).base.tokenCount = h.base.tokenCount + 1 ∧
    ∀ c : Option (List Msg),
      TUIStreamHandler.OnToken { h with ch := c } token = { h.OnToken token with ch := c } := by
  refine ⟨rfl, rfl, rfl, rfl, rfl, rfl, rfl, rfl, fun _ => rfl⟩

/-! ## Routing and the fallback chain -/

theorem usable_none_iff (mm : ModelManager) (req : CompletionRequest) (modelID : String) :
    mm.usable req modelID = none ↔ mm.candidateFails req modelID := by
  unfold ModelManager.usable ModelManager.candidateFails
  cases hp : mm.GetProviderForModel modelID with
  | error e => simp
  | ok p =>
    cases ha : p.IsAvailable with
    | false => simp [ha]
    | true =>
      cases hc : p.Complete { req with Model := modelID } with
      | error e => simp [ha, hc]
      | ok r => simp [ha, hc]

theorem fallbackLoop_cons_none (mm : ModelManager) (req : CompletionRequest) (c : String)
    (rest : List String) (log : List FallbackCall) (hc : mm.usable req c = none) :
    mm.fallbackLoop req (c :: rest) log = mm.fallbackLoop req rest (log ++ mm.callsFor c) := by
  unfold ModelManager.usable at hc
  unfold ModelManager.callsFor
  rw [ModelManager.fallbackLoop]
  cases hp : mm.GetProviderForModel c with
  | error e => simp
  | ok p =>
    rw [hp] at hc
    cases ha : p.IsAvailable with
    | false => simp [ha]
    | true =>
      simp only [ha, if_true] at hc
      cases hcm : p.Complete { req with Model := c } with
      | error e => simp [ha, hcm]
      | ok r => rw [hcm] at hc; simp at hc

theorem fallbackLoop_cons_some (mm : ModelManager) (req : CompletionRequest) (c : String)
    (rest : List String) (log : List FallbackCall) (r : CompletionResponse)
    (hc : mm.usable req c = some r) :
    mm.fallbackLoop req (c :: rest) log =
      (Except.ok r, log ++ [FallbackCall.resolve c, FallbackCall.probe c,
        FallbackCall.complete c]) := by
  unfold ModelManager.usable at hc
  rw [ModelManager.fallbackLoop]
  cases hp : mm.GetProviderForModel c with
  | error e => rw [hp] at hc; simp at hc
  | ok p =>
    rw [hp] at hc
    cases ha : p.IsAvailable with
    | false => simp [ha] at hc
    | true =>
      simp only [ha, if_true] at hc
      cases hcm : p.Complete { req with Model := c } with
      | error e => rw [hcm] at hc; simp at hc
      | ok r2 =>
        rw [hcm] at hc
        simp only [Option.some.injEq] at hc
        simp [ha, hcm, hc]

theorem fallbackLoop_ok (mm : ModelManager) (req : CompletionRequest) (cands : List String)
    (log : List FallbackCall) (resp : CompletionResponse)
    (hok : (mm.fallbackLoop req cands log).1 = Except.ok resp) :
    ∃ before id after, cands = before ++ id :: after ∧
      (∀ c ∈ before, mm.usable req c = none) ∧ mm.usable req id = some resp ∧
      (mm.fallbackLoop req cands log).2 = log ++ before.flatMap mm.callsFor ++
        [FallbackCall.resolve id, FallbackCall.probe id, FallbackCall.complete id] := by
  induction cands generalizing log with
  | nil => simp [ModelManager.fallbackLoop] at hok
  | cons c rest ih =>
    cases hc : mm.usable req c with
    | none =>
      rw [fallbackLoop_cons_none mm req c rest log hc] at hok ⊢
      obtain ⟨before, id, after, h1, h2, h3, h4⟩ := ih _ hok
      refine ⟨c :: before, id, after, by rw [h1]; rfl, ?_, h3, ?_⟩
      · intro x hx
        rcases List.mem_cons.mp hx with rfl | hx
        · exact hc
        · exact h2 x hx
      · rw [h4]
        simp [List.flatMap_cons, List.append_assoc]
    | some r =>
      rw [fallbackLoop_cons_some mm req c rest log r hc] at hok ⊢
      simp only [Except.ok.injEq] at hok
      subst hok
      exact ⟨[], c, rest, rfl, by simp, hc, by simp⟩

theorem fallbackLoop_error (mm : ModelManager) (req : CompletionRequest) (cands : List String)
    (log : List FallbackCall) :
    ((∃ err, (mm.fallbackLoop req cands log).1 = Except.error err) ↔
      ∀ c ∈ cands, mm.usable req c = none) ∧
    ((∀ c ∈ cands, mm.usable req c = none) →
      (mm.fallbackLoop req cands log).2 = log ++ cands.flatMap mm.callsFor) := by
  induction cands generalizing log with
  | nil => simp [ModelManager.fallbackLoop]
  | cons c rest ih =>
    cases hc : mm.usable req c with
    | none =>
      rw [fallbackLoop_cons_none mm req c rest log hc]
      obtain ⟨i1, i2⟩ := ih (log ++ mm.callsFor c)
      constructor
      · rw [i1]
        simp [hc]
      · intro hall
        rw [i2 (fun x hx => hall x (List.mem_cons_of_mem _ hx))]
        simp [List.flatMap_cons, List.append_assoc]
    | some r =>
      rw [fallbackLoop_cons_some mm req c rest log r hc]
      constructor
      · constructor
        · rintro ⟨e, he⟩
          simp at he
        · intro hall
          have := hall c (List.mem_cons_self _ _)
          rw [hc] at this
          simp at this
      · intro hall
        have := hall c (List.mem_cons_self _ _)
        rw [hc] at this
        simp at this

theorem usable_some_iff (mm : ModelManager) (req : CompletionRequest) (modelID : String)
    (resp : CompletionResponse) :
    mm.usable req modelID = some resp ↔
      ∃ p, mm.GetProviderForModel modelID = Except.ok p ∧ p.IsAvailable = true ∧
        p.Complete { req with Model := modelID } = Except.ok resp := by
  unfold ModelManager.usable
  cases hp : mm.GetProviderForModel modelID with
  | error e => simp
  | ok p =>
    cases ha : p.IsAvailable with
    | false => simp [ha]
    | true =>
      cases hc : p.Complete { req with Model := modelID } with
      | error e => simp [ha, hc]
      | ok r => simp [ha, hc]

/-- C6. When `CompleteWithFallback` succeeds with `resp`, the candidate list
`req.Model :: fallbackChain` splits as `before ++ id :: after` where every
candidate of `before` is skipped or fails, `id` resolves to an available
provider whose `Complete` returns `resp`, and the calls made are exactly those
of the candidates of `before`, in order, followed by the three calls on `id`:
nothing of `after` is resolved, probed or called. -/
theorem CompleteWithFallback_first_success (mm : ModelManager) (req : CompletionRequest)
    (resp : CompletionResponse) (hok : (mm.CompleteWithFallback req).1 = Except.ok resp) :
    ∃ before id after, req.Model :: mm.fallbackChain = before ++ id :: after ∧
      (∀ c ∈ before, mm.candidateFails req c) ∧
      (∃ p, mm.GetProviderForModel id = Except.ok p ∧ p.IsAvailable = true ∧
        p.Complete { req with Model := id } = Except.ok resp) ∧
      (mm.CompleteWithFallback req).2 = before.flatMap mm.callsFor ++
        [FallbackCall.resolve id, FallbackCall.probe id, FallbackCall.complete id] := by
  obtain ⟨before, id, after, h1, h2, h3, h4⟩ := fallbackLoop_ok mm req _ [] resp hok
  refine ⟨before, id, after, h1, ?_, (usable_some_iff mm req id resp).mp h3, ?_⟩
  · intro c hc
    exact (usable_none_iff mm req c).mp (h2 c hc)
  · rw [ModelManager.CompleteWithFallback, h4, List.nil_append]

/-- C6 at P1 unavailable, P2 failing, P3 succeeding. -/
theorem CompleteWithFallback_first_success_witness :
    ∃ before id after, "m1" :: threeBackends.fallbackChain = before ++ id :: after ∧
      (∀ c ∈ before, threeBackends.candidateFails { Model := "m1" } c) ∧
      (∃ p, threeBackends.GetProviderForModel id = Except.ok p ∧ p.IsAvailable = true ∧
        p.Complete { ({ Model := "m1" } : CompletionRequest) with Model := id } =
          Except.ok (sampleResponse "m3")) ∧
      (threeBackends.CompleteWithFallback { Model := "m1" }).2 =
        before.flatMap threeBackends.callsFor ++
          [FallbackCall.resolve id, FallbackCall.probe id, FallbackCall.complete id] :=
  CompleteWithFallback_first_success threeBackends { Model := "m1" } (sampleResponse "m3") rfl

/-- C7. `CompleteWithFallback` returns an error exactly when every candidate of
`req.Model :: fallbackChain` fails to resolve, is unavailable, or has its
`Complete` call fail; and when it returns an error it has walked the whole
list: its calls are those of every candidate in order, so each candidate was
resolved. -/
theorem CompleteWithFallback_error_iff (mm : ModelManager) (req : CompletionRequest) :
    ((∃ err, (mm.CompleteWithFallback req).1 = Except.error err) ↔
      ∀ c ∈ req.Model :: mm.fallbackChain, mm.candidateFails req c) ∧
    ((∃ err, (mm.CompleteWithFallback req).1 = Except.error err) →
      (mm.CompleteWithFallback req).2 = (req.Model :: mm.fallbackChain).flatMap mm.callsFor ∧
      ∀ c ∈ req.Model :: mm.fallbackChain,
        FallbackCall.resolve c ∈ (mm.CompleteWithFallback req).2) := by
  obtain ⟨h1, h2⟩ := fallbackLoop_error mm req (req.Model :: mm.fallbackChain) []
  have hiff : (∀ c ∈ req.Model :: mm.fallbackChain, mm.usable req c = none) ↔
      ∀ c ∈ req.Model :: mm.fallbackChain, mm.candidateFails req c :=
    forall₂_congr fun c _ => usable_none_iff mm req c
  refine ⟨by rw [ModelManager.CompleteWithFallback, h1, hiff], ?_⟩
  intro herr
  have hall := h1.mp herr
  have hlog := h2 hall
  rw [List.nil_append] at hlog
  refine ⟨hlog, ?_⟩
  intro c hc
  rw [ModelManager.CompleteWithFallback, hlog, List.mem_flatMap]
  refine ⟨c, hc, ?_⟩
  unfold ModelManager.callsFor
  cases mm.GetProviderForModel c with
  | error e => simp
  | ok p => cases hp : p.IsAvailable <;> simp [hp]

/-- C9. `GetProviderForModel` consults the model index first: an id present in
the index gets exactly what `GetProvider` returns for the indexed provider
type (the provider registered under that type), whatever the id contains; the
substring heuristic decides only for an id absent from the index. -/
theorem GetProviderForModel_index_first (mm : ModelManager) (modelID : String) :
    (∀ pType, mm.modelIndex.lookup modelID = some pType →
      mm.GetProviderForModel modelID = mm.GetProvider pType ∧
      ∀ p, mm.providers.lookup pType = some p →
        mm.GetProviderForModel modelID = Except.ok p) ∧
    (mm.modelIndex.lookup modelID = none →
      mm.GetProviderForModel modelID = mm.GetProvider (parseProviderFromModelID modelID)) := by
  refine ⟨?_, ?_⟩
  · intro pType h
    refine ⟨by simp [ModelManager.GetProviderForModel, h], ?_⟩
    intro p hp
    simp [ModelManager.GetProviderForModel, ModelManager.GetProvider, h, hp]
  · intro h
    simp [ModelManager.GetProviderForModel, h]

/-- C9 at an indexed id that contains "claude", "gpt" and "gemini": the
heuristic would say Anthropic, the index routes it to the local backend. -/
theorem GetProviderForModel_index_first_witness :
    parseProviderFromModelID "claude-gpt-gemini" = ProviderAnthropic ∧
    (indexedManager.GetProviderForModel "claude-gpt-gemini").toOption.map (fun p => p.Name) =
      some "Local" :=
  ⟨by decide,
    by rw [((GetProviderForModel_index_first indexedManager "claude-gpt-gemini").1
      ProviderLocal (by decide)).1]; rfl⟩

/-- The calls of the loop are those of a leading segment of the candidates. -/
theorem fallbackLoop_log (mm : ModelManager) (req : CompletionRequest) (cands : List String)
    (log : List FallbackCall) :
    ∃ k, (mm.fallbackLoop req cands log).2 = log ++ (cands.take k).flatMap mm.callsFor := by
  induction cands generalizing log with
  | nil => exact ⟨0, by simp [ModelManager.fallbackLoop]⟩
  | cons c rest ih =>
    cases hc : mm.usable req c with
    | none =>
      rw [fallbackLoop_cons_none mm req c rest log hc]
      obtain ⟨k, hk⟩ := ih (log ++ mm.callsFor c)
      exact ⟨k + 1, by rw [hk]; simp [List.flatMap_cons, List.append_assoc]⟩
    | some r =>
      rw [fallbackLoop_cons_some mm req c rest log r hc]
      refine ⟨1, ?_⟩
      obtain ⟨p, hp, ha, -⟩ := (usable_some_iff mm req c r).mp hc
      simp [ModelManager.callsFor, hp, ha]

theorem count_complete_callsFor (mm : ModelManager) (id c : String) :
    (mm.callsFor c).count (FallbackCall.complete id) ≤ if c = id then 1 else 0 := by
  unfold ModelManager.callsFor
  cases mm.GetProviderForModel c with
  | error e => simp [List.count_cons]
  | ok p =>
    cases hp : p.IsAvailable
    · simp [List.count_cons, hp]
    · by_cases h : c = id
      · simp [List.count_cons, h, hp]
      · have h2 : id ≠ c := fun e => h e.symm
        simp [List.count_cons, h, h2, hp]

theorem count_complete_flatMap (mm : ModelManager) (id : String) (l : List String) :
    (l.flatMap mm.callsFor).count (FallbackCall.complete id) ≤ l.count id := by
  induction l with
  | nil => simp
  | cons c rest ih =>
    have h1 := count_complete_callsFor mm id c
    rw [List.flatMap_cons, List.count_append, List.count_cons]
    by_cases h : c = id
    · simp only [h, if_true, beq_self_eq_true] at h1 ⊢
      omega
    · have h2 : (c == id) = false := by simpa using h
      simp only [h, if_false, h2] at h1 ⊢
      simp only [Bool.false_eq_true, if_false]
      omega

theorem complete_mem_callsFor (mm : ModelManager) (id c : String)
    (h : FallbackCall.complete id ∈ mm.callsFor c) :
    c = id ∧ ∃ p, mm.GetProviderForModel id = Except.ok p ∧ p.IsAvailable = true := by
  unfold ModelManager.callsFor at h
  cases hp : mm.GetProviderForModel c with
  | error e => rw [hp] at h; simp at h
  | ok p =>
    rw [hp] at h
    cases ha : p.IsAvailable with
    | false => simp [ha] at h
    | true =>
      simp [ha] at h
      subst h
      exact ⟨rfl, p, hp, ha⟩

/-- C8 (as amended). Within one `CompleteWithFallback` call, `Complete` is
invoked on a model id at most as often as the id occurs in
`req.Model :: fallbackChain` (at most once when the ids are distinct), and only
on an id that resolves to an available provider; with P1 unavailable, P2
available but failing and P3 succeeding, the result is P3's response with no
`Complete` call on P1 and exactly one on P2. -/
theorem CompleteWithFallback_attempts (mm : ModelManager) (req : CompletionRequest) :
    (∀ id, (mm.CompleteWithFallback req).2.count (FallbackCall.complete id) ≤
      (req.Model :: mm.fallbackChain).count id) ∧
    (∀ id, FallbackCall.complete id ∈ (mm.CompleteWithFallback req).2 →
      ∃ p, mm.GetProviderForModel id = Except.ok p ∧ p.IsAvailable = true) ∧
    (∀ m2 m3 p1 p2 p3 err resp, mm.fallbackChain = [m2, m3] →
      mm.GetProviderForModel req.Model = Except.ok p1 → p1.IsAvailable = false →
      mm.GetProviderForModel m2 = Except.ok p2 → p2.IsAvailable = true →
      p2.Complete { req with Model := m2 } = Except.error err →
      mm.GetProviderForModel m3 = Except.ok p3 → p3.IsAvailable = true →
      p3.Complete { req with Model := m3 } = Except.ok resp →
      (mm.CompleteWithFallback req).1 = Except.ok resp ∧
      (mm.CompleteWithFallback req).2.count (FallbackCall.complete req.Model) = 0 ∧
      (mm.CompleteWithFallback req).2.count (FallbackCall.complete m2) = 1) := by
  refine ⟨?_, ?_, ?_⟩
  · intro id
    obtain ⟨k, hk⟩ := fallbackLoop_log mm req (req.Model :: mm.fallbackChain) []
    rw [ModelManager.CompleteWithFallback, hk, List.nil_append]
    exact le_trans (count_complete_flatMap mm id _)
      ((List.take_sublist k _).count_le id)
  · intro id hmem
    obtain ⟨k, hk⟩ := fallbackLoop_log mm req (req.Model :: mm.fallbackChain) []
    rw [ModelManager.CompleteWithFallback, hk, List.nil_append, List.mem_flatMap] at hmem
    obtain ⟨c, -, hc⟩ := hmem
    exact (complete_mem_callsFor mm id c hc).2
  · intro m2 m3 p1 p2 p3 err resp hchain h1 a1 h2 a2 c2 h3 a3 c3
    have u1 : mm.usable req req.Model = none := by
      simp [ModelManager.usable, h1, a1]
    have u2 : mm.usable req m2 = none := by
      simp [ModelManager.usable, h2, a2, c2]
    have u3 : mm.usable req m3 = some resp := by
      simp [ModelManager.usable, h3, a3, c3]
    have n12 : req.Model ≠ m2 := by
      intro h
      rw [h, h2] at h1
      simp only [Except.ok.injEq] at h1
      rw [h1, a1] at a2
      exact absurd a2 (by decide)
    have n13 : req.Model ≠ m3 := by
      intro h
      rw [h, h3] at h1
      simp only [Except.ok.injEq] at h1
      rw [h1, a1] at a3
      exact absurd a3 (by decide)
    have n23 : m2 ≠ m3 := by
      intro h
      rw [h] at u2
      rw [u2] at u3
      exact absurd u3 (by simp)
    have hrun : mm.CompleteWithFallback req =
        (Except.ok resp, [FallbackCall.resolve req.Model, FallbackCall.probe req.Model,
          FallbackCall.resolve m2, FallbackCall.probe m2, FallbackCall.complete m2,
          FallbackCall.resolve m3, FallbackCall.probe m3, FallbackCall.complete m3]) := by
      rw [ModelManager.CompleteWithFallback, hchain, fallbackLoop_cons_none _ _ _ _ _ u1,
        fallbackLoop_cons_none _ _ _ _ _ u2, fallbackLoop_cons_some _ _ _ _ _ resp u3]
      simp [ModelManager.callsFor, h1, a1, h2, a2]
    rw [hrun]
    refine ⟨rfl, ?_, ?_⟩
    · simp [List.count_cons, n12, n13]
    · simp [List.count_cons, n23, Ne.symm n23]

/-- C8 at P1 unavailable, P2 failing, P3 succeeding. -/
theorem CompleteWithFallback_attempts_witness :
    (threeBackends.CompleteWithFallback { Model := "m1" }).1 = Except.ok (sampleResponse "m3") ∧
    (threeBackends.CompleteWithFallback { Model := "m1" }).2.count
      (FallbackCall.complete "m1") = 0 ∧
    (threeBackends.CompleteWithFallback { Model := "m1" }).2.count
      (FallbackCall.complete "m2") = 1 :=
  (CompleteWithFallback_attempts threeBackends { Model := "m1" }).2.2 "m2" "m3"
    (sampleProvider "P1" ProviderAnthropic false true)
    (sampleProvider "P2" ProviderOpenAI true false)
    (sampleProvider "P3" ProviderGemini true true) "P2: request failed" (sampleResponse "m3")
    rfl rfl rfl rfl rfl rfl rfl rfl rfl

/-- C8 as stated fails on the default configuration: the default model heads
the default fallback chain too, so when its backend is reachable but its
request fails, `Complete` is invoked twice on "claude-sonnet-4.5". -/
theorem CompleteWithFallback_repeats_default :
    (defaultChainManager.CompleteWithFallback { Model := DefaultConfig_Default }).2.count
      (FallbackCall.complete "claude-sonnet-4.5") = 2 := by
  decide

/-! ## Tool dispatch -/

theorem notFound_ne_notEnabled (toolID : String) :
    "tool " ++ toolID ++ " not found" ≠ "tool " ++ toolID ++ " is not enabled" := by
  intro h
  have := congrArg String.length h
  simp only [String.length_append] at this
  have h1 : " not found".length = 10 := by decide
  have h2 : " is not enabled".length = 15 := by decide
  omega

/-- C10. `Execute` on an id absent from the registry returns the not-found
error, on an id registered with `Enabled = false` the not-enabled error, in
both cases without invoking a handler; on every other id it invokes the
tool's handler once on the same input and returns exactly its pair. Conversely
a not-found outcome with no handler call arises only for an unregistered id,
and a not-enabled one only for a registered, disabled tool. -/
theorem Execute_dispatch (tm : ToolManager) (toolID : String) (input : List (String × Value)) :
    (tm.tools.lookup toolID = none →
      tm.Execute toolID input =
        { result := none, err := some ("tool " ++ toolID ++ " not found"), handlerCalls := [] }) ∧
    (∀ tool, tm.tools.lookup toolID = some tool → tool.Enabled = false →
      tm.Execute toolID input =
        { result := none, err := some ("tool " ++ toolID ++ " is not enabled"),
          handlerCalls := [] }) ∧
    (∀ tool, tm.tools.lookup toolID = some tool → tool.Enabled = true →
      tm.Execute toolID input =
        { result := (tool.Handler input).1, err := (tool.Handler input).2,
          handlerCalls := [(toolID, input)] }) ∧
    (tm.Execute toolID input =
        { result := none, err := some ("tool " ++ toolID ++ " not found"), handlerCalls := [] } →
      tm.tools.lookup toolID = none) ∧
    (tm.Execute toolID input =
        { result := none, err := some ("tool " ++ toolID ++ " is not enabled"),
          handlerCalls := [] } →
      ∃ tool, tm.tools.lookup toolID = some tool ∧ tool.Enabled = false) := by
  unfold ToolManager.Execute ToolManager.GetTool
  cases hl : tm.tools.lookup toolID with
  | none =>
    refine ⟨fun _ => rfl, by simp, by simp, fun _ => rfl, ?_⟩
    intro h
    simp only [ExecOutcome.mk.injEq, Option.some.injEq, true_and, and_true] at h
    exact absurd h (notFound_ne_notEnabled toolID)
  | some tool =>
    cases he : tool.Enabled with
    | false =>
      refine ⟨by simp, ?_, ?_, ?_, ?_⟩
      · intro t ht _
        simp only [Option.some.injEq] at ht
        subst ht
        simp [he]
      · intro t ht hte
        simp only [Option.some.injEq] at ht
        subst ht
        rw [he] at hte
        exact absurd hte (by decide)
      · intro h
        simp only [he, Bool.not_false, if_true, ExecOutcome.mk.injEq, Option.some.injEq,
          true_and, and_true] at h
        exact absurd h.symm (notFound_ne_notEnabled toolID)
      · intro _
        exact ⟨tool, rfl, he⟩
    | true =>
      refine ⟨by simp, ?_, ?_, ?_, ?_⟩
      · intro t ht hte
        simp only [Option.some.injEq] at ht
        subst ht
        rw [he] at hte
        exact absurd hte (by decide)
      · intro t ht _
        simp only [Option.some.injEq] at ht
        subst ht
        simp [he]
      · intro h
        simp [he] at h
      · intro h
        simp [he] at h

/-- C10 on a registry with an enabled and a disabled tool. -/
theorem Execute_dispatch_witness :
    sampleTools.Execute "nope" [] =
      { result := none, err := some "tool nope not found", handlerCalls := [] } ∧
    sampleTools.Execute "tavily_search" [] =
      { result := none, err := some "tool tavily_search is not enabled", handlerCalls := [] } ∧
    sampleTools.Execute "write_file" [("path", Value.str "a.txt")] =
      { result := (okHandler [("path", Value.str "a.txt")]).1,
        err := (okHandler [("path", Value.str "a.txt")]).2,
        handlerCalls := [("write_file", [("path", Value.str "a.txt")])] } :=
  ⟨(Execute_dispatch sampleTools "nope" []).1 rfl,
    (Execute_dispatch sampleTools "tavily_search" []).2.1 disabledSearchTool rfl rfl,
    (Execute_dispatch sampleTools "write_file" [("path", Value.str "a.txt")]).2.2.1
      writeFileTool rfl rfl⟩

/-! ## Batching of the token text -/

/-- C1 (the code at a failing input). Tokens "Hello", " ", "world" with a tick
after each of the first two, then `OnDone` and the final flush: the handler
sends the deltas "Hello" and "world" only, so the deltas concatenate to
"Helloworld" while the tokens concatenate to "Hello world"; the loop has
returned with an empty buffer and nothing left to send. -/
theorem flushPending_drops_lone_whitespace :
    String.join (tokensOf loneSpaceSchedule) = "Hello world" ∧
    deltas ((NewTUIStreamHandler "s1" "m" "P" (some [])).run loneSpaceSchedule).sent =
      ["Hello", "world"] ∧
    String.join (deltas ((NewTUIStreamHandler "s1" "m" "P" (some [])).run
      loneSpaceSchedule).sent) = "Helloworld" ∧
    ((NewTUIStreamHandler "s1" "m" "P" (some [])).run loneSpaceSchedule).pending = "" ∧
    ((NewTUIStreamHandler "s1" "m" "P" (some [])).run loneSpaceSchedule).asyncSends = [] ∧
    ((NewTUIStreamHandler "s1" "m" "P" (some [])).run loneSpaceSchedule).returned = true := by
  decide

/-! ## The callback protocol of the providers -/

theorem followsProtocol_snoc_done (calls : List HandlerCall) (r : CompletionResponse)
    (h : calls.all (fun c => !c.isTerminal) = true) :
    followsProtocol (calls ++ [HandlerCall.onDone r]) (Except.ok r) = true := by
  simp only [followsProtocol, List.reverse_append, List.reverse_singleton, List.singleton_append,
    List.all_reverse]
  exact h

theorem followsProtocol_snoc_error (calls : List HandlerCall) (e : String)
    (h : calls.all (fun c => !c.isTerminal) = true) :
    followsProtocol (calls ++ [HandlerCall.onError e]) (Except.error e) = true := by
  simp only [followsProtocol, List.reverse_append, List.reverse_singleton, List.singleton_append,
    List.all_reverse]
  exact h

theorem mockStreamLoop_protocol (ctx : Ctx) (req : CompletionRequest) (parts : List String)
    (i : Nat) (calls : List HandlerCall) (h : calls.all (fun c => !c.isTerminal) = true) :
    followsProtocol (mockStreamLoop ctx req parts i calls).1
      (mockStreamLoop ctx req parts i calls).2 = true := by
  induction parts generalizing i calls with
  | nil => exact followsProtocol_snoc_done calls _ h
  | cons s rest ih =>
    rw [mockStreamLoop]
    split_ifs
    · exact followsProtocol_snoc_error calls _ h
    · exact ih _ _ (by rw [List.all_append, h]; rfl)

/-- The mock provider follows the protocol for every context and request. -/
theorem MockProvider_protocol (ctx : Ctx) (req : CompletionRequest) :
    followsProtocol (MockProvider.StreamComplete ctx req).1
      (MockProvider.StreamComplete ctx req).2 = true :=
  mockStreamLoop_protocol ctx req mockParts 0 [] rfl

theorem geminiStreamLoop_protocol (now : Nat) (req : CompletionRequest)
    (items : List GeminiItem) (fullContent : String) (calls : List HandlerCall)
    (h : calls.all (fun c => !c.isTerminal) = true) :
    followsProtocol (geminiStreamLoop now req items fullContent calls).1
      (geminiStreamLoop now req items fullContent calls).2 = true := by
  induction items generalizing fullContent calls with
  | nil => exact followsProtocol_snoc_done calls _ h
  | cons item rest ih =>
    cases item with
    | err e => exact followsProtocol_snoc_error calls _ h
    | resp candidates =>
      rw [geminiStreamLoop]
      apply ih
      rw [List.all_append, h, Bool.true_and]
      apply List.all_eq_true.mpr
      intro c hc
      obtain ⟨t, -, rfl⟩ := List.mem_map.mp hc
      rfl

/-- The Gemini provider follows the protocol whenever its client is set. -/
theorem GeminiProvider_protocol_of_client (client : GeminiClient) (apiKey : String)
    (models : List ModelInfo) (now : Nat) (req : CompletionRequest) :
    followsProtocol
      (GeminiProvider.StreamComplete { client := some client, apiKey := apiKey, models := models }
        now req).1
      (GeminiProvider.StreamComplete { client := some client, apiKey := apiKey, models := models }
        now req).2 = true :=
  geminiStreamLoop_protocol now req _ "" [] rfl

/-- C5 (the code at a failing input). A Gemini provider whose client is nil,
as `NewGeminiProvider` leaves it when the SDK client cannot be created, returns
the error "gemini client not initialized" from `StreamComplete` without any
call on the handler: the return is preceded by no terminal callback. -/
theorem GeminiProvider_nil_client_no_callback (apiKey : String) (models : List ModelInfo)
    (now : Nat) (req : CompletionRequest) :
    GeminiProvider.StreamComplete { client := none, apiKey := apiKey, models := models } now req =
      ([], Except.error "gemini client not initialized") ∧
    followsProtocol
      (GeminiProvider.StreamComplete { client := none, apiKey := apiKey, models := models }
        now req).1
      (GeminiProvider.StreamComplete { client := none, apiKey := apiKey, models := models }
        now req).2 = false :=
  ⟨rfl, rfl⟩

/-! ## A prompt cycle whose model has no provider -/

theorem flushPending_idle (h : TUIStreamHandler) (final : Bool) (hp : h.pending = "") :
    h.flushPending final = h := by
  have h0 : h.pending.utf8ByteSize = 0 := by rw [hp]; rfl
  have h1 : TrimSpace "" = "" := by decide
  simp [TUIStreamHandler.flushPending, TUIStreamHandler.takePending, h0, h1]

/-- With nothing buffered, signalled or waiting, no goroutine of the handler
changes the state. -/
theorem step_idle (h : TUIStreamHandler) (b : BgStep) (hp : h.pending = "")
    (he : h.endCh = none) (hs : h.endSenders = []) (ha : h.asyncSends = []) :
    h.step b.toStep = h := by
  cases b with
  | tick =>
    simp only [BgStep.toStep, TUIStreamHandler.step]
    split_ifs
    · rfl
    · exact flushPending_idle h false hp
  | recvEnd => simp [BgStep.toStep, TUIStreamHandler.step, he]
  | deliverEnd => simp [BgStep.toStep, TUIStreamHandler.step, he, hs]
  | deliverAsync i => simp [BgStep.toStep, TUIStreamHandler.step, ha]

theorem cycle_idle (s : CycleState) (sched : List Sched) (ht : s.todo = [])
    (hp : s.h.pending = "") (he : s.h.endCh = none) (hs : s.h.endSenders = [])
    (ha : s.h.asyncSends = []) : sched.foldl CycleState.step s = s := by
  induction sched with
  | nil => rfl
  | cons x rest ih =>
    have hx : s.step x = s := by
      cases x with
      | main => simp [CycleState.step, ht]
      | background b => simp [CycleState.step, step_idle s.h b hp he hs ha]
    rw [List.foldl_cons, hx, ih]

/-- C3 (the code at a failing input). With no provider configured,
`StreamComplete` fails for every request without calling the handler, and the
prompt cycle, under every schedule, leaves on the channel only its
`StreamStartMsg`: no `StreamErrorMsg` and no terminal `StatusMsg` is sent or
waiting to be sent, and `flushLoop` never returns. -/
theorem promptCycle_unresolvable_model_silent (tm : ToolManager)
    (modelID streamID prompt : String) (mock : Bool) (maxTokens : Int) (ch0 : List Msg)
    (sched : List Sched) :
    (∀ req, ∃ err, emptyManager.StreamComplete req = ([], Except.error err)) ∧
    (promptCycle emptyManager tm modelID streamID prompt mock maxTokens ch0 sched).h.sent =
      ch0 ++ [Msg.StreamStartMsg streamID StreamRoleUser prompt modelID ""] ∧
    (promptCycle emptyManager tm modelID streamID prompt mock maxTokens ch0 sched).h.asyncSends =
      [] ∧
    (promptCycle emptyManager tm modelID streamID prompt mock maxTokens ch0 sched).h.returned =
      false ∧
    ([Msg.StreamStartMsg streamID StreamRoleUser prompt modelID ""].countP isStreamError = 0 ∧
      [Msg.StreamStartMsg streamID StreamRoleUser prompt modelID ""].countP isTerminalStatus =
        0) := by
  have hres : ∀ id, emptyManager.GetProviderForModel id =
      Except.error ("provider " ++ parseProviderFromModelID id ++ " not configured") := by
    intro id
    simp [ModelManager.GetProviderForModel, ModelManager.GetProvider, emptyManager]
  have hsc : ∀ req, emptyManager.StreamComplete req =
      ([], Except.error ("provider " ++ parseProviderFromModelID req.Model ++
        " not configured")) := by
    intro req
    simp [ModelManager.StreamComplete, hres]
  have hcyc : promptCycle emptyManager tm modelID streamID prompt mock maxTokens ch0 sched =
      { h := NewTUIStreamHandler streamID modelID ""
          (some (ch0 ++ [Msg.StreamStartMsg streamID StreamRoleUser prompt modelID ""])),
        todo := [] } := by
    simp only [promptCycle, hres, hsc, List.map_nil, List.append_nil]
    exact cycle_idle _ sched rfl rfl rfl rfl rfl
  rw [hcyc]
  exact ⟨fun req => ⟨_, hsc req⟩, rfl, rfl, rfl, rfl, rfl⟩


/-! ## What the batching preserves -/

theorem foldl_append_acc (l : List String) (acc : String) :
    l.foldl (fun r s => r ++ s) acc = acc ++ l.foldl (fun r s => r ++ s) "" := by
  induction l generalizing acc with
  | nil => simp
  | cons x xs ih =>
    rw [List.foldl_cons, List.foldl_cons, ih (acc ++ x), ih ("" ++ x), String.empty_append,
      String.append_assoc]

theorem join_cons (x : String) (xs : List String) :
    String.join (x :: xs) = x ++ String.join xs := by
  show List.foldl (fun r s => r ++ s) "" (x :: xs) = x ++ List.foldl (fun r s => r ++ s) "" xs
  rw [List.foldl_cons, foldl_append_acc, String.empty_append]

theorem join_snoc (l : List String) (x : String) :
    String.join (l ++ [x]) = String.join l ++ x := by
  induction l with
  | nil =>
    show List.foldl (fun r s => r ++ s) "" [x] = List.foldl (fun r s => r ++ s) "" [] ++ x
    rfl
  | cons y ys ih => rw [List.cons_append, join_cons, join_cons, ih, String.append_assoc]

theorem deltas_append (l1 l2 : List Msg) : deltas (l1 ++ l2) = deltas l1 ++ deltas l2 := by
  induction l1 with
  | nil => rfl
  | cons m ms ih => cases m <;> simp [deltas, ih]

theorem flushPending_balance (h : TUIStreamHandler) (final : Bool) (l : List Msg)
    (hch : h.ch = some l) (hd : TrimSpace h.pending = "" → h.pending = "") :
    ∃ l2, (h.flushPending final).ch = some l2 ∧
      String.join (deltas l2) ++ (h.flushPending final).pending =
        String.join (deltas l) ++ h.pending := by
  have ht0 : TrimSpace "" = "" := by decide
  by_cases hz : h.pending.utf8ByteSize = 0
  · refine ⟨l, ?_, ?_⟩ <;>
      simp [TUIStreamHandler.flushPending, TUIStreamHandler.takePending, hz, ht0, hch]
  · have ht : TrimSpace h.pending ≠ "" := by
      intro ht
      rw [hd ht] at hz
      exact hz rfl
    cases final with
    | true =>
      refine ⟨l ++ [Msg.TokenDeltaMsg h.streamID StreamRoleAssistant h.pending], ?_, ?_⟩
      · simp [TUIStreamHandler.flushPending, TUIStreamHandler.takePending, hz, ht,
          TUIStreamHandler.send, hch]
      · have hp : (h.flushPending true).pending = "" := by
          simp [TUIStreamHandler.flushPending, TUIStreamHandler.takePending, hz, ht,
            TUIStreamHandler.send, hch]
        rw [hp, deltas_append, String.append_empty]
        exact join_snoc _ _
    | false =>
      refine ⟨l ++ [Msg.TokenDeltaMsg h.streamID StreamRoleAssistant h.pending] ++
        [Msg.StatusMsg h.streamID h.base.GetModelName h.provider (h.base.GetTokenCount : Nat)
          h.base.GetCost "running"], ?_, ?_⟩
      · simp [TUIStreamHandler.flushPending, TUIStreamHandler.takePending, hz, ht,
          TUIStreamHandler.send, hch]
      · have hp : (h.flushPending false).pending = "" := by
          simp [TUIStreamHandler.flushPending, TUIStreamHandler.takePending, hz, ht,
            TUIStreamHandler.send, hch]
        rw [hp, deltas_append, deltas_append, String.append_empty]
        show String.join (deltas l ++ [h.pending] ++ []) = _
        rw [List.append_nil]
        exact join_snoc _ _

theorem signal_frame (h : TUIStreamHandler) (ev : endEvent) :
    (h.signal ev).ch = h.ch ∧ (h.signal ev).pending = h.pending ∧
    (h.signal ev).asyncSends = h.asyncSends := by
  unfold TUIStreamHandler.signal
  cases h.endCh <;> exact ⟨rfl, rfl, rfl⟩

theorem finish_pending (g : TUIStreamHandler) (ev : endEvent) :
    (g.finish ev).pending = (g.flushPending true).pending := by
  unfold TUIStreamHandler.finish TUIStreamHandler.sendAsync
  cases he : ev.err <;> cases hc : (g.flushPending true).ch <;> simp [hc]

theorem finishMsgs_deltas (h1 : TUIStreamHandler) (ev : endEvent) :
    deltas [(finishMsgs h1 ev).1] = [] ∧ deltas [(finishMsgs h1 ev).2] = [] := by
  unfold finishMsgs
  cases ev.err <;> exact ⟨rfl, rfl⟩

theorem step_balance (h : TUIStreamHandler) (s : Step) (l : List Msg) (hch : h.ch = some l)
    (ha : ∀ m ∈ h.asyncSends, deltas [m] = []) (hd : h.discards s = "") :
    ∃ l2, (h.step s).ch = some l2 ∧ (∀ m ∈ (h.step s).asyncSends, deltas [m] = []) ∧
      String.join (deltas l2) ++ (h.step s).pending =
        String.join (deltas l) ++ h.pending ++ s.tokenText := by
  cases s with
  | onToken t =>
    exact ⟨l, hch, ha, by
      simp [TUIStreamHandler.step, TUIStreamHandler.OnToken, Step.tokenText, String.append_assoc]⟩
  | onDone r =>
    obtain ⟨f1, f2, f3⟩ := signal_frame { h with base := h.base.OnDone r } { resp := some r }
    refine ⟨l, ?_, ?_, ?_⟩
    · rw [TUIStreamHandler.step, TUIStreamHandler.OnDone, f1]; exact hch
    · rw [TUIStreamHandler.step, TUIStreamHandler.OnDone, f3]; exact ha
    · rw [TUIStreamHandler.step, TUIStreamHandler.OnDone, f2]
      simp [Step.tokenText]
  | onError e =>
    obtain ⟨f1, f2, f3⟩ := signal_frame { h with base := h.base.OnError e } { err := some e }
    refine ⟨l, ?_, ?_, ?_⟩
    · rw [TUIStreamHandler.step, TUIStreamHandler.OnError, f1]; exact hch
    · rw [TUIStreamHandler.step, TUIStreamHandler.OnError, f3]; exact ha
    · rw [TUIStreamHandler.step, TUIStreamHandler.OnError, f2]
      simp [Step.tokenText]
  | tick =>
    cases hr : h.returned with
    | true =>
      exact ⟨l, by simpa [TUIStreamHandler.step, hr] using hch,
        by simpa [TUIStreamHandler.step, hr] using ha,
        by simp [TUIStreamHandler.step, hr, Step.tokenText]⟩
    | false =>
      have hstep : h.step Step.tick = h.flushPending false := by
        simp [TUIStreamHandler.step, hr]
      have hd2 : TrimSpace h.pending = "" → h.pending = "" := by
        intro ht
        simpa [TUIStreamHandler.discards, hr, ht] using hd
      obtain ⟨l2, h1, h2⟩ := flushPending_balance h false l hch hd2
      obtain ⟨-, f2, -, -, -, -⟩ := flushPending_frame h false
      rw [hstep]
      exact ⟨l2, h1, by rw [f2]; exact ha, by rw [h2]; simp [Step.tokenText]⟩
  | recvEnd =>
    cases hr : h.returned with
    | true =>
      exact ⟨l, by simpa [TUIStreamHandler.step, hr] using hch,
        by simpa [TUIStreamHandler.step, hr] using ha,
        by simp [TUIStreamHandler.step, hr, Step.tokenText]⟩
    | false =>
      cases he : h.endCh with
      | none =>
        have hstep : h.step Step.recvEnd = h := by simp [TUIStreamHandler.step, hr, he]
        rw [hstep]
        exact ⟨l, hch, ha, by simp [Step.tokenText]⟩
      | some ev =>
        have hstep : h.step Step.recvEnd = TUIStreamHandler.finish { h with endCh := none } ev := by
          simp [TUIStreamHandler.step, hr, he]
        have hd2 : TrimSpace h.pending = "" → h.pending = "" := by
          intro ht
          simpa [TUIStreamHandler.discards, hr, he, ht] using hd
        obtain ⟨l2, h1, h2⟩ := flushPending_balance { h with endCh := none } true l hch hd2
        obtain ⟨g0, g3, -⟩ := finish_spec { h with endCh := none } ev l hch
        obtain ⟨d1, d2⟩ :=
          finishMsgs_deltas (TUIStreamHandler.flushPending { h with endCh := none } true) ev
        rw [hstep]
        refine ⟨l2, by rw [g0, h1], ?_, ?_⟩
        · intro m hm
          rw [g3] at hm
          simp only [List.mem_append, List.mem_cons, List.mem_singleton, List.not_mem_nil,
            or_false] at hm
          rcases hm with hm | rfl | rfl
          · exact ha m hm
          · exact d1
          · exact d2
        · rw [finish_pending, h2]
          simp [Step.tokenText]
  | deliverEnd =>
    have hfr : (h.step Step.deliverEnd).ch = h.ch ∧
        (h.step Step.deliverEnd).asyncSends = h.asyncSends ∧
        (h.step Step.deliverEnd).pending = h.pending := by
      simp only [TUIStreamHandler.step]
      split <;> simp
    obtain ⟨e1, e2, e3⟩ := hfr
    exact ⟨l, by rw [e1, hch], by rw [e2]; exact ha, by rw [e3]; simp [Step.tokenText]⟩
  | deliverAsync i =>
    cases hm : h.asyncSends[i]? with
    | none =>
      have hstep : h.step (Step.deliverAsync i) = h := by simp [TUIStreamHandler.step, hm]
      rw [hstep]
      exact ⟨l, hch, ha, by simp [Step.tokenText]⟩
    | some m =>
      have hstep : h.step (Step.deliverAsync i) =
          { h with ch := some (l ++ [m]), asyncSends := h.asyncSends.eraseIdx i } := by
        simp [TUIStreamHandler.step, hm, TUIStreamHandler.send, hch]
      have hmd : deltas [m] = [] := ha m (List.getElem?_mem hm)
      rw [hstep]
      refine ⟨l ++ [m], rfl, ?_, ?_⟩
      · intro x hx
        exact ha x ((List.eraseIdx_sublist _ _).subset hx)
      · rw [deltas_append, hmd, List.append_nil]
        simp [Step.tokenText]

theorem run_balance (steps : List Step) (h : TUIStreamHandler) (l : List Msg)
    (hch : h.ch = some l) (ha : ∀ m ∈ h.asyncSends, deltas [m] = [])
    (hl : h.lossless steps = true) :
    ∃ l2, (h.run steps).ch = some l2 ∧
      String.join (deltas l2) ++ (h.run steps).pending =
        String.join (deltas l) ++ h.pending ++ String.join (tokensOf steps) := by
  induction steps generalizing h l with
  | nil => exact ⟨l, hch, by simp [TUIStreamHandler.run, tokensOf, String.join]⟩
  | cons s ss ih =>
    simp only [TUIStreamHandler.lossless, Bool.and_eq_true, beq_iff_eq] at hl
    obtain ⟨l1, c1, a1, b1⟩ := step_balance h s l hch ha hl.1
    obtain ⟨l2, c2, b2⟩ := ih (h.step s) l1 c1 a1 hl.2
    refine ⟨l2, c2, ?_⟩
    have hrun : h.run (s :: ss) = (h.step s).run ss := rfl
    rw [hrun, b2, b1]
    cases s <;> simp [Step.tokenText, tokensOf, join_cons, String.append_assoc]

/-- When no flush meets a buffer that is all white space, batching loses
nothing: the deltas sent so far followed by the text still buffered are the
tokens passed to `OnToken`, in order. -/
theorem lossless_run_preserves_text (streamID modelName provider : String)
    (steps : List Step)
    (hl : (NewTUIStreamHandler streamID modelName provider (some [])).lossless steps = true) :
    String.join (deltas ((NewTUIStreamHandler streamID modelName provider (some [])).run
        steps).sent) ++
      ((NewTUIStreamHandler streamID modelName provider (some [])).run steps).pending =
    String.join (tokensOf steps) := by
  obtain ⟨l2, h1, h2⟩ := run_balance steps
    (NewTUIStreamHandler streamID modelName provider (some [])) [] rfl
    (by intro m hm; simp [NewTUIStreamHandler] at hm) hl
  rw [TUIStreamHandler.sent, h1]
  simpa [deltas, String.join, NewTUIStreamHandler] using h2

/-! ## The write_file handler -/

/-- C11. For every input whose trimmed path is absolute, and every behaviour
of the file system, the write_file handler returns a `ToolResult` with
`Success = false` and the error "absolute paths are not allowed", together with
that error, and makes no file-system call, whatever content, mode and mkdir
are. -/
theorem WriteFile_rejects_absolute (fs : FsEnv) (input : List (String × Value))
    (habs : IsAbs (TrimSpace (argString input "path")) = true) :
    WriteFileHandler.Execute fs input =
      ((some { Success := false, Data := Value.null, Error := "absolute paths are not allowed" },
        some "absolute paths are not allowed"), []) := by
  have hne : TrimSpace (argString input "path") ≠ "" := by
    intro h
    rw [h] at habs
    exact absurd habs (by decide)
  simp [WriteFileHandler.Execute, hne, habs, failedResult]

/-- C11 at `{path: "/etc/x", content: "y", mode: "append", mkdir: true}`. -/
theorem WriteFile_rejects_absolute_witness :
    WriteFileHandler.Execute okFs [("path", Value.str "/etc/x"), ("content", Value.str "y"),
        ("mode", Value.str "append"), ("mkdir", Value.bool true)] =
      ((some { Success := false, Data := Value.null, Error := "absolute paths are not allowed" },
        some "absolute paths are not allowed"), []) :=
  WriteFile_rejects_absolute okFs _ (by decide)

/-- C12 (the code at a failing input). On `{path: "../outside.txt", content:
"x"}` the handler, whatever the file system answers, calls
`os.WriteFile("../outside.txt", "x")`; from the working directory
`/home/u/repo` that path designates `/home/u/outside.txt`, which is not inside
the working directory. -/
theorem WriteFile_follows_dotdot (fs : FsEnv) :
    (WriteFileHandler.Execute fs
      [("path", Value.str "../outside.txt"), ("content", Value.str "x")]).2 =
      [FsOp.WriteFile "../outside.txt" "x"] ∧
    resolveIn "/home/u/repo" "../outside.txt" = "/home/u/outside.txt" ∧
    insideDir "/home/u/repo" (resolveIn "/home/u/repo" "../outside.txt") = false := by
  refine ⟨?_, by decide, by decide⟩
  have h1 : TrimSpace (argString [("path", Value.str "../outside.txt"),
      ("content", Value.str "x")] "path") = "../outside.txt" := by decide
  have h2 : argString [("path", Value.str "../outside.txt"), ("content", Value.str "x")]
      "content" = "x" := by decide
  have h3 : argString [("path", Value.str "../outside.txt"), ("content", Value.str "x")]
      "mode" = "" := by decide
  have h4 : argBool [("path", Value.str "../outside.txt"), ("content", Value.str "x")]
      "mkdir" = false := by decide
  have h5 : IsAbs "../outside.txt" = false := by decide
  have h6 : EqualFold "" "append" = false := by decide
  have h7 : ("../outside.txt" : String) ≠ "" := by decide
  simp only [WriteFileHandler.Execute, h1, h2, h3, h4, h5, h6, h7]
  cases fs.WriteFile "../outside.txt" "x" <;> simp

theorem argBool_eq_true_iff (input : List (String × Value)) (key : String) :
    argBool input key = true ↔ input.lookup key = some (Value.bool true) := by
  unfold argBool
  cases h : input.lookup key with
  | none => simp
  | some v => cases v <;> simp

/-- Which calls create a directory: one does exactly when the path is accepted
and `mkdir` is the boolean true. -/
theorem WriteFile_mkdir_ops (fs : FsEnv) (input : List (String × Value)) :
    (WriteFileHandler.Execute fs input).2.any FsOp.isMkdir =
      (pathAccepted input && argBool input "mkdir") := by
  unfold WriteFileHandler.Execute pathAccepted
  by_cases h1 : TrimSpace (argString input "path") = ""
  · simp [h1]
  · cases h2 : IsAbs (TrimSpace (argString input "path"))
    · cases h3 : argBool input "mkdir"
      · simp only [h1, h2, if_false, Bool.false_eq_true, List.nil_append]
        split_ifs <;> (try split) <;> (try split) <;> simp [FsOp.isMkdir]
      · simp only [h1, h2, if_false, Bool.false_eq_true, if_true]
        cases fs.MkdirAll (Dir (TrimSpace (argString input "path"))) with
        | some err => simp [FsOp.isMkdir, h1]
        | none =>
          simp only []
          split_ifs <;> (try split) <;> (try split) <;> simp [FsOp.isMkdir, h1]
    · simp [h1, h2]

/-- C13. The write_file handler creates a directory only on request: whenever
one of its calls is a directory creation the `mkdir` argument is the boolean
true; on an input whose path it accepts it calls `MkdirAll` if and only if
`mkdir` is the boolean true; and a call that omits `mkdir` (or gives a value
that is not a boolean) creates no directory. -/
theorem WriteFile_mkdir_only_on_request (fs : FsEnv) (input : List (String × Value)) :
    ((WriteFileHandler.Execute fs input).2.any FsOp.isMkdir = true →
      input.lookup "mkdir" = some (Value.bool true)) ∧
    (pathAccepted input = true →
      ((WriteFileHandler.Execute fs input).2.any FsOp.isMkdir = true ↔
        input.lookup "mkdir" = some (Value.bool true))) ∧
    (input.lookup "mkdir" = none →
      (WriteFileHandler.Execute fs input).2.any FsOp.isMkdir = false) ∧
    (∀ v, input.lookup "mkdir" = some v → (∀ b, v ≠ Value.bool b) →
      (WriteFileHandler.Execute fs input).2.any FsOp.isMkdir = false) := by
  rw [WriteFile_mkdir_ops]
  refine ⟨?_, ?_, ?_, ?_⟩
  · intro h
    simp only [Bool.and_eq_true] at h
    exact (argBool_eq_true_iff input "mkdir").mp h.2
  · intro hp
    rw [hp, Bool.true_and]
    exact argBool_eq_true_iff input "mkdir"
  · intro h
    simp [argBool, h]
  · intro v h hv
    have : argBool input "mkdir" = false := by
      unfold argBool
      rw [h]
      cases v <;> simp
      exact absurd rfl (hv _)
    rw [this, Bool.and_false]

/-- C13 on a relative path: with `mkdir: true` the parent directory is
created, without `mkdir` nothing is. -/
theorem WriteFile_mkdir_only_on_request_witness :
    (WriteFileHandler.Execute okFs
      [("path", Value.str "d/n.txt"), ("mkdir", Value.bool true)]).2.any FsOp.isMkdir = true ∧
    (WriteFileHandler.Execute okFs [("path", Value.str "d/n.txt")]).2.any FsOp.isMkdir = false :=
  ⟨((WriteFile_mkdir_only_on_request okFs
      [("path", Value.str "d/n.txt"), ("mkdir", Value.bool true)]).2.1 (by decide)).mpr
      (by decide),
    (WriteFile_mkdir_only_on_request okFs [("path", Value.str "d/n.txt")]).2.2.1 (by decide)⟩

/-! ## The built-in registry -/

theorem lookup_write_file (cfg : ToolsConfig) (env : ToolEnv) :
    (NewToolManager cfg env).tools.lookup "write_file" = some (builtinWriteFileTool env) := by
  unfold NewToolManager initializeBuiltinTools
  cases cfg.Tavily.Enabled <;> cases cfg.Base44.Enabled <;> simp [List.lookup]

theorem lookup_tavily (cfg : ToolsConfig) (env : ToolEnv) :
    (NewToolManager cfg env).tools.lookup "tavily_search" =
      if cfg.Tavily.Enabled then some (tavilyTool cfg.Tavily env) else none := by
  unfold NewToolManager initializeBuiltinTools
  cases cfg.Tavily.Enabled <;> cases cfg.Base44.Enabled <;> simp [List.lookup]

theorem lookup_base44 (cfg : ToolsConfig) (env : ToolEnv) :
    (NewToolManager cfg env).tools.lookup "base44_app" =
      if cfg.Base44.Enabled then some (base44Tool cfg.Base44 env) else none := by
  unfold NewToolManager initializeBuiltinTools
  cases cfg.Tavily.Enabled <;> cases cfg.Base44.Enabled <;> simp [List.lookup]

/-- C14 (the code at a failing input). For every configuration, `Execute` on
the built-in write_file tool with `{path: "notes.txt"}`, an input that lacks
the required field `content` (as `ValidateInput` reports), runs the handler,
which calls `os.WriteFile("notes.txt", "")` and reports success: no error is
returned and the side effect takes place. -/
theorem Execute_runs_write_file_without_content (cfg : ToolsConfig) :
    (NewToolManager cfg okEnv).ValidateInput "write_file" [("path", Value.str "notes.txt")] =
      some "missing required field: content" ∧
    (NewToolManager cfg okEnv).Execute "write_file" [("path", Value.str "notes.txt")] =
      { result := some { Success := true
                         Data := Value.obj [("path", Atom.str "notes.txt"), ("bytes", Atom.num 0),
                           ("mode", Atom.str "overwrite")]
                         Error := "" }
        err := none
        handlerCalls := [("write_file", [("path", Value.str "notes.txt")])] } ∧
    (WriteFileHandler.Execute okEnv.fs [("path", Value.str "notes.txt")]).2 =
      [FsOp.WriteFile "notes.txt" ""] := by
  refine ⟨?_, ?_, by decide⟩
  · simp only [ToolManager.ValidateInput, ToolManager.GetTool, lookup_write_file]
    decide
  · simp only [ToolManager.Execute, ToolManager.GetTool, lookup_write_file]
    decide

/-- What the handlers for the other required fields do: without `path` the
write_file handler fails before any file-system call, and without `query` or
`prompt` the search and app handlers fail before any HTTP exchange. -/
theorem handlers_check_other_required_fields (fs : FsEnv) (input : List (String × Value)) :
    (input.lookup "path" = none →
      WriteFileHandler.Execute fs input = (failedResult "missing path", [])) ∧
    (input.lookup "query" = none → ∀ cfg net,
      (TavilyHandler.Execute cfg net input).1 = none ∧
      (TavilyHandler.Execute cfg net input).2.isSome = true) ∧
    (input.lookup "prompt" = none → ∀ cfg net,
      (Base44Handler.Execute cfg net input).1 = none ∧
      (Base44Handler.Execute cfg net input).2.isSome = true) := by
  refine ⟨?_, ?_, ?_⟩
  · intro h
    have hp : TrimSpace (argString input "path") = "" := by
      simp only [argString, h]
      decide
    simp [WriteFileHandler.Execute, hp]
  · intro h cfg net
    unfold TavilyHandler.Execute
    split_ifs
    · exact ⟨rfl, rfl⟩
    · simp [argStringOk, h]
  · intro h cfg net
    unfold Base44Handler.Execute
    split_ifs
    · exact ⟨rfl, rfl⟩
    · simp [argStringOk, h]

/-- Every built-in tool that `ToLLMToolDefinitions` advertises after
`NewToolManager` is routable: `Execute` on its name invokes a handler. -/
theorem builtin_definitions_routable (cfg : ToolsConfig) (env : ToolEnv) (d : ToolDefinition)
    (hd : d ∈ (NewToolManager cfg env).ToLLMToolDefinitions) (input : List (String × Value)) :
    ((NewToolManager cfg env).Execute d.Name input).handlerCalls = [(d.Name, input)] := by
  have hname : d.Name = "write_file" ∨ (d.Name = "tavily_search" ∧ cfg.Tavily.Enabled = true) ∨
      (d.Name = "base44_app" ∧ cfg.Base44.Enabled = true) := by
    unfold ToolManager.ToLLMToolDefinitions NewToolManager initializeBuiltinTools at hd
    cases h1 : cfg.Tavily.Enabled <;> cases h2 : cfg.Base44.Enabled <;>
      simp [h1, h2, Tool.toDefinition, tavilyTool, base44Tool, builtinWriteFileTool] at hd
    · subst hd; simp
    · rcases hd with hd | hd <;> subst hd <;> simp
    · rcases hd with hd | hd <;> subst hd <;> simp
    · rcases hd with hd | hd | hd <;> subst hd <;> simp
  rcases hname with h | ⟨h, he⟩ | ⟨h, he⟩
  · rw [h]
    simp [ToolManager.Execute, ToolManager.GetTool, lookup_write_file, builtinWriteFileTool]
  · rw [h]
    simp [ToolManager.Execute, ToolManager.GetTool, lookup_tavily, he, tavilyTool]
  · rw [h]
    simp [ToolManager.Execute, ToolManager.GetTool, lookup_base44, he, base44Tool]

/-- C16 (as amended). After `NewToolManager(cfg)`, for every configuration,
write_file is registered and enabled; tavily_search is registered exactly when
`cfg.Tools.Tavily.Enabled` and base44_app exactly when
`cfg.Tools.Base44.Enabled`, whatever their API keys; a registered optional tool
is enabled, and when its API key is empty its handler fails every call with
the "API key not configured" error before any HTTP exchange. -/
theorem NewToolManager_registry (cfg : ToolsConfig) (env : ToolEnv) :
    (∃ t, (NewToolManager cfg env).tools.lookup "write_file" = some t ∧ t.Enabled = true) ∧
    (((NewToolManager cfg env).tools.lookup "tavily_search").isSome = true ↔
      cfg.Tavily.Enabled = true) ∧
    (((NewToolManager cfg env).tools.lookup "base44_app").isSome = true ↔
      cfg.Base44.Enabled = true) ∧
    (∀ t, (NewToolManager cfg env).tools.lookup "tavily_search" = some t →
      t.Enabled = true ∧ (cfg.Tavily.APIKey = "" →
        ∀ input, t.Handler input = (none, some "Tavily API key not configured"))) ∧
    (∀ t, (NewToolManager cfg env).tools.lookup "base44_app" = some t →
      t.Enabled = true ∧ (cfg.Base44.APIKey = "" →
        ∀ input, t.Handler input = (none, some "Base44 API key not configured"))) := by
  refine ⟨⟨_, lookup_write_file cfg env, rfl⟩, ?_, ?_, ?_, ?_⟩
  · rw [lookup_tavily]
    cases cfg.Tavily.Enabled <;> simp
  · rw [lookup_base44]
    cases cfg.Base44.Enabled <;> simp
  · intro t ht
    rw [lookup_tavily] at ht
    split_ifs at ht
    simp only [Option.some.injEq] at ht
    subst ht
    exact ⟨rfl, fun hk input => by simp [tavilyTool, TavilyHandler.Execute, hk]⟩
  · intro t ht
    rw [lookup_base44] at ht
    split_ifs at ht
    simp only [Option.some.injEq] at ht
    subst ht
    exact ⟨rfl, fun hk input => by simp [base44Tool, Base44Handler.Execute, hk]⟩

/-- C16 as stated fails: with Tavily enabled and no API key, tavily_search is
registered, enabled and advertised, though `TavilyHandler.IsEnabled` is false. -/
theorem NewToolManager_registers_tavily_without_key :
    ((NewToolManager { Tavily := { Enabled := true, APIKey := "" } } okEnv).tools.lookup
      "tavily_search").isSome = true ∧
    "tavily_search" ∈ (NewToolManager { Tavily := { Enabled := true, APIKey := "" } }
      okEnv).ToLLMToolDefinitions.map (fun d => d.Name) ∧
    TavilyHandler.IsEnabled { Enabled := true, APIKey := "" } = false := by
  decide

/-- C16 on a configuration with Tavily enabled without a key and Base44 off. -/
theorem NewToolManager_registry_witness :
    ((NewToolManager { Tavily := { Enabled := true, APIKey := "" } } okEnv).tools.lookup
      "tavily_search").isSome = true ∧
    ((NewToolManager { Tavily := { Enabled := true, APIKey := "" } } okEnv).tools.lookup
      "base44_app").isSome = false :=
  ⟨(NewToolManager_registry { Tavily := { Enabled := true, APIKey := "" } } okEnv).2.1.mpr rfl,
    by
      have h := (NewToolManager_registry { Tavily := { Enabled := true, APIKey := "" } }
        okEnv).2.2.1
      cases hs : ((NewToolManager { Tavily := { Enabled := true, APIKey := "" } }
        okEnv).tools.lookup "base44_app").isSome
      · rfl
      · exact absurd (h.mp hs) (by decide)⟩

/-! ## The accumulator of `StreamHandler` -/

theorem apply_tokens (calls : List HandlerCall) (h : StreamHandler) :
    (calls.foldl StreamHandler.apply h).tokens = h.tokens ++ tokensOfCalls calls ∧
    (calls.foldl StreamHandler.apply h).tokenCount =
      h.tokenCount + (tokensOfCalls calls).length := by
  induction calls generalizing h with
  | nil => simp [tokensOfCalls]
  | cons c cs ih =>
    obtain ⟨i1, i2⟩ := ih (h.apply c)
    rw [List.foldl_cons, i1, i2]
    cases c with
    | onToken t =>
      simp [StreamHandler.apply, StreamHandler.OnToken, tokensOfCalls, Nat.add_assoc,
        Nat.add_comm 1]
    | onDone r => simp [StreamHandler.apply, StreamHandler.OnDone, tokensOfCalls]
    | onError e => simp [StreamHandler.apply, StreamHandler.OnError, tokensOfCalls]

/-- C17. After any sequence of `OnToken`/`OnDone`/`OnError` calls made on a
handler that was just constructed or just reset, `GetContent` is the
concatenation of the tokens of the `OnToken` calls in call order and
`GetTokenCount` is the number of those calls; one `OnToken` call adds exactly
one to the count, and `OnDone` and `OnError` change neither the content nor
the count, on any handler. -/
theorem StreamHandler_content_and_count (calls : List HandlerCall) (h : StreamHandler)
    (modelName : String) :
    (calls.foldl StreamHandler.apply (NewStreamHandler modelName)).GetContent =
      String.join (tokensOfCalls calls) ∧
    (calls.foldl StreamHandler.apply (NewStreamHandler modelName)).GetTokenCount =
      (tokensOfCalls calls).length ∧
    (calls.foldl StreamHandler.apply h.Reset).GetContent = String.join (tokensOfCalls calls) ∧
    (calls.foldl StreamHandler.apply h.Reset).GetTokenCount = (tokensOfCalls calls).length ∧
    (∀ token, (h.OnToken token).GetTokenCount = h.GetTokenCount + 1 ∧
      (h.OnToken token).GetContent = h.GetContent ++ token) ∧
    (∀ resp, (h.OnDone resp).GetContent = h.GetContent ∧
      (h.OnDone resp).GetTokenCount = h.GetTokenCount) ∧
    (∀ err, (h.OnError err).GetContent = h.GetContent ∧
      (h.OnError err).GetTokenCount = h.GetTokenCount) := by
  obtain ⟨n1, n2⟩ := apply_tokens calls (NewStreamHandler modelName)
  obtain ⟨r1, r2⟩ := apply_tokens calls h.Reset
  refine ⟨?_, ?_, ?_, ?_, ?_, fun _ => ⟨rfl, rfl⟩, fun _ => ⟨rfl, rfl⟩⟩
  · rw [StreamHandler.GetContent, n1]
    simp [NewStreamHandler]
  · rw [StreamHandler.GetTokenCount, n2]
    simp [NewStreamHandler]
  · rw [StreamHandler.GetContent, r1]
    simp [StreamHandler.Reset]
  · rw [StreamHandler.GetTokenCount, r2]
    simp [StreamHandler.Reset]
  · intro token
    exact ⟨rfl, join_snoc h.tokens token⟩

/-! ## The cost estimate -/

/-- After `OnToken` the cost is computed from the length of that token, on
any handler. -/
theorem OnToken_cost (h : StreamHandler) (token : String) :
    (h.OnToken token).GetCost = Cost.perToken token.utf8ByteSize := rfl

/-- C18 (the code at a failing input). Two handlers receive the text "abc",
one as "ab" then "c", the other as "a" then "bc": their accumulated texts are
equal, yet the first has the cost of a 1-byte token and the second the cost of
a 2-byte token, and those costs differ. -/
theorem OnToken_cost_ignores_accumulated_text :
    (((NewStreamHandler "m").OnToken "ab").OnToken "c").GetContent = "abc" ∧
    (((NewStreamHandler "m").OnToken "a").OnToken "bc").GetContent = "abc" ∧
    (((NewStreamHandler "m").OnToken "ab").OnToken "c").GetCost = Cost.perToken 1 ∧
    (((NewStreamHandler "m").OnToken "a").OnToken "bc").GetCost = Cost.perToken 2 ∧
    (((NewStreamHandler "m").OnToken "ab").OnToken "c").GetCost.exact ≠
      (((NewStreamHandler "m").OnToken "a").OnToken "bc").GetCost.exact := by
  refine ⟨by decide, by decide, rfl, rfl, ?_⟩
  have h1 : (((NewStreamHandler "m").OnToken "ab").OnToken "c").GetCost = Cost.perToken 1 := rfl
  have h2 : (((NewStreamHandler "m").OnToken "a").OnToken "bc").GetCost = Cost.perToken 2 := rfl
  rw [h1, h2]
  norm_num [Cost.exact]

/-- C19 (as amended). When `OnDone` receives a response with
`TokensUsed.TotalTokens > 0`, the cost becomes
`InputTokens * 0.000003 + OutputTokens * 0.000015` whatever the handler's model
name; that is the `EstimateCost` price when the model name contains neither
"haiku" nor "gpt". When `TotalTokens` is not positive the cost is left
unchanged. -/
theorem OnDone_cost (h : StreamHandler) (resp : CompletionResponse) :
    (resp.TokensUsed.TotalTokens > 0 →
      (h.OnDone resp).GetCost =
        Cost.usage resp.TokensUsed.InputTokens resp.TokensUsed.OutputTokens ∧
      (h.OnDone resp).GetCost.exact =
        (resp.TokensUsed.InputTokens : ℚ) * (3 / 1000000) +
          (resp.TokensUsed.OutputTokens : ℚ) * (15 / 1000000) ∧
      (Contains h.modelName "haiku" = false → Contains h.modelName "gpt" = false →
        (h.OnDone resp).GetCost.exact =
          EstimateCost resp.TokensUsed.InputTokens resp.TokensUsed.OutputTokens h.modelName)) ∧
    (resp.TokensUsed.TotalTokens ≤ 0 → (h.OnDone resp).GetCost = h.GetCost) := by
  constructor
  · intro hpos
    have hc : (h.OnDone resp).GetCost =
        Cost.usage resp.TokensUsed.InputTokens resp.TokensUsed.OutputTokens := by
      simp [StreamHandler.OnDone, StreamHandler.GetCost, hpos]
    refine ⟨hc, by rw [hc]; rfl, ?_⟩
    intro hh hg
    rw [hc]
    simp only [Cost.exact, EstimateCost, estimateRates, hh, hg, Bool.false_eq_true, if_false]
    ring
  · intro hle
    have : ¬ resp.TokensUsed.TotalTokens > 0 := not_lt.mpr hle
    simp [StreamHandler.OnDone, StreamHandler.GetCost, this]

/-- C19 on a standard model and a response with usage. -/
theorem OnDone_cost_witness :
    ((NewStreamHandler "claude-sonnet-4.5").OnDone thousandInputResponse).GetCost =
      Cost.usage 1000 0 ∧
    ((NewStreamHandler "claude-sonnet-4.5").OnDone thousandInputResponse).GetCost.exact =
      EstimateCost 1000 0 "claude-sonnet-4.5" :=
  ⟨((OnDone_cost (NewStreamHandler "claude-sonnet-4.5") thousandInputResponse).1
      (by decide)).1,
    ((OnDone_cost (NewStreamHandler "claude-sonnet-4.5") thousandInputResponse).1
      (by decide)).2.2 (by decide) (by decide)⟩

/-- C19 as stated fails for a haiku-class model: after `OnDone` with 1000
input tokens the cost is 1000 * 0.000003 = 0.003, while
`EstimateCost(1000, 0, "claude-3.5-haiku")` is 1000/1000 * 0.00025 = 0.00025. -/
theorem OnDone_cost_not_price_table :
    ((NewStreamHandler "claude-3.5-haiku").OnDone thousandInputResponse).GetCost.exact =
      3 / 1000 ∧
    EstimateCost 1000 0 "claude-3.5-haiku" = 1 / 4000 ∧
    ((NewStreamHandler "claude-3.5-haiku").OnDone thousandInputResponse).GetCost.exact ≠
      EstimateCost thousandInputResponse.TokensUsed.InputTokens
        thousandInputResponse.TokensUsed.OutputTokens
        (NewStreamHandler "claude-3.5-haiku").modelName := by
  have hc : ((NewStreamHandler "claude-3.5-haiku").OnDone thousandInputResponse).GetCost =
      Cost.usage 1000 0 := by decide
  have hk : Contains "claude-3.5-haiku" "haiku" = true := by decide
  have he : EstimateCost 1000 0 "claude-3.5-haiku" = 1 / 4000 := by
    simp only [EstimateCost, estimateRates, hk, if_true]
    norm_num
  refine ⟨by rw [hc]; norm_num [Cost.exact], he, ?_⟩
  have hm : (NewStreamHandler "claude-3.5-haiku").modelName = "claude-3.5-haiku" := rfl
  have hi : thousandInputResponse.TokensUsed.InputTokens = 1000 := rfl
  have ho : thousandInputResponse.TokensUsed.OutputTokens = 0 := rfl
  rw [hc, hm, hi, ho, he]
  norm_num [Cost.exact]

/-! ## The tool-call events of a prompt cycle -/

theorem flushPending_handler_msgs (h : TUIStreamHandler) (final : Bool) (l : List Msg)
    (hch : h.ch = some l) :
    ∃ add, (h.flushPending final).ch = some (l ++ add) ∧ add.all isHandlerMsg = true := by
  unfold TUIStreamHandler.flushPending TUIStreamHandler.takePending TUIStreamHandler.send
  cases final <;> simp <;> split_ifs <;> simp [hch, isHandlerMsg]

theorem finishMsgs_handler (h1 : TUIStreamHandler) (ev : endEvent) :
    isHandlerMsg (finishMsgs h1 ev).1 = true ∧ isHandlerMsg (finishMsgs h1 ev).2 = true := by
  unfold finishMsgs
  cases ev.err <;> exact ⟨rfl, rfl⟩

theorem step_handler_msgs (h : TUIStreamHandler) (s : Step) (l : List Msg) (hch : h.ch = some l)
    (ha : h.asyncSends.all isHandlerMsg = true) :
    ∃ add, (h.step s).ch = some (l ++ add) ∧ add.all isHandlerMsg = true ∧
      (h.step s).asyncSends.all isHandlerMsg = true := by
  cases s with
  | onToken t => exact ⟨[], by simpa [TUIStreamHandler.step, TUIStreamHandler.OnToken] using hch,
      rfl, ha⟩
  | onDone r =>
    obtain ⟨f1, -, f3⟩ := signal_frame { h with base := h.base.OnDone r } { resp := some r }
    refine ⟨[], ?_, rfl, ?_⟩
    · rw [TUIStreamHandler.step, TUIStreamHandler.OnDone, f1, List.append_nil]; exact hch
    · rw [TUIStreamHandler.step, TUIStreamHandler.OnDone, f3]; exact ha
  | onError e =>
    obtain ⟨f1, -, f3⟩ := signal_frame { h with base := h.base.OnError e } { err := some e }
    refine ⟨[], ?_, rfl, ?_⟩
    · rw [TUIStreamHandler.step, TUIStreamHandler.OnError, f1, List.append_nil]; exact hch
    · rw [TUIStreamHandler.step, TUIStreamHandler.OnError, f3]; exact ha
  | tick =>
    cases hr : h.returned with
    | true =>
      exact ⟨[], by simpa [TUIStreamHandler.step, hr] using hch, rfl,
        by simpa [TUIStreamHandler.step, hr] using ha⟩
    | false =>
      have hstep : h.step Step.tick = h.flushPending false := by
        simp [TUIStreamHandler.step, hr]
      obtain ⟨add, h1, h2⟩ := flushPending_handler_msgs h false l hch
      obtain ⟨-, f2, -, -, -, -⟩ := flushPending_frame h false
      rw [hstep]
      exact ⟨add, h1, h2, by rw [f2]; exact ha⟩
  | recvEnd =>
    cases hr : h.returned with
    | true =>
      exact ⟨[], by simpa [TUIStreamHandler.step, hr] using hch, rfl,
        by simpa [TUIStreamHandler.step, hr] using ha⟩
    | false =>
      cases he : h.endCh with
      | none =>
        have hstep : h.step Step.recvEnd = h := by simp [TUIStreamHandler.step, hr, he]
        rw [hstep]
        exact ⟨[], by simpa using hch, rfl, ha⟩
      | some ev =>
        have hstep : h.step Step.recvEnd = TUIStreamHandler.finish { h with endCh := none } ev := by
          simp [TUIStreamHandler.step, hr, he]
        obtain ⟨add, h1, h2⟩ := flushPending_handler_msgs { h with endCh := none } true l hch
        obtain ⟨g0, g3, -⟩ := finish_spec { h with endCh := none } ev l hch
        obtain ⟨d1, d2⟩ :=
          finishMsgs_handler (TUIStreamHandler.flushPending { h with endCh := none } true) ev
        rw [hstep]
        refine ⟨add, by rw [g0, h1], h2, ?_⟩
        rw [g3, List.all_append]
        simp only [List.all_cons, List.all_nil, d1, d2, Bool.and_true]
        exact ha
  | deliverEnd =>
    have hfr : (h.step Step.deliverEnd).ch = h.ch ∧
        (h.step Step.deliverEnd).asyncSends = h.asyncSends := by
      simp only [TUIStreamHandler.step]
      split <;> simp
    obtain ⟨e1, e2⟩ := hfr
    exact ⟨[], by rw [e1, List.append_nil, hch], rfl, by rw [e2]; exact ha⟩
  | deliverAsync i =>
    cases hm : h.asyncSends[i]? with
    | none =>
      have hstep : h.step (Step.deliverAsync i) = h := by simp [TUIStreamHandler.step, hm]
      rw [hstep]
      exact ⟨[], by simpa using hch, rfl, ha⟩
    | some m =>
      have hstep : h.step (Step.deliverAsync i) =
          { h with ch := some (l ++ [m]), asyncSends := h.asyncSends.eraseIdx i } := by
        simp [TUIStreamHandler.step, hm, TUIStreamHandler.send, hch]
      have hmh : isHandlerMsg m = true := List.all_eq_true.mp ha m (List.getElem?_mem hm)
      rw [hstep]
      refine ⟨[m], rfl, by simp [hmh], ?_⟩
      apply List.all_eq_true.mpr
      intro x hx
      exact List.all_eq_true.mp ha x ((List.eraseIdx_sublist _ _).subset hx)

theorem filter_toolCall_handler_msgs (add : List Msg) (h : add.all isHandlerMsg = true) :
    add.filter isToolCallMsg = [] := by
  rw [List.filter_eq_nil_iff]
  intro m hm
  have := List.all_eq_true.mp h m hm
  cases m <;> simp_all [isHandlerMsg, isToolCallMsg]

theorem CycleInv_handler_step (base expected : List Msg) (s : CycleState) (st : Step)
    (todo : List MainAction) (ht : (emitsOf todo).filter isToolCallMsg =
      (emitsOf s.todo).filter isToolCallMsg)
    (hinv : CycleInv base expected s) :
    CycleInv base expected { h := s.h.step st, todo := todo } := by
  obtain ⟨new, hch, ha, he⟩ := hinv
  obtain ⟨add, c1, c2, c3⟩ := step_handler_msgs s.h st _ hch ha
  refine ⟨new ++ add, by rw [c1, List.append_assoc], c3, ?_⟩
  show List.filter isToolCallMsg (new ++ add) ++ List.filter isToolCallMsg (emitsOf todo) = expected
  rw [List.filter_append, filter_toolCall_handler_msgs add c2, List.append_nil, ht]
  exact he

theorem CycleInv_step (base expected : List Msg) (s : CycleState) (x : Sched)
    (hinv : CycleInv base expected s) : CycleInv base expected (s.step x) := by
  cases x with
  | background b => exact CycleInv_handler_step base expected s b.toStep s.todo rfl hinv
  | main =>
    cases ht : s.todo with
    | nil =>
      have : s.step Sched.main = s := by simp [CycleState.step, ht]
      rw [this]
      exact hinv
    | cons a rest =>
      cases a with
      | call c =>
        have : s.step Sched.main = { h := s.h.step c.toStep, todo := rest } := by
          simp [CycleState.step, ht]
        rw [this]
        exact CycleInv_handler_step base expected s c.toStep rest (by rw [ht]; rfl) hinv
      | emit m =>
        have hs : s.step Sched.main =
            { h := { s.h with ch := some (s.h.sent ++ [m]) }, todo := rest } := by
          simp [CycleState.step, ht]
        obtain ⟨new, hch, ha, he⟩ := hinv
        rw [hs]
        refine ⟨new ++ [m], ?_, ha, ?_⟩
        · show some (s.h.sent ++ [m]) = some (base ++ (new ++ [m]))
          rw [TUIStreamHandler.sent, hch, Option.getD_some, List.append_assoc]
        · show List.filter isToolCallMsg (new ++ [m]) ++
            List.filter isToolCallMsg (emitsOf rest) = expected
          rw [ht] at he
          rw [← he, List.filter_append, List.append_assoc]
          show _ ++ (List.filter isToolCallMsg [m] ++ _) =
            _ ++ List.filter isToolCallMsg ([m] ++ emitsOf rest)
          rw [List.filter_append]

theorem CycleInv_run (base expected : List Msg) (sched : List Sched) (s : CycleState)
    (hinv : CycleInv base expected s) :
    CycleInv base expected (sched.foldl CycleState.step s) := by
  induction sched generalizing s with
  | nil => exact hinv
  | cons x rest ih => exact ih _ (CycleInv_step base expected s x hinv)

theorem emitsOf_append (l1 l2 : List MainAction) : emitsOf (l1 ++ l2) = emitsOf l1 ++ emitsOf l2 := by
  induction l1 with
  | nil => rfl
  | cons a rest ih => cases a <;> simp [emitsOf, ih]

theorem emitsOf_calls (calls : List HandlerCall) : emitsOf (calls.map MainAction.call) = [] := by
  induction calls with
  | nil => rfl
  | cons c cs ih => simpa [emitsOf] using ih

theorem toolCallActions_events (tm : ToolManager) (streamID : String) (tc : ToolCall) :
    (emitsOf (toolCallActions tm streamID tc)).filter isToolCallMsg =
      toolEventsOf tm streamID tc := by
  unfold toolCallActions toolEventsOf
  by_cases h : tc.Name = "write_file" <;> simp [h, emitsOf, isToolCallMsg]

theorem toolActions_events (tm : ToolManager) (streamID : String) (calls : List ToolCall) :
    (emitsOf (calls.flatMap (toolCallActions tm streamID))).filter isToolCallMsg =
      calls.flatMap (toolEventsOf tm streamID) := by
  induction calls with
  | nil => rfl
  | cons c cs ih =>
    rw [List.flatMap_cons, List.flatMap_cons, emitsOf_append, List.filter_append, ih,
      toolCallActions_events]

theorem toolEvents_counts (tm : ToolManager) (streamID : String) (calls : List ToolCall) :
    (calls.flatMap (toolEventsOf tm streamID)).countP isToolStart = calls.length ∧
    (calls.flatMap (toolEventsOf tm streamID)).countP isToolEnd = calls.length := by
  induction calls with
  | nil => exact ⟨rfl, rfl⟩
  | cons c cs ih =>
    rw [List.flatMap_cons, List.countP_append, List.countP_append, ih.1, ih.2]
    have h1 : (toolEventsOf tm streamID c).countP isToolStart = 1 := by
      simp [toolEventsOf, List.countP_cons, isToolStart, ToolCallStart, ToolCallEnd]
    have h2 : (toolEventsOf tm streamID c).countP isToolEnd = 1 := by
      simp [toolEventsOf, List.countP_cons, isToolEnd, ToolCallStart, ToolCallEnd]
    rw [h1, h2, List.length_cons]
    omega

theorem promptCycle_eq (mm : ModelManager) (tm : ToolManager) (modelID streamID prompt : String)
    (mock : Bool) (maxTokens : Int) (ch0 : List Msg) (sched : List Sched) :
    promptCycle mm tm modelID streamID prompt mock maxTokens ch0 sched =
      sched.foldl CycleState.step
        (cycleStart mm tm modelID streamID prompt mock maxTokens ch0) := by
  unfold promptCycle cycleStart cycleToolCalls cycleRequest cycleProvider
  cases h : (mm.StreamComplete
    { Model := if mock then "mock-stream" else modelID
      System := "You are a helpful software engineering assistant."
      Messages := [{ Role := "user", Content := prompt }]
      MaxTokens := maxTokens
      Stream := true
      Tools := tm.ToLLMToolDefinitions }).2 <;> first | (simp only [h]; done) | (simp only [h]; rfl)

theorem main_steps_finish (n : Nat) (s : CycleState) (hn : s.todo.length ≤ n) :
    ((List.replicate n Sched.main).foldl CycleState.step s).todo = [] := by
  induction n generalizing s with
  | zero =>
    have : s.todo = [] := List.length_eq_zero.mp (Nat.le_zero.mp hn)
    simpa using this
  | succ k ih =>
    rw [List.replicate_succ, List.foldl_cons]
    apply ih
    cases ht : s.todo with
    | nil => simp [CycleState.step, ht]
    | cons a rest =>
      rw [ht, List.length_cons] at hn
      cases a <;> simp [CycleState.step, ht] <;> omega

/-- C20. In every prompt cycle, under every schedule, the `ToolCallMsg` events
put on the channel after the `StreamStartMsg`, followed by those the execution
goroutine has still to send, are, for the tool calls c1..cn of the response in
response order, the start event of ci and then the end event of ci carrying
what `Execute` returned for ci's name and arguments (so a failing call does
not stop the later ones); there are exactly n start and n end events, none
when the completion failed or returned no tool call; and the execution
goroutine, given its turns, sends them all. -/
theorem promptCycle_tool_events (mm : ModelManager) (tm : ToolManager)
    (modelID streamID prompt : String) (mock : Bool) (maxTokens : Int) (ch0 : List Msg)
    (sched : List Sched) :
    (∃ new,
      (promptCycle mm tm modelID streamID prompt mock maxTokens ch0 sched).h.ch =
        some (ch0 ++ [Msg.StreamStartMsg streamID StreamRoleUser prompt modelID
          (cycleProvider mm modelID)] ++ new) ∧
      new.filter isToolCallMsg ++
        (emitsOf (promptCycle mm tm modelID streamID prompt mock maxTokens ch0
          sched).todo).filter isToolCallMsg =
        (cycleToolCalls mm tm modelID prompt mock maxTokens).flatMap
          (toolEventsOf tm streamID)) ∧
    ((cycleToolCalls mm tm modelID prompt mock maxTokens).flatMap
        (toolEventsOf tm streamID)).countP isToolStart =
      (cycleToolCalls mm tm modelID prompt mock maxTokens).length ∧
    ((cycleToolCalls mm tm modelID prompt mock maxTokens).flatMap
        (toolEventsOf tm streamID)).countP isToolEnd =
      (cycleToolCalls mm tm modelID prompt mock maxTokens).length ∧
    (∀ n, (promptCycle mm tm modelID streamID prompt mock maxTokens ch0 sched).todo.length ≤ n →
      (promptCycle mm tm modelID streamID prompt mock maxTokens ch0
        (sched ++ List.replicate n Sched.main)).todo = []) := by
  have hstart : CycleInv
      (ch0 ++ [Msg.StreamStartMsg streamID StreamRoleUser prompt modelID
        (cycleProvider mm modelID)])
      ((cycleToolCalls mm tm modelID prompt mock maxTokens).flatMap (toolEventsOf tm streamID))
      (cycleStart mm tm modelID streamID prompt mock maxTokens ch0) := by
    refine ⟨[], by simp [cycleStart, NewTUIStreamHandler], rfl, ?_⟩
    simp only [cycleStart, emitsOf_append, emitsOf_calls, List.nil_append, List.filter_nil]
    exact toolActions_events tm streamID _
  obtain ⟨new, h1, -, h3⟩ := CycleInv_run _ _ sched _ hstart
  obtain ⟨c1, c2⟩ := toolEvents_counts tm streamID
    (cycleToolCalls mm tm modelID prompt mock maxTokens)
  refine ⟨⟨new, ?_, ?_⟩, c1, c2, ?_⟩
  · rw [promptCycle_eq]; exact h1
  · rw [promptCycle_eq]; exact h3
  · intro n hn
    rw [promptCycle_eq] at hn
    rw [promptCycle_eq, List.foldl_append]
    exact main_steps_finish n _ hn

/-- C20 on the mock backend, whose response carries one write_file call: once
the execution goroutine has taken its turns, the channel holds one start and
one end event. -/
theorem promptCycle_tool_events_witness :
    ((promptCycle mockManager sampleTools "mock-stream" "s1" "hi" false 1200 []
      (List.replicate 13 Sched.main)).h.sent.filter isToolCallMsg).map isToolStart =
      [true, false] ∧
    (promptCycle mockManager sampleTools "mock-stream" "s1" "hi" false 1200 []
      (List.replicate 13 Sched.main)).todo = [] :=
  ⟨by decide,
    (promptCycle_tool_events mockManager sampleTools "mock-stream" "s1" "hi" false 1200 []
      []).2.2.2 13 (by decide)⟩

/-! ## The status bar -/

theorem goBytes_append (a b : String) : goBytes (a ++ b) = goBytes a ++ goBytes b := by
  simp [goBytes, String.data_append]

theorem truncateText_short_width (text : List UInt8) (width : Int) (hw : width < 3)
    (hl : width < (text.length : Int)) : truncateText text width = none := by
  unfold truncateText sliceTo
  have h1 : ¬ ((text.length : Int) ≤ width) := by omega
  have h2 : ¬ (0 ≤ width - 3 ∧ width - 3 ≤ (text.length : Int)) := by omega
  rw [if_neg h1, if_neg h2]

theorem truncateText_fits (text : List UInt8) (width : Int) (hw : 3 ≤ width) :
    ∃ out, truncateText text width = some out ∧ (out.length : Int) ≤ width := by
  unfold truncateText sliceTo
  by_cases h1 : (text.length : Int) ≤ width
  · exact ⟨text, by rw [if_pos h1], h1⟩
  · have h2 : 0 ≤ width - 3 ∧ width - 3 ≤ (text.length : Int) := by omega
    refine ⟨text.take (width - 3).toNat ++ goBytes "...", by rw [if_neg h1, if_pos h2], ?_⟩
    have h3 : (goBytes "...").length = 3 := by decide
    rw [List.length_append, List.length_take, h3]
    omega

theorem tdiv_four_le_two (a : Int) (ha : a ≤ 11) : Int.tdiv a 4 ≤ 2 := by
  rcases Int.lt_or_le a 0 with hneg | hpos
  · have h1 : a = -(-a) := by omega
    have h2 := Int.tdiv_nonneg (a := -a) (b := 4) (by omega) (by decide)
    rw [h1, Int.neg_tdiv]
    omega
  · rw [Int.tdiv_eq_ediv hpos (by decide)]
    omega

/-- C27 (the code at a failing input). `truncateText("abcd", 2)` panics: the
text does not fit, and `text[:width-3]` has the negative bound -1. The same
holds for every width below 3 and every text longer than the width, while
from width 3 on the function returns a text of at most `width` bytes. As a
result `StatusBarModel.View` panics for every model whose width is not 0 and
at most 15, for instance the new status bar at width 10: a part's width is
then at most 2 and the model part, "name (provider)", has at least 3 bytes. -/
theorem truncateText_panics_below_three :
    truncateText (goBytes "abcd") 2 = none ∧
    (∀ (text : List UInt8) (width : Int), width < 3 → width < (text.length : Int) →
      truncateText text width = none) ∧
    (∀ (text : List UInt8) (width : Int), 3 ≤ width →
      ∃ out, truncateText text width = some out ∧ (out.length : Int) ≤ width) ∧
    (∀ (m : StatusBarModel) (lg : Lipgloss), m.Width ≠ 0 → m.Width ≤ 15 → m.View lg = none) ∧
    ({ NewStatusBarModel with Width := 10 } : StatusBarModel).View plainLipgloss = none := by
  have hview : ∀ (m : StatusBarModel) (lg : Lipgloss), m.Width ≠ 0 → m.Width ≤ 15 →
      m.View lg = none := by
    intro m lg h0 h15
    have hlen : (3 : Int) ≤ ((goBytes (m.modelName ++ " (" ++ m.provider ++ ")")).length : Int) := by
      rw [goBytes_append, goBytes_append, goBytes_append, List.length_append, List.length_append,
        List.length_append]
      have h1 : (goBytes " (").length = 2 := by decide
      have h2 : (goBytes ")").length = 1 := by decide
      rw [h1, h2]
      omega
    have hpw : Int.tdiv (m.Width - 4) 4 ≤ 2 := tdiv_four_le_two _ (by omega)
    have ht := truncateText_short_width (goBytes (m.modelName ++ " (" ++ m.provider ++ ")"))
      (Int.tdiv (m.Width - 4) 4) (by omega) (by omega)
    simp only [StatusBarModel.View, h0, if_false, ht]
  exact ⟨by decide, truncateText_short_width, truncateText_fits, hview,
    hview _ _ (by decide) (by decide)⟩

/-! ## The OpenAI provider -/

/-- C28 (the code at a failing input). For every response whose `Choices` is
empty, `convertResponse` panics: the content and the tool calls are read under
the guard `len(resp.Choices) > 0`, the stop reason is read from
`resp.Choices[0]` without it. The receive loop of `StreamComplete` panics on
the first chunk whose `Choices` is empty, after the handler calls made for the
chunks before it and without a call of `OnDone` or `OnError`. A response with
a choice is converted. -/
theorem OpenAI_empty_choices_panics (parse : String → List (String × Value)) :
    (∀ resp : OpenAIResponse, resp.Choices = [] →
      OpenAIProvider.convertResponse parse resp = none) ∧
    (∀ resp : OpenAIResponse, resp.Choices ≠ [] →
      (OpenAIProvider.convertResponse parse resp).isSome = true) ∧
    (∀ (chunk : OpenAIChunk) (rest : List (Except String OpenAIChunk)), chunk.Choices = [] →
      (OpenAIProvider.StreamComplete parse (Except.ok (Except.ok chunk :: rest))).result = none ∧
      (OpenAIProvider.StreamComplete parse (Except.ok (Except.ok chunk :: rest))).calls = []) ∧
    (OpenAIProvider.StreamComplete parse
      (Except.ok [Except.ok { Choices := [{ Content := "Hi" }] }, Except.ok { ID := "c2" }])).result =
        none ∧
    (OpenAIProvider.StreamComplete parse
      (Except.ok [Except.ok { Choices := [{ Content := "Hi" }] }, Except.ok { ID := "c2" }])).calls =
        [HandlerCall.onToken "Hi"] := by
  refine ⟨?_, ?_, ?_, ?_, ?_⟩
  · intro resp h
    simp [OpenAIProvider.convertResponse, h]
  · intro resp h
    cases hc : resp.Choices with
    | nil => exact absurd hc h
    | cons c cs => simp [OpenAIProvider.convertResponse, hc]
  · intro chunk rest h
    simp [OpenAIProvider.StreamComplete, openaiStreamLoop, h]
  · simp [OpenAIProvider.StreamComplete, openaiStreamLoop]
  · simp [OpenAIProvider.StreamComplete, openaiStreamLoop]

/-! ## Verification steps -/

theorem runStepLoop_check_error_with_repair (maxRetries : Int) (step : VerificationStep)
    (repair : Nat → Option String) (hr : step.Repair = some repair)
    (hc : ∀ n, (step.Check n).2 ≠ none) (left attempt : Nat) (result : VerificationResult) :
    runStepLoop maxRetries step left attempt result = {} := by
  induction left generalizing attempt result with
  | zero => rfl
  | succ n ih =>
    rw [runStepLoop]
    cases hch : step.Check attempt with
    | mk res err =>
      cases err with
      | none => exact absurd (by rw [hch]) (hc attempt)
      | some e =>
        simp only [hr]
        cases repair attempt <;> simp only [ih]

theorem runStepLoop_not_passed_no_repair (maxRetries : Int) (step : VerificationStep)
    (hr : step.Repair = none)
    (hc : ∀ n, ∃ msg, step.Check n = (some { Passed := false, Message := msg }, none))
    (left attempt : Nat) (result : VerificationResult) :
    runStepLoop maxRetries step left attempt result = {} := by
  induction left generalizing attempt result with
  | zero => rfl
  | succ n ih =>
    obtain ⟨msg, hm⟩ := hc attempt
    rw [runStepLoop]
    simp only [hm, hr, Bool.not_false, if_true, ih]

/-- C25 (the code at a failing input). With `maxRetries = 3`, a step "lint"
whose check returns an error every time and whose repair reports success
every time gets the result `StepResult{}`: the step id is empty, not "lint",
and `Attempts` is 0. The same holds for every `maxRetries`, every step that
has a repair function and whose check returns an error each time, and every
step without a repair whose check reports a result that did not pass: each
round ends in `continue`, and the `return StepResult{}` after the loop is
reached. A step whose check passes at once is reported under its id with one
attempt. -/
theorem runStep_returns_empty_result :
    runStep 3 brokenCheckStep = {} ∧
    (runStep 3 brokenCheckStep).StepID ≠ brokenCheckStep.ID ∧
    (runStep 3 brokenCheckStep).Attempts = 0 ∧
    (∀ (maxRetries : Int) (step : VerificationStep), step.Repair ≠ none →
      (∀ n, (step.Check n).2 ≠ none) → runStep maxRetries step = {}) ∧
    (∀ (maxRetries : Int) (step : VerificationStep), step.Repair = none →
      (∀ n, ∃ msg, step.Check n = (some { Passed := false, Message := msg }, none)) →
      runStep maxRetries step = {}) ∧
    runStep 3 failingCheckStep = {} ∧
    runStep 3 passingStep =
      { StepID := "build", Passed := true, Attempts := 1,
        LastCheck := some { Passed := true, Message := "ok" } } := by
  refine ⟨by decide, by decide, by decide, ?_, ?_, by decide, by decide⟩
  · intro maxRetries step hr hc
    cases hrep : step.Repair with
    | none => exact absurd hrep hr
    | some repair => exact runStepLoop_check_error_with_repair maxRetries step repair hrep hc _ _ _
  · intro maxRetries step hr hc
    exact runStepLoop_not_passed_no_repair maxRetries step hr hc _ _ _

/-! ## The configuration manager and its lock -/

theorem Update_never_returns (m : Manager) (updater : Config → Config) (fs : ConfigFs) :
    (m.Update updater fs).isReturned = false := by
  unfold Manager.Update Manager.Save
  cases h : m.locked <;> simp [Outcome.isReturned]

theorem Set_never_returns (m : Manager) (config : Config) (fs : ConfigFs) :
    (m.Set config fs).isReturned = false := by
  unfold Manager.Set Manager.Save
  cases h : m.locked <;> simp [Outcome.isReturned]

/-- C26 (the code at a failing input). On a new manager, whose lock is free,
`Set(config)` takes the lock, stores the configuration and calls `Save` with
the lock still held (its `Unlock` is deferred), and `Save` waits in
`m.mu.Lock()` for that lock: the call does not return, and the manager is left
locked. `Update` does the same, and so do the setters built on it; this holds
in every state of the manager and for every behaviour of the file system,
before any file operation. `Load` on a missing file, which unlocks before it
calls `Save`, returns with the lock free. -/
theorem Set_and_Update_wait_on_own_lock (path : String) (config : Config)
    (updater : Config → Config) (fs : ConfigFs) :
    (NewManager path).Set config fs =
      Outcome.blocked { config := config, configPath := path, locked := true } ∧
    (NewManager path).Update updater fs =
      Outcome.blocked { config := updater DefaultConfig, configPath := path, locked := true } ∧
    (∀ m : Manager, (m.Set config fs).isReturned = false ∧
      (m.Update updater fs).isReturned = false) ∧
    (∀ (m : Manager) (name value : String) (enabled : Bool) (port : Int),
      (m.SetModel value fs).isReturned = false ∧
      (m.SetTheme value fs).isReturned = false ∧
      (m.SetStreaming enabled fs).isReturned = false ∧
      (m.SetAPIKey name value fs).isReturned = false ∧
      (m.SetToolEnabled name enabled fs).isReturned = false ∧
      (m.SetToolAPIKey name value fs).isReturned = false ∧
      (m.EnableAlignment port fs).isReturned = false ∧
      (m.DisableAlignment fs).isReturned = false ∧
      (m.SetVersion value fs).isReturned = false) ∧
    (NewManager path).Load freshConfigFs = Outcome.returned (NewManager path) none := by
  refine ⟨rfl, rfl, fun m => ⟨Set_never_returns m config fs, Update_never_returns m updater fs⟩,
    ?_, rfl⟩
  intro m name value enabled port
  exact ⟨Update_never_returns m _ fs, Update_never_returns m _ fs, Update_never_returns m _ fs,
    Update_never_returns m _ fs, Update_never_returns m _ fs, Update_never_returns m _ fs,
    Update_never_returns m _ fs, Update_never_returns m _ fs, Update_never_returns m _ fs⟩

/-! ## The model index -/

theorem lookup_filter_ne {α : Type} (m : List (String × α)) (k k2 : String) (h : k2 ≠ k) :
    (m.filter fun e => e.1 != k).lookup k2 = m.lookup k2 := by
  induction m with
  | nil => rfl
  | cons e rest ih =>
    obtain ⟨a, b⟩ := e
    by_cases hak : a = k
    · subst hak
      have h1 : (k2 == a) = false := by simpa using h
      simp [List.filter, List.lookup, h1, ih]
    · have h1 : (a != k) = true := by simpa using hak
      simp only [List.filter, h1, List.lookup, ih]

theorem lookup_mapSet_ne {α : Type} (m : List (String × α)) (k k2 : String) (v : α)
    (h : k2 ≠ k) : (mapSet m k v).lookup k2 = m.lookup k2 := by
  have h1 : (k2 == k) = false := by simpa using h
  simp only [mapSet, List.lookup, h1]
  exact lookup_filter_ne m k k2 h

theorem lookup_mapSet_self {α : Type} (m : List (String × α)) (k : String) (v : α) :
    (mapSet m k v).lookup k = some v := by
  simp [mapSet, List.lookup]

theorem indexModels_lookup_none (pType : ProviderType) (id : String) (models : List ModelInfo)
    (index : List (String × ProviderType)) (hm : ∀ m ∈ models, m.ID ≠ id)
    (hi : index.lookup id = none) : (indexModels pType models index).lookup id = none := by
  induction models generalizing index with
  | nil => exact hi
  | cons m rest ih =>
    unfold indexModels
    rw [List.foldl_cons]
    refine ih _ (fun x hx => hm x (List.mem_cons_of_mem _ hx)) ?_
    split_ifs
    · exact hi
    · rw [lookup_mapSet_ne _ _ _ _ (fun h => hm m (List.mem_cons_self _ _) h.symm)]
      exact hi

theorem rebuildModelIndex_lookup_none (mm : ModelManager) (visit : List ProviderType)
    (id : String)
    (h : ∀ pType p models, mm.providers.lookup pType = some p → p.ListModels = Except.ok models →
      ∀ m ∈ models, m.ID ≠ id) :
    (mm.rebuildModelIndex visit).modelIndex.lookup id = none := by
  unfold ModelManager.rebuildModelIndex
  simp only
  have key : ∀ (acc : List (String × ProviderType)), acc.lookup id = none →
      (visit.foldl (fun idx pType =>
        match mm.providers.lookup pType with
        | none => idx
        | some p =>
          match p.ListModels with
          | Except.error _ => idx
          | Except.ok models => indexModels pType models idx) acc).lookup id = none := by
    induction visit with
    | nil => intro acc hacc; exact hacc
    | cons t rest ih =>
      intro acc hacc
      rw [List.foldl_cons]
      apply ih
      cases hp : mm.providers.lookup t with
      | none => exact hacc
      | some p =>
        cases hl : p.ListModels with
        | error e => simp only [hl]; exact hacc
        | ok models =>
          simp only [hl]
          exact indexModels_lookup_none t id models acc (h t p models hp hl) hacc
  exact key [] rfl

theorem keyed_providers_models (env : ProviderEnv) (pType : ProviderType) (p : Provider)
    (hp : (initializeProviders keyedDefaultConfig env).lookup pType = some p) :
    p.ListModels = NewMockProvider.ListModels ∨ p.ListModels = Except.ok getAnthropicModels ∨
      p.ListModels = Except.ok getOpenAIModels := by
  have hcfg1 : keyedDefaultConfig.Models.Providers.Anthropic.APIKey ≠ "" := by decide
  have hcfg2 : keyedDefaultConfig.Models.Providers.OpenAI.APIKey ≠ "" := by decide
  have hcfg3 : ¬ keyedDefaultConfig.Models.Providers.Gemini.APIKey ≠ "" := by decide
  have hcfg4 : keyedDefaultConfig.Models.Providers.VSCode.Enabled = false := rfl
  have hcfg5 : keyedDefaultConfig.Models.Providers.Local.Enabled = false := rfl
  unfold initializeProviders at hp
  simp only [hcfg1, hcfg2, hcfg3, hcfg4, hcfg5, if_true, if_false, ne_eq, not_false_eq_true,
    Bool.false_eq_true] at hp
  by_cases h1 : pType = ProviderOpenAI
  · subst h1
    rw [lookup_mapSet_self] at hp
    injection hp with hp
    subst hp
    exact Or.inr (Or.inr rfl)
  · rw [lookup_mapSet_ne _ _ _ _ h1] at hp
    by_cases h2 : pType = ProviderAnthropic
    · subst h2
      rw [lookup_mapSet_self] at hp
      injection hp with hp
      subst hp
      exact Or.inr (Or.inl rfl)
    · rw [lookup_mapSet_ne _ _ _ _ h2] at hp
      cases hm : env.useMock with
      | false => simp [hm, List.lookup] at hp
      | true =>
        simp only [hm, if_true] at hp
        by_cases h3 : pType = ProviderLocal
        · subst h3
          rw [lookup_mapSet_self] at hp
          injection hp with hp
          subst hp
          exact Or.inl rfl
        · rw [lookup_mapSet_ne _ _ _ _ h3] at hp
          simp [List.lookup] at hp

/-- C23 (the code at a failing input). Under the default configuration with an
Anthropic and an OpenAI key, in every environment and for every order in
which the providers are visited, the model index has no entry for the default
model id "claude-sonnet-4.5" nor for the fallback id "claude-3.5-haiku": the
Anthropic list names its models "claude-sonnet-4-5-20250514",
"claude-3-5-haiku-20241022" and so on. Every provider's `ListModels` succeeds
here, and the third id of the chain, "gpt-4o-mini", is found in the index. The
default model is therefore routed by the substring heuristic, which sends it to
Anthropic. -/
theorem default_model_not_in_index (env : ProviderEnv) (visit : List ProviderType) :
    DefaultConfig.Models.Default = "claude-sonnet-4.5" ∧
    DefaultConfig.Models.FallbackChain = ["claude-sonnet-4.5", "claude-3.5-haiku", "gpt-4o-mini"] ∧
    (NewModelManager keyedDefaultConfig env visit).modelIndex.lookup "claude-sonnet-4.5" = none ∧
    (NewModelManager keyedDefaultConfig env visit).modelIndex.lookup "claude-3.5-haiku" = none ∧
    (∀ pType p, (initializeProviders keyedDefaultConfig env).lookup pType = some p →
      ∃ models, p.ListModels = Except.ok models) ∧
    (NewModelManager keyedDefaultConfig localServerEnv
      [ProviderAnthropic, ProviderOpenAI]).modelIndex.lookup "gpt-4o-mini" = some ProviderOpenAI ∧
    (NewModelManager keyedDefaultConfig localServerEnv
      [ProviderOpenAI, ProviderAnthropic]).modelIndex.lookup "gpt-4o-mini" = some ProviderOpenAI ∧
    parseProviderFromModelID "claude-sonnet-4.5" = ProviderAnthropic ∧
    (NewModelManager keyedDefaultConfig localServerEnv
      [ProviderAnthropic, ProviderOpenAI]).routeName "claude-sonnet-4.5" = Except.ok "Anthropic" := by
  have hnone : ∀ id : String, (∀ m ∈ getAnthropicModels, m.ID ≠ id) →
      (∀ m ∈ getOpenAIModels, m.ID ≠ id) → id ≠ "mock-stream" →
      (NewModelManager keyedDefaultConfig env visit).modelIndex.lookup id = none := by
    intro id ha ho hm
    apply rebuildModelIndex_lookup_none
    intro pType p models hp hl m hmem
    rcases keyed_providers_models env pType p hp with h | h | h
    · rw [h] at hl
      simp only [NewMockProvider, Except.ok.injEq] at hl
      subst hl
      simp only [List.mem_singleton] at hmem
      subst hmem
      exact fun h2 => hm h2.symm
    · rw [h] at hl
      injection hl with hl
      subst hl
      exact ha m hmem
    · rw [h] at hl
      injection hl with hl
      subst hl
      exact ho m hmem
  refine ⟨rfl, rfl, hnone _ (by decide) (by decide) (by decide),
    hnone _ (by decide) (by decide) (by decide), ?_, by decide, by decide, by decide, rfl⟩
  intro pType p hp
  rcases keyed_providers_models env pType p hp with h | h | h
  · exact ⟨_, h⟩
  · exact ⟨_, h⟩
  · exact ⟨_, h⟩

/-- C30 (the code at a failing input). With the VS Code and the local backend
both switched on, both read their models from
`http://localhost:11434/v1/models`; when a server there serves "llama3.2",
each lists that id. Visiting VS Code and then the local backend leaves
"llama3.2" mapped to the local type, visiting them the other way round leaves
it mapped to the VS Code type, and the id is routed to the provider "Local" in
the first case and "VSCode" in the second: the later write wins. -/
theorem rebuildModelIndex_depends_on_visit_order :
    (NewModelManager editorAndLocalConfig localServerEnv
      [ProviderVSCode, ProviderLocal]).modelIndex.lookup "llama3.2" = some ProviderLocal ∧
    (NewModelManager editorAndLocalConfig localServerEnv
      [ProviderLocal, ProviderVSCode]).modelIndex.lookup "llama3.2" = some ProviderVSCode ∧
    (NewModelManager editorAndLocalConfig localServerEnv
      [ProviderVSCode, ProviderLocal]).routeName "llama3.2" = Except.ok "Local" ∧
    (NewModelManager editorAndLocalConfig localServerEnv
      [ProviderLocal, ProviderVSCode]).routeName "llama3.2" = Except.ok "VSCode" ∧
    (NewVSCodeProvider localServerEnv).ListModels =
      Except.ok [{ ID := "llama3.2", Name := "llama3.2", Provider := ProviderVSCode,
                   Capabilities := { Streaming := true, Tools := true }, MaxTokens := 8192 }] ∧
    (NewLocalProvider {} localServerEnv).ListModels =
      Except.ok [{ ID := "llama3.2", Name := "llama3.2", Provider := ProviderLocal,
                   Capabilities := { Streaming := true, Tools := true }, MaxTokens := 8192 }] := by
  exact ⟨by decide, by decide, rfl, rfl, rfl, rfl⟩

/-! ## The output line store -/

theorem splitOn_ne_nil (sep : Char) (l : List Char) : splitOn sep l ≠ [] := by
  induction l with
  | nil => simp [splitOn]
  | cons c cs ih =>
    unfold splitOn
    split_ifs
    · simp
    · cases h : splitOn sep cs with
      | nil => simp
      | cons p ps => simp

theorem splitOn_append (sep : Char) (a b : List Char) :
    splitOn sep (a ++ b) =
      (splitOn sep a).dropLast ++
        (((splitOn sep a).getLastD [] ++ (splitOn sep b).headD []) :: (splitOn sep b).drop 1) := by
  induction a with
  | nil =>
    cases h : splitOn sep b with
    | nil => exact absurd h (splitOn_ne_nil sep b)
    | cons q qs => simp [splitOn, h]
  | cons c cs ih =>
    rw [List.cons_append]
    by_cases hc : c = sep
    · have h1 : ∀ l, splitOn sep (c :: l) = [] :: splitOn sep l := by
        intro l; rw [splitOn, if_pos hc]
      rw [h1, h1, ih]
      cases hs : splitOn sep cs with
      | nil => exact absurd hs (splitOn_ne_nil sep cs)
      | cons p ps => simp [List.dropLast, List.getLastD]
    · cases hs : splitOn sep cs with
      | nil => exact absurd hs (splitOn_ne_nil sep cs)
      | cons p ps =>
        have h2 : splitOn sep (c :: cs) = (c :: p) :: ps := by
          rw [splitOn, if_neg hc, hs]
        rw [h2]
        rw [splitOn, if_neg hc, ih, hs]
        cases ps with
        | nil => simp [List.dropLast, List.getLastD]
        | cons p2 ps2 => simp [List.dropLast, List.getLastD]

theorem getLastD_snoc {α : Type} (l : List α) (x d : α) : (l ++ [x]).getLastD d = x := by
  rw [List.getLastD_eq_getLast?]
  simp

theorem Split_ne_nil (s : String) : Split s '\n' ≠ [] := by
  simp [Split, splitOn_ne_nil]

theorem Split_append (a b : String) :
    Split (a ++ b) '\n' =
      (Split a '\n').dropLast ++
        (((Split a '\n').getLastD "" ++ (Split b '\n').headD "") :: (Split b '\n').drop 1) := by
  unfold Split
  rw [String.data_append, splitOn_append]
  cases hb : splitOn '\n' b.data with
  | nil => exact absurd hb (splitOn_ne_nil _ _)
  | cons q qs =>
    rcases List.eq_nil_or_concat (splitOn '\n' a.data) with h | ⟨init, last, h⟩
    · exact absurd h (splitOn_ne_nil _ _)
    · rw [h, List.concat_eq_append]
      simp only [List.map_append, List.map_cons, List.map_nil, getLastD_snoc,
        List.dropLast_concat, List.headD_cons, List.drop_one, List.tail_cons]
      rfl

theorem capTail_append (n : Nat) (X Y : List String) :
    capTail n (capTail n X ++ Y) = capTail n (X ++ Y) := by
  unfold capTail
  by_cases hX : X.length > n
  · simp only [hX, if_true, List.length_append, List.length_drop]
    have h1 : X.length - (X.length - n) = n := by omega
    rw [h1]
    by_cases hY : Y.length = 0
    · have : Y = [] := List.length_eq_zero.mp hY
      subst this
      simp [hX]
    · have h2 : n + Y.length > n := by omega
      have h3 : X.length + Y.length > n := by omega
      rw [if_pos h2, if_pos h3, List.drop_append_eq_append_drop, List.drop_append_eq_append_drop,
        List.drop_drop, List.length_drop]
      congr 2 <;> omega
  · simp only [hX, if_false]

theorem appendAssistantDelta_one_part (m : MainModel) (delta p : String)
    (h : Split delta '\n' = [p]) :
    m.appendAssistantDelta delta = { m with outputPartial := m.outputPartial ++ p } := by
  unfold MainModel.appendAssistantDelta
  simp only [h, List.length_singleton, if_true, List.headD_cons]

theorem appendAssistantDelta_more_parts (m : MainModel) (delta p0 pl : String) (M : List String)
    (h : Split delta '\n' = p0 :: (M ++ [pl])) :
    m.appendAssistantDelta delta =
      { m with
        outputLines := capTail 2000 ((m.outputLines ++ [m.outputPartial ++ p0]) ++ M)
        outputPartial := pl } := by
  unfold MainModel.appendAssistantDelta
  have hlen : ¬ (p0 :: (M ++ [pl])).length = 1 := by simp
  have hlast : (p0 :: (M ++ [pl])).getLastD "" = pl := by
    rw [← List.cons_append, getLastD_snoc]
  simp only [h, hlen, if_false, List.headD_cons, List.drop_one, List.tail_cons,
    List.dropLast_concat, hlast]

theorem Split_shape (s : String) :
    (∃ p, Split s '\n' = [p]) ∨ ∃ p0 M pl, Split s '\n' = p0 :: (M ++ [pl]) := by
  cases h : Split s '\n' with
  | nil => exact absurd h (Split_ne_nil s)
  | cons p0 rest =>
    rcases List.eq_nil_or_concat rest with h2 | ⟨M, pl, h2⟩
    · exact Or.inl ⟨p0, by rw [h2]⟩
    · exact Or.inr ⟨p0, M, pl, by rw [h2, List.concat_eq_append]⟩

theorem appendAssistantDelta_append (m : MainModel) (d1 d2 : String) :
    (m.appendAssistantDelta d1).appendAssistantDelta d2 = m.appendAssistantDelta (d1 ++ d2) := by
  rcases Split_shape d1 with ⟨p, hp⟩ | ⟨p0, M1, pl, hp⟩ <;>
    rcases Split_shape d2 with ⟨q, hq⟩ | ⟨q0, M2, ql, hq⟩
  · have h12 : Split (d1 ++ d2) '\n' = [p ++ q] := by
      rw [Split_append, hp, hq]; rfl
    rw [appendAssistantDelta_one_part m d1 p hp, appendAssistantDelta_one_part _ d2 q hq,
      appendAssistantDelta_one_part m _ _ h12]
    simp only [String.append_assoc]
  · have h12 : Split (d1 ++ d2) '\n' = (p ++ q0) :: (M2 ++ [ql]) := by
      rw [Split_append, hp, hq]; rfl
    rw [appendAssistantDelta_one_part m d1 p hp, appendAssistantDelta_more_parts _ d2 q0 ql M2 hq,
      appendAssistantDelta_more_parts m _ _ _ _ h12]
    simp only [String.append_assoc]
  · have h12 : Split (d1 ++ d2) '\n' = p0 :: (M1 ++ [pl ++ q]) := by
      rw [Split_append, hp, hq, ← List.cons_append, List.dropLast_concat, getLastD_snoc]
      rfl
    rw [appendAssistantDelta_more_parts m d1 p0 pl M1 hp, appendAssistantDelta_one_part _ d2 q hq,
      appendAssistantDelta_more_parts m _ _ _ _ h12]
  · have h12 : Split (d1 ++ d2) '\n' = p0 :: ((M1 ++ (pl ++ q0) :: M2) ++ [ql]) := by
      rw [Split_append, hp, hq, ← List.cons_append, List.dropLast_concat, getLastD_snoc]
      simp
    rw [appendAssistantDelta_more_parts m d1 p0 pl M1 hp,
      appendAssistantDelta_more_parts _ d2 q0 ql M2 hq,
      appendAssistantDelta_more_parts m _ _ _ _ h12]
    simp only []
    have hc := capTail_append 2000 ((m.outputLines ++ [m.outputPartial ++ p0]) ++ M1)
      ((pl ++ q0) :: M2)
    have e1 : capTail 2000 ((m.outputLines ++ [m.outputPartial ++ p0]) ++ M1) ++ [pl ++ q0] ++ M2 =
        capTail 2000 ((m.outputLines ++ [m.outputPartial ++ p0]) ++ M1) ++ (pl ++ q0) :: M2 := by
      simp
    have e2 : (m.outputLines ++ [m.outputPartial ++ p0]) ++ (M1 ++ (pl ++ q0) :: M2) =
        ((m.outputLines ++ [m.outputPartial ++ p0]) ++ M1) ++ (pl ++ q0) :: M2 := by
      simp
    rw [e1, e2, hc]

/-- C29. For every model state and all strings `d1` and `d2`, applying
`appendAssistantDelta` to `d1` and then to `d2` leaves `outputLines` and
`outputPartial` equal to what applying it to `d1 + d2` leaves, whether or not
a call cuts the history down to its last 2000 lines. -/
theorem appendAssistantDelta_batching (m : MainModel) (d1 d2 : String) :
    ((m.appendAssistantDelta d1).appendAssistantDelta d2).outputLines =
      (m.appendAssistantDelta (d1 ++ d2)).outputLines ∧
    ((m.appendAssistantDelta d1).appendAssistantDelta d2).outputPartial =
      (m.appendAssistantDelta (d1 ++ d2)).outputPartial := by
  rw [appendAssistantDelta_append]
  exact ⟨rfl, rfl⟩

/-! ## The rendering consumer -/

theorem updateComponents_store (m : MainModel) (w : Widgets) (msg : TeaMsg) (cmds : List Cmd) :
    (m.updateComponents w msg cmds).1.outputLines = m.outputLines ∧
    (m.updateComponents w msg cmds).1.outputPartial = m.outputPartial ∧
    (m.updateComponents w msg cmds).1.toolEvents = m.toolEvents ∧
    (m.updateComponents w msg cmds).1.fileEvents = m.fileEvents ∧
    (m.updateComponents w msg cmds).1.logEvents = m.logEvents ∧
    (m.updateComponents w msg cmds).1.streamCh = m.streamCh := by
  unfold MainModel.updateComponents MainModel.tellStatusBar
  cases m.statusBar <;> exact ⟨rfl, rfl, rfl, rfl, rfl, rfl⟩

theorem updateComponents_cmds (m : MainModel) (w : Widgets) (msg : TeaMsg) (cmds : List Cmd) :
    (m.updateComponents w msg cmds).2 = cmds ++ (w.cmds m.currentTab msg).map Cmd.widget := rfl

theorem wait_not_widget (ch : Option Nat) (names : List String) :
    Cmd.waitStreamMsg ch ∉ names.map Cmd.widget := by
  simp

/-- C24 (the code at a failing input). For every model and every behaviour of
the widgets, `Update` on a message of a type it has no case for, such as a
`ProgressMsg`, changes none of `outputLines`, `outputPartial`, `toolEvents`,
`fileEvents` and `logEvents`, but the command it returns holds no
`waitStreamMsg` for any channel: the type switch has no default case, and only
the cases of the stream events append `waitStreamMsg(m.streamCh)`. On a new
model with quiet widgets the command is empty, so the message after the
unknown one is never read from the channel. For each of the stream events the
command does hold `waitStreamMsg(m.streamCh)`. -/
theorem Update_unknown_variant_stops_draining (m : MainModel) (w : Widgets) (lg : Lipgloss) :
    (∀ (typeName : String) (ch : Option Nat),
      Cmd.waitStreamMsg ch ∉ (m.Update w lg (TeaMsg.other typeName)).2) ∧
    (∀ typeName : String,
      (m.Update w lg (TeaMsg.other typeName)).1.outputLines = m.outputLines ∧
      (m.Update w lg (TeaMsg.other typeName)).1.outputPartial = m.outputPartial ∧
      (m.Update w lg (TeaMsg.other typeName)).1.toolEvents = m.toolEvents ∧
      (m.Update w lg (TeaMsg.other typeName)).1.fileEvents = m.fileEvents ∧
      (m.Update w lg (TeaMsg.other typeName)).1.logEvents = m.logEvents) ∧
    (NewMainModel (some 1) none).Update quietWidgets lg (TeaMsg.other "ProgressMsg") =
      (NewMainModel (some 1) none, []) ∧
    (∀ e : Msg, Cmd.waitStreamMsg m.streamCh ∈ (m.Update w lg (TeaMsg.event e)).2) ∧
    (∀ streamID level message : String,
      Cmd.waitStreamMsg m.streamCh ∈ (m.Update w lg (TeaMsg.LogMsg streamID level message)).2) := by
  refine ⟨?_, ?_, rfl, ?_, ?_⟩
  · intro typeName ch
    have h : (m.Update w lg (TeaMsg.other typeName)).2 =
        (w.cmds m.currentTab (TeaMsg.other typeName)).map Cmd.widget := by
      simp [MainModel.Update, updateComponents_cmds]
    rw [h]
    exact wait_not_widget ch _
  · intro typeName
    obtain ⟨h1, h2, h3, h4, h5, -⟩ := updateComponents_store m w (TeaMsg.other typeName) []
    exact ⟨h1, h2, h3, h4, h5⟩
  · intro e
    simp [MainModel.Update, updateComponents_cmds]
  · intro streamID level message
    simp [MainModel.Update, updateComponents_cmds]

/-! ## The mock backend behind a stream handler -/

theorem TrimSpace_ne_empty_of_hasText (s : String) (h : hasText s = true) : TrimSpace s ≠ "" := by
  intro ht
  have h1 : ((s.data.dropWhile isSpace).reverse.dropWhile isSpace).reverse = [] := by
    have := congrArg String.data ht
    simpa [TrimSpace] using this
  have h2 : (s.data.dropWhile isSpace).reverse.dropWhile isSpace = [] := by
    simpa using h1
  rw [List.dropWhile_eq_nil_iff] at h2
  have h3 : s.data.dropWhile isSpace = [] := by
    by_contra hne
    have hhead := List.head_dropWhile_not isSpace s.data hne
    have hmem : (s.data.dropWhile isSpace).head hne ∈ (s.data.dropWhile isSpace).reverse :=
      List.mem_reverse.mpr (List.head_mem hne)
    rw [h2 _ hmem] at hhead
    exact Bool.noConfusion hhead
  rw [List.dropWhile_eq_nil_iff] at h3
  unfold hasText at h
  rw [List.any_eq_true] at h
  obtain ⟨c, hc, hn⟩ := h
  rw [h3 c hc] at hn
  exact Bool.noConfusion hn

theorem hasText_append_right (p t : String) (h : hasText t = true) : hasText (p ++ t) = true := by
  unfold hasText at *
  rw [String.data_append, List.any_append, h, Bool.or_true]

theorem hasText_append_left (p t : String) (h : hasText p = true) : hasText (p ++ t) = true := by
  unfold hasText at *
  rw [String.data_append, List.any_append, h, Bool.true_or]

theorem flushPending_pending (h : TUIStreamHandler) (final : Bool) :
    (h.flushPending final).pending = "" := by
  by_cases hz : h.pending.utf8ByteSize = 0
  · have hp : h.pending = "" := by
      have : h.pending.data = [] := by
        cases hd : h.pending.data with
        | nil => rfl
        | cons c cs =>
          exfalso
          have hpos : 0 < h.pending.utf8ByteSize := by
            rw [String.utf8ByteSize, hd]
            simp [String.utf8ByteSize.go]
            have := Char.utf8Size_pos c
            omega
          omega
      exact String.ext this
    have ht0 : TrimSpace "" = "" := by decide
    have hstep : h.flushPending final = h := by
      simp [TUIStreamHandler.flushPending, TUIStreamHandler.takePending, hz, ht0]
    rw [hstep]
    exact hp
  · unfold TUIStreamHandler.flushPending TUIStreamHandler.takePending TUIStreamHandler.send
    cases hc : h.ch <;> cases final <;> simp [hz] <;> split_ifs <;> simp [hc]

theorem signal_state (h : TUIStreamHandler) (ev : endEvent) :
    (h.signal ev).returned = h.returned := by
  unfold TUIStreamHandler.signal
  cases h.endCh <;> rfl

theorem step_pending_returned (h : TUIStreamHandler) (s : Step) (hc : callsOf [s] = []) :
    (h.step s).returned = true → (h.returned = true → h.pending = "") →
      (h.step s).pending = "" := by
  intro hret hinv
  cases s with
  | onToken t => simp [callsOf] at hc
  | onDone r => simp [callsOf] at hc
  | onError e => simp [callsOf] at hc
  | tick =>
    cases hr : h.returned with
    | true =>
      have hstep : h.step Step.tick = h := by simp [TUIStreamHandler.step, hr]
      rw [hstep]; exact hinv hr
    | false =>
      have hstep : h.step Step.tick = h.flushPending false := by simp [TUIStreamHandler.step, hr]
      rw [hstep]; exact flushPending_pending h false
  | recvEnd =>
    cases hr : h.returned with
    | true =>
      have hstep : h.step Step.recvEnd = h := by simp [TUIStreamHandler.step, hr]
      rw [hstep]; exact hinv hr
    | false =>
      cases he : h.endCh with
      | none =>
        have hstep : h.step Step.recvEnd = h := by simp [TUIStreamHandler.step, hr, he]
        rw [hstep] at hret
        rw [hr] at hret
        exact Bool.noConfusion hret
      | some ev =>
        have hstep : h.step Step.recvEnd = TUIStreamHandler.finish { h with endCh := none } ev := by
          simp [TUIStreamHandler.step, hr, he]
        rw [hstep, finish_pending]
        exact flushPending_pending _ true
  | deliverEnd =>
    have hfr : (h.step Step.deliverEnd).pending = h.pending ∧
        (h.step Step.deliverEnd).returned = h.returned := by
      simp only [TUIStreamHandler.step]
      split <;> exact ⟨rfl, rfl⟩
    rw [hfr.1]
    rw [hfr.2] at hret
    exact hinv hret
  | deliverAsync i =>
    have hfr : (h.step (Step.deliverAsync i)).pending = h.pending ∧
        (h.step (Step.deliverAsync i)).returned = h.returned := by
      simp only [TUIStreamHandler.step]
      split
      · exact ⟨rfl, rfl⟩
      · unfold TUIStreamHandler.send
        cases h.ch <;> exact ⟨rfl, rfl⟩
    rw [hfr.1]
    rw [hfr.2] at hret
    exact hinv hret

theorem callsOf_cons_nil (s : Step) (ss : List Step) (h : callsOf (s :: ss) = []) :
    callsOf [s] = [] ∧ callsOf ss = [] := by
  cases s <;> simp_all [callsOf]

theorem run_pending_after_calls (steps : List Step) (h : TUIStreamHandler)
    (hc : callsOf steps = []) (hinv : h.returned = true → h.pending = "") :
    (h.run steps).returned = true → (h.run steps).pending = "" := by
  induction steps generalizing h with
  | nil => exact hinv
  | cons s ss ih =>
    obtain ⟨h1, h2⟩ := callsOf_cons_nil s ss hc
    have hrun : h.run (s :: ss) = (h.step s).run ss := rfl
    rw [hrun]
    exact ih (h.step s) h2 (fun hr => step_pending_returned h s h1 hr hinv)

theorem run_pending_mock (steps : List Step) (h : TUIStreamHandler) (ts : List String)
    (R : CompletionResponse)
    (hc : callsOf steps = ts.map HandlerCall.onToken ++ [HandlerCall.onDone R])
    (hr : h.returned = false) (he : h.endCh = none) (hs : h.endSenders = []) :
    (h.run steps).returned = true → (h.run steps).pending = "" := by
  induction steps generalizing h ts with
  | nil => cases ts <;> simp [callsOf] at hc
  | cons s ss ih =>
    have hrun : h.run (s :: ss) = (h.step s).run ss := rfl
    rw [hrun]
    cases s with
    | onToken t =>
      cases ts with
      | nil => simp [callsOf] at hc
      | cons t2 ts2 =>
        simp only [callsOf, List.map_cons, List.cons_append, List.cons.injEq] at hc
        exact ih (h.step (Step.onToken t)) ts2 hc.2 hr he hs
    | onDone r =>
      cases ts with
      | cons t2 ts2 => simp [callsOf] at hc
      | nil =>
        simp only [callsOf, List.map_nil, List.nil_append, List.cons.injEq] at hc
        apply run_pending_after_calls ss _ hc.2
        intro hret
        have : (h.step (Step.onDone r)).returned = h.returned := by
          simp only [TUIStreamHandler.step, TUIStreamHandler.OnDone]
          exact signal_state _ _
        rw [this, hr] at hret
        exact Bool.noConfusion hret
    | onError e => cases ts <;> simp [callsOf] at hc
    | tick =>
      have hstep : h.step Step.tick = h.flushPending false := by simp [TUIStreamHandler.step, hr]
      obtain ⟨f1, -, f3, f4, -, -⟩ := flushPending_frame h false
      rw [hstep]
      exact ih _ ts hc (by rw [f1]; exact hr) (by rw [f3]; exact he) (by rw [f4]; exact hs)
    | recvEnd =>
      have hstep : h.step Step.recvEnd = h := by simp [TUIStreamHandler.step, hr, he]
      rw [hstep]
      exact ih h ts hc hr he hs
    | deliverEnd =>
      have hstep : h.step Step.deliverEnd = h := by simp [TUIStreamHandler.step, he, hs]
      rw [hstep]
      exact ih h ts hc hr he hs
    | deliverAsync i =>
      have hfr : (h.step (Step.deliverAsync i)).returned = h.returned ∧
          (h.step (Step.deliverAsync i)).endCh = h.endCh ∧
          (h.step (Step.deliverAsync i)).endSenders = h.endSenders := by
        simp only [TUIStreamHandler.step]
        split
        · exact ⟨rfl, rfl, rfl⟩
        · unfold TUIStreamHandler.send
          cases h.ch <;> exact ⟨rfl, rfl, rfl⟩
      exact ih _ ts hc (by rw [hfr.1]; exact hr) (by rw [hfr.2.1]; exact he)
        (by rw [hfr.2.2]; exact hs)

theorem step_text_inv (h : TUIStreamHandler) (s : Step)
    (hI : h.pending = "" ∨ hasText h.pending = true)
    (ht : ∀ t, s = Step.onToken t → hasText t = true) :
    h.discards s = "" ∧ ((h.step s).pending = "" ∨ hasText (h.step s).pending = true) := by
  have hd : TrimSpace h.pending = "" → h.pending = "" := by
    intro h0
    rcases hI with h1 | h1
    · exact h1
    · exact absurd h0 (TrimSpace_ne_empty_of_hasText _ h1)
  cases s with
  | onToken t =>
    exact ⟨rfl, Or.inr (hasText_append_right _ _ (ht t rfl))⟩
  | onDone r =>
    refine ⟨rfl, ?_⟩
    have : (h.step (Step.onDone r)).pending = h.pending := by
      simp only [TUIStreamHandler.step, TUIStreamHandler.OnDone]
      exact (signal_frame _ _).2.1
    rw [this]; exact hI
  | onError e =>
    refine ⟨rfl, ?_⟩
    have : (h.step (Step.onError e)).pending = h.pending := by
      simp only [TUIStreamHandler.step, TUIStreamHandler.OnError]
      exact (signal_frame _ _).2.1
    rw [this]; exact hI
  | tick =>
    cases hr : h.returned with
    | true =>
      have hstep : h.step Step.tick = h := by simp [TUIStreamHandler.step, hr]
      rw [hstep]
      exact ⟨by simp [TUIStreamHandler.discards, hr], hI⟩
    | false =>
      have hstep : h.step Step.tick = h.flushPending false := by simp [TUIStreamHandler.step, hr]
      rw [hstep]
      refine ⟨?_, Or.inl (flushPending_pending h false)⟩
      simp only [TUIStreamHandler.discards, hr, Bool.false_eq_true, if_false]
      split_ifs with h0
      · exact hd h0
      · rfl
  | recvEnd =>
    cases hr : h.returned with
    | true =>
      have hstep : h.step Step.recvEnd = h := by simp [TUIStreamHandler.step, hr]
      rw [hstep]
      exact ⟨by simp [TUIStreamHandler.discards, hr], hI⟩
    | false =>
      cases he : h.endCh with
      | none =>
        have hstep : h.step Step.recvEnd = h := by simp [TUIStreamHandler.step, hr, he]
        rw [hstep]
        exact ⟨by simp [TUIStreamHandler.discards, hr, he], hI⟩
      | some ev =>
        have hstep : h.step Step.recvEnd = TUIStreamHandler.finish { h with endCh := none } ev := by
          simp [TUIStreamHandler.step, hr, he]
        rw [hstep, finish_pending]
        refine ⟨?_, Or.inl (flushPending_pending _ true)⟩
        simp only [TUIStreamHandler.discards, hr, he, Bool.false_eq_true, if_false]
        split_ifs with h0
        · exact hd h0
        · rfl
  | deliverEnd =>
    refine ⟨rfl, ?_⟩
    have : (h.step Step.deliverEnd).pending = h.pending := by
      simp only [TUIStreamHandler.step]
      split <;> rfl
    rw [this]; exact hI
  | deliverAsync i =>
    refine ⟨rfl, ?_⟩
    have : (h.step (Step.deliverAsync i)).pending = h.pending := by
      simp only [TUIStreamHandler.step]
      split
      · rfl
      · unfold TUIStreamHandler.send
        cases h.ch <;> rfl
    rw [this]; exact hI

theorem lossless_of_text (steps : List Step) (h : TUIStreamHandler)
    (hI : h.pending = "" ∨ hasText h.pending = true)
    (ht : ∀ t ∈ tokensOf steps, hasText t = true) : h.lossless steps = true := by
  induction steps generalizing h with
  | nil => rfl
  | cons s ss ih =>
    have hs : ∀ t, s = Step.onToken t → hasText t = true := by
      intro t e
      subst e
      exact ht t (by simp [tokensOf])
    obtain ⟨h1, h2⟩ := step_text_inv h s hI hs
    have hrest : ∀ t ∈ tokensOf ss, hasText t = true := by
      intro t hm
      apply ht
      cases s <;> simp [tokensOf, hm]
    simp only [TUIStreamHandler.lossless, Bool.and_eq_true, beq_iff_eq]
    exact ⟨h1, ih (h.step s) h2 hrest⟩

theorem tokensOf_callsOf (steps : List Step) : tokensOf steps = tokensOfCalls (callsOf steps) := by
  induction steps with
  | nil => rfl
  | cons s ss ih => cases s <;> simp [tokensOf, callsOf, tokensOfCalls, ih]

theorem firstSignal_of_calls (steps : List Step) (ts : List String) (R : CompletionResponse)
    (hc : callsOf steps = ts.map HandlerCall.onToken ++ [HandlerCall.onDone R]) :
    firstSignal steps = some { resp := some R } := by
  induction steps generalizing ts with
  | nil => cases ts <;> simp [callsOf] at hc
  | cons s ss ih =>
    cases s with
    | onToken t =>
      cases ts with
      | nil => simp [callsOf] at hc
      | cons t2 ts2 =>
        simp only [callsOf, List.map_cons, List.cons_append, List.cons.injEq] at hc
        simpa [firstSignal] using ih ts2 hc.2
    | onDone r =>
      cases ts with
      | cons t2 ts2 => simp [callsOf] at hc
      | nil =>
        simp only [callsOf, List.map_nil, List.nil_append, List.cons.injEq,
          HandlerCall.onDone.injEq] at hc
        simp [firstSignal, hc.1]
    | onError e => cases ts <;> simp [callsOf] at hc
    | tick => simpa [firstSignal, callsOf] using ih ts (by simpa [callsOf] using hc)
    | recvEnd => simpa [firstSignal, callsOf] using ih ts (by simpa [callsOf] using hc)
    | deliverEnd => simpa [firstSignal, callsOf] using ih ts (by simpa [callsOf] using hc)
    | deliverAsync i => simpa [firstSignal, callsOf] using ih ts (by simpa [callsOf] using hc)

theorem flushPending_endTokens (h : TUIStreamHandler) (final : Bool) (l : List Msg)
    (hch : h.ch = some l) :
    ∃ add, (h.flushPending final).ch = some (l ++ add) ∧ add.all endTokensOk = true := by
  unfold TUIStreamHandler.flushPending TUIStreamHandler.takePending TUIStreamHandler.send
  cases final <;> simp <;> split_ifs <;> simp [hch, endTokensOk]

theorem finishMsgs_endTokens (h1 : TUIStreamHandler) (ev : endEvent) :
    endTokensOk (finishMsgs h1 ev).1 = true ∧ endTokensOk (finishMsgs h1 ev).2 = true := by
  unfold finishMsgs
  cases ev.err with
  | some e => exact ⟨rfl, rfl⟩
  | none =>
    refine ⟨?_, rfl⟩
    cases ev.resp with
    | none => simp [endTokensOk]
    | some r =>
      simp only [endTokensOk, decide_eq_true_eq]
      split_ifs with hpos
      · exact Int.le_of_lt hpos
      · exact Int.le_refl 0

theorem step_endTokens (h : TUIStreamHandler) (s : Step) (l : List Msg) (hch : h.ch = some l)
    (ha : h.asyncSends.all endTokensOk = true) :
    ∃ add, (h.step s).ch = some (l ++ add) ∧ add.all endTokensOk = true ∧
      (h.step s).asyncSends.all endTokensOk = true := by
  cases s with
  | onToken t => exact ⟨[], by simpa [TUIStreamHandler.step, TUIStreamHandler.OnToken] using hch,
      rfl, ha⟩
  | onDone r =>
    obtain ⟨f1, -, f3⟩ := signal_frame { h with base := h.base.OnDone r } { resp := some r }
    refine ⟨[], ?_, rfl, ?_⟩
    · rw [TUIStreamHandler.step, TUIStreamHandler.OnDone, f1, List.append_nil]; exact hch
    · rw [TUIStreamHandler.step, TUIStreamHandler.OnDone, f3]; exact ha
  | onError e =>
    obtain ⟨f1, -, f3⟩ := signal_frame { h with base := h.base.OnError e } { err := some e }
    refine ⟨[], ?_, rfl, ?_⟩
    · rw [TUIStreamHandler.step, TUIStreamHandler.OnError, f1, List.append_nil]; exact hch
    · rw [TUIStreamHandler.step, TUIStreamHandler.OnError, f3]; exact ha
  | tick =>
    cases hr : h.returned with
    | true =>
      exact ⟨[], by simpa [TUIStreamHandler.step, hr] using hch, rfl,
        by simpa [TUIStreamHandler.step, hr] using ha⟩
    | false =>
      have hstep : h.step Step.tick = h.flushPending false := by
        simp [TUIStreamHandler.step, hr]
      obtain ⟨add, h1, h2⟩ := flushPending_endTokens h false l hch
      obtain ⟨-, f2, -, -, -, -⟩ := flushPending_frame h false
      rw [hstep]
      exact ⟨add, h1, h2, by rw [f2]; exact ha⟩
  | recvEnd =>
    cases hr : h.returned with
    | true =>
      exact ⟨[], by simpa [TUIStreamHandler.step, hr] using hch, rfl,
        by simpa [TUIStreamHandler.step, hr] using ha⟩
    | false =>
      cases he : h.endCh with
      | none =>
        have hstep : h.step Step.recvEnd = h := by simp [TUIStreamHandler.step, hr, he]
        rw [hstep]
        exact ⟨[], by simpa using hch, rfl, ha⟩
      | some ev =>
        have hstep : h.step Step.recvEnd = TUIStreamHandler.finish { h with endCh := none } ev := by
          simp [TUIStreamHandler.step, hr, he]
        obtain ⟨add, h1, h2⟩ := flushPending_endTokens { h with endCh := none } true l hch
        obtain ⟨g0, g3, -⟩ := finish_spec { h with endCh := none } ev l hch
        obtain ⟨d1, d2⟩ :=
          finishMsgs_endTokens (TUIStreamHandler.flushPending { h with endCh := none } true) ev
        rw [hstep]
        refine ⟨add, by rw [g0, h1], h2, ?_⟩
        rw [g3, List.all_append]
        simp only [List.all_cons, List.all_nil, d1, d2, Bool.and_true]
        exact ha
  | deliverEnd =>
    have hfr : (h.step Step.deliverEnd).ch = h.ch ∧
        (h.step Step.deliverEnd).asyncSends = h.asyncSends := by
      simp only [TUIStreamHandler.step]
      split <;> simp
    obtain ⟨e1, e2⟩ := hfr
    exact ⟨[], by rw [e1, List.append_nil, hch], rfl, by rw [e2]; exact ha⟩
  | deliverAsync i =>
    cases hm : h.asyncSends[i]? with
    | none =>
      have hstep : h.step (Step.deliverAsync i) = h := by simp [TUIStreamHandler.step, hm]
      rw [hstep]
      exact ⟨[], by simpa using hch, rfl, ha⟩
    | some m =>
      have hstep : h.step (Step.deliverAsync i) =
          { h with ch := some (l ++ [m]), asyncSends := h.asyncSends.eraseIdx i } := by
        simp [TUIStreamHandler.step, hm, TUIStreamHandler.send, hch]
      have hmh : endTokensOk m = true := List.all_eq_true.mp ha m (List.getElem?_mem hm)
      rw [hstep]
      refine ⟨[m], rfl, by simp [hmh], ?_⟩
      apply List.all_eq_true.mpr
      intro x hx
      exact List.all_eq_true.mp ha x ((List.eraseIdx_sublist _ _).subset hx)

theorem run_endTokens (steps : List Step) (h : TUIStreamHandler) (l : List Msg)
    (hch : h.ch = some l) (hl : l.all endTokensOk = true)
    (ha : h.asyncSends.all endTokensOk = true) :
    ((h.run steps).sent ++ (h.run steps).asyncSends).all endTokensOk = true := by
  induction steps generalizing h l with
  | nil =>
    simp only [TUIStreamHandler.run, List.foldl_nil, TUIStreamHandler.sent, hch, Option.getD_some,
      List.all_append, hl, ha, Bool.and_self]
  | cons s ss ih =>
    obtain ⟨add, h1, h2, h3⟩ := step_endTokens h s l hch ha
    have hrun : h.run (s :: ss) = (h.step s).run ss := rfl
    rw [hrun]
    exact ih (h.step s) (l ++ add) h1 (by rw [List.all_append, hl, h2]; rfl) h3

theorem mock_calls (req : CompletionRequest) :
    (MockProvider.StreamComplete {} req).1 =
      mockParts.map HandlerCall.onToken ++ [HandlerCall.onDone (mockStreamResponse req)] := rfl

/-- C22 (as amended). For every schedule that interleaves the calls of
`MockProvider.StreamComplete` (context never done) with steps of the flush loop
and of its sending goroutines, on a new handler with an empty channel: the
texts of the `TokenDeltaMsg` events sent so far, followed by the text still
buffered, are "Hello, world!\nThis is a mock stream.\n"; no `TokenDeltaMsg`
follows a terminal event on the channel; every `StreamEndMsg` sent or waiting
to be sent has `TokensUsed >= 0`; once `flushLoop` has returned, nothing is
buffered, the deltas sent concatenate to that whole text, and the events sent
or waiting to be sent hold exactly one `StreamEndMsg` and no `StreamErrorMsg`;
and the loop returns as soon as it takes its end branch. -/
theorem mock_stream_events (streamID modelName provider : String) (req : CompletionRequest)
    (steps : List Step) (hcalls : callsOf steps = (MockProvider.StreamComplete {} req).1) :
    String.join (deltas (handlerAfter streamID modelName provider steps).sent) ++
        (handlerAfter streamID modelName provider steps).pending =
      "Hello, world!\nThis is a mock stream.\n" ∧
    liveAfterTerminal (handlerAfter streamID modelName provider steps).sent = false ∧
    (∀ m ∈ (handlerAfter streamID modelName provider steps).sent ++
        (handlerAfter streamID modelName provider steps).asyncSends,
      ∀ used, endTokens m = some used → 0 ≤ used) ∧
    ((handlerAfter streamID modelName provider steps).returned = true →
      (handlerAfter streamID modelName provider steps).pending = "" ∧
      String.join (deltas (handlerAfter streamID modelName provider steps).sent) =
        "Hello, world!\nThis is a mock stream.\n" ∧
      ((handlerAfter streamID modelName provider steps).sent ++
        (handlerAfter streamID modelName provider steps).asyncSends).countP isStreamEnd = 1 ∧
      ((handlerAfter streamID modelName provider steps).sent ++
        (handlerAfter streamID modelName provider steps).asyncSends).countP isStreamError = 0) ∧
    ((handlerAfter streamID modelName provider steps).step Step.recvEnd).returned = true := by
  rw [mock_calls] at hcalls
  have htok : tokensOf steps = mockParts := by
    rw [tokensOf_callsOf, hcalls]
    rfl
  have hfs := firstSignal_of_calls steps mockParts (mockStreamResponse req) hcalls
  have hloss : (NewTUIStreamHandler streamID modelName provider (some [])).lossless steps = true := by
    apply lossless_of_text
    · exact Or.inl rfl
    · rw [htok]
      decide
  have htext := lossless_run_preserves_text streamID modelName provider steps hloss
  rw [htok] at htext
  have hjoin : String.join mockParts = "Hello, world!\nThis is a mock stream.\n" := by decide
  rw [hjoin] at htext
  have hpend := run_pending_mock steps (NewTUIStreamHandler streamID modelName provider (some []))
    mockParts (mockStreamResponse req) hcalls rfl rfl rfl
  have hend := run_endTokens steps (NewTUIStreamHandler streamID modelName provider (some [])) []
    rfl rfl rfl
  have hinv := LoopInv_run [] steps none _ (LoopInv_new streamID modelName provider [])
  have hfs2 : (none.orElse fun _ => firstSignal steps) = firstSignal steps := rfl
  rw [hfs2, hfs] at hinv
  unfold handlerAfter
  generalize (NewTUIStreamHandler streamID modelName provider (some [])).run steps = h at *
  obtain ⟨new, hch, hlive, hasync, hrun, hret⟩ := hinv
  have hsent : h.sent = new := by simp [TUIStreamHandler.sent, hch]
  refine ⟨htext, by rw [hsent]; exact hlive, ?_, ?_, ?_⟩
  · intro m hm used hu
    have hok := List.all_eq_true.mp hend m hm
    cases m <;> simp_all [endTokens, endTokensOk]
  · intro hr
    have hp := hpend hr
    obtain ⟨ev, hev, c1, c2⟩ := hret hr
    have hev2 : ev = { resp := some (mockStreamResponse req) } := by
      injection hev with hev
      exact hev.symm
    subst hev2
    refine ⟨hp, ?_, ?_, ?_⟩
    · rw [hp, String.append_empty] at htext
      exact htext
    · rw [hsent]; simpa using c1
    · rw [hsent]; simpa using c2
  · cases hr : h.returned with
    | true => simp [TUIStreamHandler.step, hr]
    | false =>
      obtain ⟨ha, -, hfs3, -⟩ := hrun hr
      obtain ⟨_, _, _, -, -, -, g4, -⟩ :=
        recvEnd_spec h { resp := some (mockStreamResponse req) } _ hr hfs3 hch ha
      exact g4

/-- C22 on a schedule in which the loop ticks after every third token, for a
request of the model "mock-stream": the schedule makes the calls of the mock
provider and the loop has returned, so nothing is buffered, the three deltas
sent concatenate to the whole text, and there is one `StreamEndMsg` and no
`StreamErrorMsg`. -/
theorem mock_stream_events_witness :
    callsOf (mockScheduleTicks { Model := "mock-stream" }) =
      (MockProvider.StreamComplete {} { Model := "mock-stream" }).1 ∧
    deltas (handlerAfter "s1" "mock-stream" "Mock"
      (mockScheduleTicks { Model := "mock-stream" })).sent =
      ["Hello, world", "!\nThis is ", "a mock stream.\n"] ∧
    (handlerAfter "s1" "mock-stream" "Mock"
      (mockScheduleTicks { Model := "mock-stream" })).returned = true ∧
    (handlerAfter "s1" "mock-stream" "Mock"
      (mockScheduleTicks { Model := "mock-stream" })).pending = "" ∧
    String.join (deltas (handlerAfter "s1" "mock-stream" "Mock"
      (mockScheduleTicks { Model := "mock-stream" })).sent) =
      "Hello, world!\nThis is a mock stream.\n" ∧
    ((handlerAfter "s1" "mock-stream" "Mock"
        (mockScheduleTicks { Model := "mock-stream" })).sent ++
      (handlerAfter "s1" "mock-stream" "Mock"
        (mockScheduleTicks { Model := "mock-stream" })).asyncSends).countP isStreamEnd = 1 ∧
    ((handlerAfter "s1" "mock-stream" "Mock"
        (mockScheduleTicks { Model := "mock-stream" })).sent ++
      (handlerAfter "s1" "mock-stream" "Mock"
        (mockScheduleTicks { Model := "mock-stream" })).asyncSends).countP isStreamError = 0 :=
  ⟨by decide, by decide, by decide,
    (mock_stream_events "s1" "mock-stream" "Mock" { Model := "mock-stream" }
      (mockScheduleTicks { Model := "mock-stream" }) (by decide)).2.2.2.1 (by decide)⟩

/-- C22 (counterexample). The mock provider, its context never done, feeds a
new handler; the loop takes its end branch and both sends complete. The
handler sent one `TokenDeltaMsg`, whose text is
"Hello, world!\nThis is a mock stream.\n" and not "Hello, world!", followed by
one `StreamEndMsg` with 9 tokens. -/
theorem mock_stream_text_is_longer :
    callsOf (mockScheduleNoTick { Model := "mock-stream" }) =
      (MockProvider.StreamComplete {} { Model := "mock-stream" }).1 ∧
    (handlerAfter "s1" "mock-stream" "Mock" (mockScheduleNoTick { Model := "mock-stream" })).sent =
      [Msg.TokenDeltaMsg "s1" StreamRoleAssistant "Hello, world!\nThis is a mock stream.\n",
       Msg.StreamEndMsg "s1" StreamRoleAssistant 9 (Cost.usage 0 9),
       Msg.StatusMsg "s1" "mock-stream" "Mock" 9 (Cost.usage 0 9) "complete"] ∧
    String.join (deltas (handlerAfter "s1" "mock-stream" "Mock"
      (mockScheduleNoTick { Model := "mock-stream" })).sent) ≠ "Hello, world!" := by
  refine ⟨by decide, by decide, by decide⟩

/-! ## Tool events and the end of the stream -/

/-- C21 (the code at a failing input). In the prompt cycle of the mock
backend with stream id "s1", under the schedule in which the execution
goroutine goes on to the tool call as soon as `OnDone` has returned, both
`ToolCallMsg` events of "s1" are on the channel before the `StreamEndMsg` of
"s1": `OnDone` only signals the flush loop, which sends the `StreamEndMsg`
from a goroutine of its own, and the execution goroutine does not wait for
it. Under the schedule in which the loop and its goroutines run first, the
`StreamEndMsg` comes first. Both schedules run the cycle to its end. -/
theorem promptCycle_tool_event_before_stream_end :
    toolAndEndOrder (promptCycle mockManager sampleTools "mock-stream" "s1" "hi" false 1200 []
      mainFirstSchedule).h.sent = [(false, "s1"), (false, "s1"), (true, "s1")] ∧
    toolAndEndOrder (promptCycle mockManager sampleTools "mock-stream" "s1" "hi" false 1200 []
      loopFirstSchedule).h.sent = [(true, "s1"), (false, "s1"), (false, "s1")] ∧
    (promptCycle mockManager sampleTools "mock-stream" "s1" "hi" false 1200 []
      mainFirstSchedule).todo = [] ∧
    (promptCycle mockManager sampleTools "mock-stream" "s1" "hi" false 1200 []
      mainFirstSchedule).h.asyncSends = [] ∧
    (promptCycle mockManager sampleTools "mock-stream" "s1" "hi" false 1200 []
      loopFirstSchedule).todo = [] ∧
    (promptCycle mockManager sampleTools "mock-stream" "s1" "hi" false 1200 []
      loopFirstSchedule).h.asyncSends = [] := by
  refine ⟨by decide, by decide, by decide, by decide, by decide, by decide⟩

/-! ## Advertised tools are routable -/

theorem ListTools_no_tool (net : MCPNet) (url : String) (tools : List Tool)
    (h : MCPClientTransport.ListTools net url = Except.ok tools) : tools = [] := by
  unfold MCPClientTransport.ListTools at h
  cases hr : net.toolsList url with
  | error e => rw [hr] at h; cases h
  | ok resp =>
    rw [hr] at h
    have hs : resp.Result.asMapSlice = none := by
      cases resp.Result <;> rfl
    simp only [hs] at h
    injection h with h
    exact h.symm

theorem mem_mapSet {α : Type} (m : List (String × α)) (k : String) (v : α) (e : String × α)
    (h : e ∈ mapSet m k v) : e = (k, v) ∨ (e ∈ m ∧ e.1 ≠ k) := by
  simp only [mapSet, List.mem_cons, List.mem_filter, bne_iff_ne, ne_eq] at h
  exact h

theorem keys_mapSet_nodup {α : Type} (m : List (String × α)) (k : String) (v : α)
    (h : (m.map Prod.fst).Nodup) : ((mapSet m k v).map Prod.fst).Nodup := by
  simp only [mapSet, List.map_cons, List.nodup_cons]
  refine ⟨?_, h.sublist ((List.filter_sublist m).map Prod.fst)⟩
  intro hk
  rw [List.mem_map] at hk
  obtain ⟨e, he, hek⟩ := hk
  rw [List.mem_filter] at he
  simp [hek] at he

theorem keys_mapDelete_nodup {α : Type} (m : List (String × α)) (k : String)
    (h : (m.map Prod.fst).Nodup) : ((mapDelete m k).map Prod.fst).Nodup :=
  h.sublist ((List.filter_sublist m).map Prod.fst)

theorem keys_setEnabled (tools : List (String × Tool)) (id : String) (b : Bool) :
    (setEnabled tools id b).map Prod.fst = tools.map Prod.fst := by
  unfold setEnabled
  rw [List.map_map]
  apply List.map_congr_left
  intro e _
  simp only [Function.comp]
  split_ifs <;> rfl

theorem lookup_of_mem_nodup {α : Type} (m : List (String × α)) (e : String × α)
    (hn : (m.map Prod.fst).Nodup) (he : e ∈ m) : m.lookup e.1 = some e.2 := by
  induction m with
  | nil => cases he
  | cons x rest ih =>
    obtain ⟨a, b⟩ := x
    simp only [List.map_cons, List.nodup_cons] at hn
    rcases List.mem_cons.mp he with h | h
    · subst h
      simp [List.lookup]
    · have hne : e.1 ≠ a := by
        intro heq
        exact hn.1 (heq ▸ List.mem_map_of_mem Prod.fst h)
      have h1 : (e.1 == a) = false := by simpa using hne
      simp only [List.lookup, h1]
      exact ih hn.2 h

theorem RegistryInv_new (cfg : ToolsConfig) (env : ToolEnv) :
    RegistryInv (NewToolManager cfg env) := by
  unfold RegistryInv NewToolManager initializeBuiltinTools
  refine ⟨?_, ?_, ?_⟩
  · intro e he
    simp only [List.mem_append, List.mem_singleton] at he
    rcases he with (he | he) | he
    · split_ifs at he
      · rw [List.mem_singleton.mp he]; rfl
      · cases he
    · split_ifs at he
      · rw [List.mem_singleton.mp he]; rfl
      · cases he
    · rw [he]; rfl
  · cases cfg.Tavily.Enabled <;> cases cfg.Base44.Enabled <;> simp
  · intro e he
    cases he

theorem RegistryInv_afterOp (servers : List MCPServerConfig) (tm : ToolManager) (op : ToolOp)
    (h : RegistryInv tm) : RegistryInv (tm.afterOp servers op) := by
  obtain ⟨h1, h2, h3⟩ := h
  cases op with
  | RegisterTool tool =>
    simp only [ToolManager.afterOp, ToolManager.RegisterTool]
    cases tm.tools.lookup tool.ID with
    | some t => exact ⟨h1, h2, h3⟩
    | none =>
      refine ⟨?_, keys_mapSet_nodup _ _ _ h2, h3⟩
      intro e he
      rcases mem_mapSet _ _ _ _ he with he | ⟨he, -⟩
      · subst he; rfl
      · exact h1 e he
  | UnregisterTool id =>
    simp only [ToolManager.afterOp, ToolManager.UnregisterTool]
    cases tm.tools.lookup id with
    | none => exact ⟨h1, h2, h3⟩
    | some t =>
      exact ⟨fun e he => h1 e (List.mem_filter.mp he).1, keys_mapDelete_nodup _ _ h2, h3⟩
  | EnableTool id =>
    simp only [ToolManager.afterOp, ToolManager.EnableTool]
    cases tm.tools.lookup id with
    | none => exact ⟨h1, h2, h3⟩
    | some t =>
      refine ⟨?_, by rw [keys_setEnabled]; exact h2, h3⟩
      intro e he
      simp only [setEnabled, List.mem_map] at he
      obtain ⟨x, hx, hxe⟩ := he
      split_ifs at hxe <;> subst hxe <;> exact h1 x hx
  | DisableTool id =>
    simp only [ToolManager.afterOp, ToolManager.DisableTool]
    cases tm.tools.lookup id with
    | none => exact ⟨h1, h2, h3⟩
    | some t =>
      refine ⟨?_, by rw [keys_setEnabled]; exact h2, h3⟩
      intro e he
      simp only [setEnabled, List.mem_map] at he
      obtain ⟨x, hx, hxe⟩ := he
      split_ifs at hxe <;> subst hxe <;> exact h1 x hx
  | ConnectMCPServer net id =>
    simp only [ToolManager.afterOp, ToolManager.ConnectMCPServer]
    cases servers.find? fun sc => sc.ID = id with
    | none => exact ⟨h1, h2, h3⟩
    | some sc =>
      dsimp only
      cases net.connect sc.URL with
      | some err => exact ⟨h1, h2, h3⟩
      | none =>
        dsimp only
        cases hl : MCPClientTransport.ListTools net sc.URL with
        | error err => exact ⟨h1, h2, h3⟩
        | ok tools =>
          refine ⟨h1, h2, ?_⟩
          intro e he
          rcases mem_mapSet _ _ _ _ he with he | ⟨he, -⟩
          · subst he
            exact ListTools_no_tool net sc.URL tools hl
          · exact h3 e he
  | DisconnectMCPServer net id =>
    simp only [ToolManager.afterOp, ToolManager.DisconnectMCPServer]
    cases tm.mcpServers.lookup id with
    | none => exact ⟨h1, h2, h3⟩
    | some server =>
      dsimp only
      cases net.disconnect server.URL with
      | some err => exact ⟨h1, h2, h3⟩
      | none => exact ⟨h1, h2, fun e he => h3 e (List.mem_filter.mp he).1⟩

theorem RegistryInv_afterOps (servers : List MCPServerConfig) (ops : List ToolOp)
    (tm : ToolManager) (h : RegistryInv tm) : RegistryInv (tm.afterOps servers ops) := by
  induction ops generalizing tm with
  | nil => exact h
  | cons op rest ih => exact ih _ (RegistryInv_afterOp servers tm op h)

theorem routable_of_inv (tm : ToolManager) (h : RegistryInv tm) (d : ToolDefinition)
    (hd : d ∈ tm.ToLLMToolDefinitions) (input : List (String × Value)) :
    ∃ tool, tm.tools.lookup d.Name = some tool ∧ tool.Enabled = true ∧
      tm.Execute d.Name input =
        { result := (tool.Handler input).1, err := (tool.Handler input).2,
          handlerCalls := [(d.Name, input)] } := by
  obtain ⟨h1, h2, h3⟩ := h
  unfold ToolManager.ToLLMToolDefinitions at hd
  rcases List.mem_append.mp hd with hd | hd
  · simp only [List.mem_map, List.mem_filter] at hd
    obtain ⟨tool, ⟨⟨e, he, het⟩, hen⟩, hdef⟩ := hd
    subst het
    have hname : d.Name = e.1 := by
      rw [← hdef]
      exact h1 e he
    have hl := lookup_of_mem_nodup tm.tools e h2 he
    refine ⟨e.2, by rw [hname]; exact hl, hen, ?_⟩
    simp [ToolManager.Execute, ToolManager.GetTool, hname, hl, hen]
  · exfalso
    simp only [List.mem_flatMap, List.mem_filter, List.mem_map] at hd
    obtain ⟨server, ⟨⟨e, he, hes⟩, -⟩, t, ⟨ht, -⟩, -⟩ := hd
    subst hes
    rw [h3 e he] at ht
    cases ht

/-- C15. For every configuration and environment, every list of configured MCP
servers and every sequence of calls of the methods that write the registry
(`RegisterTool`, `UnregisterTool`, `EnableTool`, `DisableTool`,
`ConnectMCPServer`, `DisconnectMCPServer`), whatever the network answers: each
definition `ToLLMToolDefinitions` returns names a tool that is registered
under that name and enabled, and `Execute` on that name invokes that tool's
handler once with the given input and returns what the handler returns, so it
fails neither with the not-found nor with the not-enabled error. No server in
`mcpServers` holds a tool (`ListTools` builds tools only from a
`[]map[string]any`, which a decoded reply never is), so the definitions
returned are those of the enabled tools of the registry. -/
theorem advertised_tools_routable (cfg : ToolsConfig) (env : ToolEnv)
    (servers : List MCPServerConfig) (ops : List ToolOp) (d : ToolDefinition)
    (input : List (String × Value))
    (hd : d ∈ ((NewToolManager cfg env).afterOps servers ops).ToLLMToolDefinitions) :
    (∃ tool, ((NewToolManager cfg env).afterOps servers ops).tools.lookup d.Name = some tool ∧
      tool.Enabled = true ∧
      ((NewToolManager cfg env).afterOps servers ops).Execute d.Name input =
        { result := (tool.Handler input).1, err := (tool.Handler input).2,
          handlerCalls := [(d.Name, input)] }) ∧
    (∀ e ∈ ((NewToolManager cfg env).afterOps servers ops).mcpServers, e.2.Tools = []) := by
  have hinv := RegistryInv_afterOps servers ops _ (RegistryInv_new cfg env)
  exact ⟨routable_of_inv _ hinv d hd input, hinv.2.2⟩

/-- C15 on a session with Tavily enabled in which a server that answers
`tools/list` with the tool "remote_search" is connected, the custom tool
"format_code" is registered and enabled and the search tool is disabled: two
names are advertised, "write_file" and "format_code", and `Execute` on
"format_code" invokes its handler. -/
theorem advertised_tools_routable_witness :
    ((NewToolManager { Tavily := { Enabled := true } } okEnv).afterOps sampleServers
      sampleOps).ToLLMToolDefinitions.length = 2 ∧
    "write_file" ∈ ((NewToolManager { Tavily := { Enabled := true } } okEnv).afterOps
      sampleServers sampleOps).ToLLMToolDefinitions.map (fun d => d.Name) ∧
    customTool.toDefinition ∈ ((NewToolManager { Tavily := { Enabled := true } } okEnv).afterOps
      sampleServers sampleOps).ToLLMToolDefinitions ∧
    (∃ tool, ((NewToolManager { Tavily := { Enabled := true } } okEnv).afterOps sampleServers
        sampleOps).tools.lookup customTool.toDefinition.Name = some tool ∧
      tool.Enabled = true ∧
      ((NewToolManager { Tavily := { Enabled := true } } okEnv).afterOps sampleServers
        sampleOps).Execute customTool.toDefinition.Name [] =
        { result := (tool.Handler []).1, err := (tool.Handler []).2,
          handlerCalls := [(customTool.toDefinition.Name, [])] }) :=
  ⟨by decide, by decide, by decide,
    (advertised_tools_routable { Tavily := { Enabled := true } } okEnv sampleServers sampleOps
      customTool.toDefinition [] (by decide)).1⟩

end Komplete
